import Mathlib

/-!
# Registration ledger of the gsdta API (in-memory store)

A shallow embedding of `api/internal/store/memory/enrollment_ops.go` and of the
event-registration helpers of `api/internal/store/memory/memory.go`.

Modelling conventions.

* A Go `map[string]T` whose key is always the record's `Meta.ID` (every writer
  of the repository stores a record under its own ID) is a `List T`.  The order
  of the list is the order in which the next `range` loop enumerates the map;
  Go leaves that order unspecified, so statements quantify over all lists.
  `mapGet` is the lookup `m[id]`, `mapSet` is the assignment `m[v.ID] = v`.
  A Go map has one entry per key: `Store.WF` records that (`Nodup` of the IDs).
* `time.Time` is an `Int` (an instant); `t.Before(u)` is `t < u`.
* `time.Now()` and `newID()` are inputs of the operation: each call of
  `time.Now()` in the source is one `Time` argument, `newID()` one `String`.
* Go `int` is `Int` (capacities and counters stay far from the 64-bit range).
* An operation returns the store it leaves behind together with its Go result;
  the `(value, error)` pair is an `Except`.
* The mutex is not modelled: every operation runs as one atomic step.
-/

namespace Gsdta

/-! ## domain/models.go -/

abbrev Time := Int

/-- Common fields of all aggregates (`domain.Meta`). -/
structure Meta where
  ID : String
  CreatedAt : Time
  UpdatedAt : Time
  deriving DecidableEq

/-- Student profile (`domain.Student`). -/
structure Student where
  toMeta : Meta
  GuardianID : String
  FirstName : String
  LastName : String
  DOB : Time
  PriorLevel : String
  MedicalNotes : String
  PhotoConsent : Bool
  deriving DecidableEq

/-- Class offering (`domain.Class`). -/
structure Class where
  toMeta : Meta
  TermID : String
  CampusID : String
  RoomID : String
  TeacherID : String
  Level : String
  Weekday : Int
  StartHHMM : String
  EndHHMM : String
  Capacity : Int
  PlaylistID : String
  deriving DecidableEq

/-- Enrollment status values (`domain.EnrollmentStatus`, a Go string type). -/
abbrev EnrollmentStatus := String

def EnrollmentApplied : EnrollmentStatus := "applied"
def EnrollmentWaitlisted : EnrollmentStatus := "waitlisted"
def EnrollmentEnrolled : EnrollmentStatus := "enrolled"
def EnrollmentRejected : EnrollmentStatus := "rejected"
def EnrollmentDropped : EnrollmentStatus := "dropped"

/-- Enrollment linking a student to a class (`domain.Enrollment`). -/
structure Enrollment where
  toMeta : Meta
  StudentID : String
  ClassID : String
  Status : EnrollmentStatus
  deriving DecidableEq

/-- Event (`domain.Event`). -/
structure Event where
  toMeta : Meta
  Title : String
  Start : Time
  End : Time
  Location : String
  Capacity : Int
  EligibilityLevel : String
  deriving DecidableEq

/-- Event registration (`domain.EventRegistration`); status is a plain string
(registered|waitlisted|cancelled). -/
structure EventRegistration where
  toMeta : Meta
  EventID : String
  StudentID : String
  Status : String
  deriving DecidableEq

/-! ## store/errors.go -/

/-- The typed errors of package `store`. -/
inductive StoreError where
  | NotFoundError (Resource ID : String)
  | ConflictError (Reason : String)
  | ValidationError (Field Reason : String)
  | PermissionError (Reason : String)
  deriving DecidableEq

deriving instance DecidableEq for Except

/-! ## Go maps keyed by record ID -/

/-- The lookup `m[id]` of a map whose entries are stored under `key`. -/
def mapGet {α : Type} (key : α → String) (m : List α) (id : String) : Option α :=
  m.find? (fun x => key x == id)

/-- The assignment `m[key v] = v`: overwrite the entry of that key, or add one. -/
def mapSet {α : Type} (key : α → String) : List α → α → List α
  | [], v => [v]
  | x :: xs, v => if key x == key v then v :: xs else x :: mapSet key xs v

/-- Insertion of one element into a list sorted by `less`. -/
def insertSorted {α : Type} (less : α → α → Bool) (x : α) : List α → List α
  | [] => [x]
  | y :: ys => if less y x then y :: insertSorted less x ys else x :: y :: ys

/-- The call `sort.Slice(wl, less)`: the slice rearranged so that no element is
`less` than one before it.  `sort.Slice` does not promise an order among
elements that compare equal; this insertion sort keeps them in enumeration
order, and since the enumeration order is arbitrary every element that Go may
put first is put first for some enumeration. -/
def sortSlice {α : Type} (less : α → α → Bool) : List α → List α
  | [] => []
  | x :: xs => insertSorted less x (sortSlice less xs)

/-! ## store/memory: the store -/

/-- The maps of `memory.Store` that the ledger reads or writes. -/
structure Store where
  students : List Student
  classes : List Class
  enrollments : List Enrollment
  events : List Event
  registrations : List EventRegistration
  deriving DecidableEq

def Enrollment.ID (e : Enrollment) : String := e.toMeta.ID
def Enrollment.CreatedAt (e : Enrollment) : Time := e.toMeta.CreatedAt
def Enrollment.UpdatedAt (e : Enrollment) : Time := e.toMeta.UpdatedAt
def EventRegistration.ID (r : EventRegistration) : String := r.toMeta.ID
def EventRegistration.CreatedAt (r : EventRegistration) : Time := r.toMeta.CreatedAt
def EventRegistration.UpdatedAt (r : EventRegistration) : Time := r.toMeta.UpdatedAt
def Student.ID (x : Student) : String := x.toMeta.ID
def Class.ID (x : Class) : String := x.toMeta.ID
def Event.ID (x : Event) : String := x.toMeta.ID

/-- A Go map holds one entry per key. -/
def Store.WF (s : Store) : Prop :=
  (s.enrollments.map Enrollment.ID).Nodup ∧ (s.registrations.map EventRegistration.ID).Nodup

instance (s : Store) : Decidable s.WF := by
  unfold Store.WF; infer_instance

/-- The expression `s.classes[classID].Capacity`: a missing key gives the zero
value of `domain.Class`, whose capacity is 0. -/
def classCapacity (s : Store) (classID : String) : Int :=
  match mapGet Class.ID s.classes classID with
  | some c => c.Capacity
  | none => 0

/-- The test of the counting loops on one entry: it is of the class and its
status is enrolled. -/
def isEnrolledIn (classID : String) (e : Enrollment) : Bool :=
  e.ClassID == classID && e.Status == EnrollmentEnrolled

/-- The counting loop over `s.enrollments`: entries of the class with status
enrolled. -/
def enrolledCount (s : Store) (classID : String) : Nat :=
  s.enrollments.countP (isEnrolledIn classID)

/-- The test of the promotion scan on one entry: it is of the class and its
status is waitlisted. -/
def isWaitlistedIn (classID : String) (e : Enrollment) : Bool :=
  e.ClassID == classID && e.Status == EnrollmentWaitlisted

/-- The test of the duplicate check of `ApplyEnrollment` on one entry: it is
for the pair and its status is neither dropped nor rejected. -/
def isActiveFor (studentID classID : String) (e : Enrollment) : Bool :=
  e.StudentID == studentID && e.ClassID == classID &&
    !(e.Status == EnrollmentDropped || e.Status == EnrollmentRejected)

/-- The duplicate check of `ApplyEnrollment`: some entry for the pair has a
status other than dropped or rejected. -/
def hasActiveEnrollment (s : Store) (studentID classID : String) : Bool :=
  s.enrollments.any (isActiveFor studentID classID)

/-! ## store/memory/enrollment_ops.go -/

/-- The status computed by `ApplyEnrollment` for a new entry of the class:
enrolled, unless the enrolled count has reached the capacity. -/
def admissionStatus (s : Store) (classID : String) : EnrollmentStatus :=
  let capacity := classCapacity s classID
  let curEnrolled : Int := enrolledCount s classID
  if curEnrolled ≥ capacity then EnrollmentWaitlisted else EnrollmentEnrolled

/-- `ApplyEnrollment`: creates a new enrollment for (studentID, classID); the
arguments `now` and `id` are the values of `time.Now().UTC()` and `newID()`. -/
def ApplyEnrollment (s : Store) (now : Time) (id : String) (studentID classID : String) :
    Store × Except StoreError Enrollment :=
  if (mapGet Class.ID s.classes classID).isNone then
    (s, .error (.ValidationError "classId" "not found"))
  else if (mapGet Student.ID s.students studentID).isNone then
    (s, .error (.ValidationError "studentId" "not found"))
  else if hasActiveEnrollment s studentID classID then
    (s, .error (.ConflictError "already applied"))
  else
    let status := admissionStatus s classID
    let en : Enrollment :=
      { toMeta := { ID := id, CreatedAt := now, UpdatedAt := now },
        StudentID := studentID, ClassID := classID, Status := status }
    ({ s with enrollments := mapSet Enrollment.ID s.enrollments en }, .ok en)

/-- The two assignments `e.Status = status; e.UpdatedAt = now` on a copy of an
entry. -/
def Enrollment.withStatus (e : Enrollment) (status : EnrollmentStatus) (now : Time) :
    Enrollment :=
  { e with Status := status, toMeta := { e.toMeta with UpdatedAt := now } }

/-- The waitlisted entries of a class, in enumeration order, sorted by
`CreatedAt.Before`. -/
def waitlistOf (enrollments : List Enrollment) (classID : String) : List Enrollment :=
  sortSlice (fun a b => decide (a.CreatedAt < b.CreatedAt))
    (enrollments.filter (isWaitlistedIn classID))

/-- `DropEnrollmentAndPromote`: drops the enrollment `id`; if it was enrolled the
earliest-created waitlisted enrollment of the class is promoted.  `now1` and
`now2` are the two readings of the clock. -/
def DropEnrollmentAndPromote (s : Store) (now1 now2 : Time) (id : String) :
    Store × Except StoreError (Enrollment × Option Enrollment) :=
  match mapGet Enrollment.ID s.enrollments id with
  | none => (s, .error (.NotFoundError "enrollment" id))
  | some e =>
    if e.Status == EnrollmentDropped then
      (s, .ok (e, none))
    else
      let oldStatus := e.Status
      let e1 := e.withStatus EnrollmentDropped now1
      -- the entry was found under the key id, which is its own ID
      let m1 := mapSet Enrollment.ID s.enrollments e1
      if oldStatus == EnrollmentEnrolled then
        match waitlistOf m1 e1.ClassID with
        | [] => ({ s with enrollments := m1 }, .ok (e1, none))
        | n :: _ =>
          let n1 := n.withStatus EnrollmentEnrolled now2
          ({ s with enrollments := mapSet Enrollment.ID m1 n1 }, .ok (e1, some n1))
      else
        ({ s with enrollments := m1 }, .ok (e1, none))

/-- `SetEnrollmentStatus`: updates the status explicitly (admin action). -/
def SetEnrollmentStatus (s : Store) (now : Time) (id : String) (status : EnrollmentStatus) :
    Store × Except StoreError Enrollment :=
  match mapGet Enrollment.ID s.enrollments id with
  | none => (s, .error (.NotFoundError "enrollment" id))
  | some e =>
    let capacity := classCapacity s e.ClassID
    let cur : Int := enrolledCount s e.ClassID
    if status == EnrollmentEnrolled && (e.Status != EnrollmentEnrolled && decide (cur ≥ capacity)) then
      (s, .error (.ConflictError "class full"))
    else
      let e1 := e.withStatus status now
      ({ s with enrollments := mapSet Enrollment.ID s.enrollments e1 }, .ok e1)

/-- `GetEnrollment`: returns the enrollment stored under `id`. -/
def GetEnrollment (s : Store) (id : String) : Except StoreError Enrollment :=
  match mapGet Enrollment.ID s.enrollments id with
  | some e => .ok e
  | none => .error (.NotFoundError "enrollment" id)

/-! ## store/memory/memory.go: event registration helpers -/

/-- The dedupe loop of `applyEventRegistration` over the registrations in
enumeration order: the first entry of the pair decides; a cancelled one leaves
the loop (`break`), any other one is a conflict. -/
def dedupeConflict (eventID studentID : String) : List EventRegistration → Bool
  | [] => false
  | r :: rs =>
    if r.EventID == eventID && r.StudentID == studentID then
      if r.Status == "cancelled" then false else true
    else dedupeConflict eventID studentID rs

/-- The counting loop over `s.registrations`: entries of the event with status
registered. -/
def registeredCount (s : Store) (eventID : String) : Nat :=
  s.registrations.countP (fun r => r.EventID == eventID && r.Status == "registered")

/-- `applyEventRegistration`; `now` and `id` are the values of
`time.Now().UTC()` and `newID()`. -/
def applyEventRegistration (s : Store) (now : Time) (id : String) (eventID studentID : String) :
    Store × Except StoreError EventRegistration :=
  match mapGet Event.ID s.events eventID with
  | none => (s, .error (.ValidationError "eventId" "not found"))
  | some evt =>
    if (mapGet Student.ID s.students studentID).isNone then
      (s, .error (.ValidationError "studentId" "not found"))
    else if dedupeConflict eventID studentID s.registrations then
      (s, .error (.ConflictError "already registered"))
    else
      let cur : Int := registeredCount s eventID
      let status := if evt.Capacity > 0 ∧ cur ≥ evt.Capacity then "waitlisted" else "registered"
      let rec1 : EventRegistration :=
        { toMeta := { ID := id, CreatedAt := now, UpdatedAt := now },
          EventID := eventID, StudentID := studentID, Status := status }
      ({ s with registrations := mapSet EventRegistration.ID s.registrations rec1 }, .ok rec1)

/-- The two assignments `rec.Status = status; rec.UpdatedAt = now` on a copy of
a registration. -/
def EventRegistration.withStatus (r : EventRegistration) (status : String) (now : Time) :
    EventRegistration :=
  { r with Status := status, toMeta := { r.toMeta with UpdatedAt := now } }

/-- The waitlisted registrations of an event, in enumeration order, sorted by
`CreatedAt.Before`. -/
def eventWaitlistOf (registrations : List EventRegistration) (eventID : String) :
    List EventRegistration :=
  sortSlice (fun a b => decide (a.CreatedAt < b.CreatedAt))
    (registrations.filter (fun r => r.EventID == eventID && r.Status == "waitlisted"))

/-- `cancelEventRegistrationAndPromote`; `now1` and `now2` are the two readings
of the clock. -/
def cancelEventRegistrationAndPromote (s : Store) (now1 now2 : Time) (id : String) :
    Store × Except StoreError (EventRegistration × Option EventRegistration) :=
  match mapGet EventRegistration.ID s.registrations id with
  | none => (s, .error (.NotFoundError "eventRegistration" id))
  | some r =>
    if r.Status == "cancelled" then
      (s, .ok (r, none))
    else
      let old := r.Status
      let r1 := r.withStatus "cancelled" now1
      let m1 := mapSet EventRegistration.ID s.registrations r1
      if old == "registered" then
        match eventWaitlistOf m1 r1.EventID with
        | [] => ({ s with registrations := m1 }, .ok (r1, none))
        | n :: _ =>
          let n1 := n.withStatus "registered" now2
          ({ s with registrations := mapSet EventRegistration.ID m1 n1 }, .ok (r1, some n1))
      else
        ({ s with registrations := m1 }, .ok (r1, none))

/-! ## The five mutating entry points as one call type -/

/-- A call of one of the mutating ledger operations, with its arguments and the
clock readings and generated ID it consumes. -/
inductive LedgerCall where
  | apply (now : Time) (id studentID classID : String)
  | drop (now1 now2 : Time) (id : String)
  | setStatus (now : Time) (id : String) (status : EnrollmentStatus)
  | applyEvent (now : Time) (id eventID studentID : String)
  | cancelEvent (now1 now2 : Time) (id : String)

/-- The error of a Go `(value, error)` result, `none` for a nil error. -/
def errorOf {α : Type} : Except StoreError α → Option StoreError
  | .error err => some err
  | .ok _ => none

/-- The store left by a call and the error it returned. -/
def LedgerCall.run (s : Store) : LedgerCall → Store × Option StoreError
  | .apply now id studentID classID =>
    ((ApplyEnrollment s now id studentID classID).1,
      errorOf (ApplyEnrollment s now id studentID classID).2)
  | .drop now1 now2 id =>
    ((DropEnrollmentAndPromote s now1 now2 id).1,
      errorOf (DropEnrollmentAndPromote s now1 now2 id).2)
  | .setStatus now id status =>
    ((SetEnrollmentStatus s now id status).1, errorOf (SetEnrollmentStatus s now id status).2)
  | .applyEvent now id eventID studentID =>
    ((applyEventRegistration s now id eventID studentID).1,
      errorOf (applyEventRegistration s now id eventID studentID).2)
  | .cancelEvent now1 now2 id =>
    ((cancelEventRegistrationAndPromote s now1 now2 id).1,
      errorOf (cancelEventRegistrationAndPromote s now1 now2 id).2)

/-- The test of the counting loop of `applyEventRegistration` on one entry: it
is of the event and its status is registered. -/
def isRegisteredIn (eventID : String) (r : EventRegistration) : Bool :=
  r.EventID == eventID && r.Status == "registered"

/-- The test of the promotion scan of `cancelEventRegistrationAndPromote` on
one entry: it is of the event and its status is waitlisted. -/
def isEventWaitlistedIn (eventID : String) (r : EventRegistration) : Bool :=
  r.EventID == eventID && r.Status == "waitlisted"

/-- The number of waitlisted registrations of an event. -/
def eventWaitlistedCount (s : Store) (eventID : String) : Nat :=
  s.registrations.countP (isEventWaitlistedIn eventID)

/-- The expression `evt.Capacity` for the event found under `eventID`, 0 when
there is none. -/
def eventCapacity (s : Store) (eventID : String) : Int :=
  match mapGet Event.ID s.events eventID with
  | some evt => evt.Capacity
  | none => 0

/-- The status computed by `applyEventRegistration` for a new registration:
registered, unless the capacity is positive and reached. -/
def registrationStatus (s : Store) (evt : Event) (eventID : String) : String :=
  if evt.Capacity > 0 ∧ (registeredCount s eventID : Int) ≥ evt.Capacity
  then "waitlisted" else "registered"

/-! ## http/admin.go: class validation and the classes endpoints -/

/-- Term (`domain.Term`). -/
structure Term where
  toMeta : Meta
  Name : String
  StartDate : Time
  EndDate : Time
  deriving DecidableEq

/-- Campus (`domain.Campus`). -/
structure Campus where
  toMeta : Meta
  Name : String
  deriving DecidableEq

/-- Room (`domain.Room`). -/
structure Room where
  toMeta : Meta
  CampusID : String
  Name : String
  Capacity : Int
  deriving DecidableEq

/-- The repository calls of `store.Accessor` made by `validateClass` and by the
handlers of the classes endpoints, as results of the current store. -/
structure Accessor where
  termsGet : String → Except StoreError Term
  campusesGet : String → Except StoreError Campus
  roomsGet : String → Except StoreError Room
  classesCreate : Class → Except StoreError Class
  classesUpdate : Class → Except StoreError Class

/-- The white space of `unicode.IsSpace`. -/
def isSpace (c : Char) : Bool :=
  c.toNat == 9 || c.toNat == 10 || c.toNat == 11 || c.toNat == 12 || c.toNat == 13 ||
  c.toNat == 32 || c.toNat == 0x85 || c.toNat == 0xA0 || c.toNat == 0x1680 ||
  (0x2000 ≤ c.toNat && c.toNat ≤ 0x200a) || c.toNat == 0x2028 || c.toNat == 0x2029 ||
  c.toNat == 0x202f || c.toNat == 0x205f || c.toNat == 0x3000

/-- The test `strings.TrimSpace(x) == ""`: every character is white space. -/
def isBlank (x : String) : Bool := x.data.all isSpace

/-- Go's `a <= b` on strings: lexicographic order of the bytes, which on valid
UTF-8 is the lexicographic order of the character sequences. -/
def strLe (a b : String) : Bool := decide (¬ b.data < a.data)

/-- `validateClass`; `none` is the nil error. -/
def validateClass (st : Accessor) (input : Class) : Option StoreError :=
  if isBlank input.TermID || isBlank input.CampusID || isBlank input.RoomID then
    some (.ValidationError "termId/campusId/roomId" "required")
  else if decide (input.Weekday < 0) || decide (input.Weekday > 6) then
    some (.ValidationError "weekday" "must be 0..6")
  else if isBlank input.StartHHMM || isBlank input.EndHHMM then
    some (.ValidationError "startHHMM/endHHMM" "required")
  else if input.Capacity ≤ 0 then
    some (.ValidationError "capacity" "must be > 0")
  else
    match st.termsGet input.TermID with
    | .error _ => some (.ValidationError "termId" "not found")
    | .ok _ =>
      match st.campusesGet input.CampusID with
      | .error _ => some (.ValidationError "campusId" "not found")
      | .ok campus =>
        match st.roomsGet input.RoomID with
        | .error _ => some (.ValidationError "roomId" "not found")
        | .ok rm =>
          if rm.CampusID != campus.toMeta.ID then
            some (.ValidationError "roomId" "room not in campus")
          else if strLe input.EndHHMM input.StartHHMM then
            some (.ValidationError "endHHMM" "must be after startHHMM")
          else none

/-- The method `Error()` of the typed errors. -/
def StoreError.Error : StoreError → String
  | .NotFoundError resource id => resource ++ " not found: " ++ id
  | .ConflictError reason => "conflict: " ++ reason
  | .ValidationError field reason => "validation failed: " ++ field ++ " " ++ reason
  | .PermissionError reason => "permission denied: " ++ reason

/-- What a handler writes: `http.Error(w, msg, code)` or `writeJSON(w, code, body)`. -/
inductive HttpResponse (α : Type) where
  | error (msg : String) (code : Nat)
  | json (code : Nat) (body : α)
  deriving DecidableEq

/-- The handler of `POST /classes` after the JSON body is decoded into `input`. -/
def postClass (st : Accessor) (input : Class) : HttpResponse Class :=
  match validateClass st input with
  | some err => .error err.Error 400
  | none =>
    match st.classesCreate input with
    | .error err => .error err.Error 400
    | .ok out => .json 201 out

/-- The handler of `PUT /classes/{id}` after the JSON body is decoded into
`input`; the ID of the path overrides the one of the body. -/
def putClass (st : Accessor) (id : String) (input : Class) : HttpResponse Class :=
  let input1 : Class := { input with toMeta := { input.toMeta with ID := id } }
  match validateClass st input1 with
  | some err => .error err.Error 400
  | none =>
    match st.classesUpdate input1 with
    | .error _ => .error "Not Found" 404
    | .ok out => .json 200 out

/-! ## store/memory/memory.go: the repositories used by the fallback handlers -/

/-- The zero value of `time.Time`, for which `IsZero` holds. -/
def zeroTime : Time := 0

/-- `applyMetaOnCreate`: a missing ID is generated, a zero CreatedAt is set to
the clock reading, UpdatedAt is set to the clock reading. -/
def applyMetaOnCreate (m : Meta) (now : Time) (newId : String) : Meta :=
  { ID := if m.ID == "" then newId else m.ID,
    CreatedAt := if m.CreatedAt == zeroTime then now else m.CreatedAt,
    UpdatedAt := now }

/-- `applyMetaOnUpdate`: UpdatedAt is set to the clock reading. -/
def applyMetaOnUpdate (m : Meta) (now : Time) : Meta :=
  { m with UpdatedAt := now }

/-- `classRepo.Get`. -/
def classRepoGet (s : Store) (id : String) : Except StoreError Class :=
  match mapGet Class.ID s.classes id with
  | some v => .ok v
  | none => .error (.NotFoundError "class" id)

/-- `enrollmentRepo.Create`. -/
def enrollmentRepoCreate (s : Store) (now : Time) (newId : String) (e : Enrollment) :
    Store × Except StoreError Enrollment :=
  if e.ID != "" && (mapGet Enrollment.ID s.enrollments e.ID).isSome then
    (s, .error (.ConflictError "enrollment id exists"))
  else
    let out : Enrollment := { e with toMeta := applyMetaOnCreate e.toMeta now newId }
    ({ s with enrollments := mapSet Enrollment.ID s.enrollments out }, .ok out)

/-- `enrollmentRepo.Get`. -/
def enrollmentRepoGet (s : Store) (id : String) : Except StoreError Enrollment :=
  match mapGet Enrollment.ID s.enrollments id with
  | some v => .ok v
  | none => .error (.NotFoundError "enrollment" id)

/-- `enrollmentRepo.Update`. -/
def enrollmentRepoUpdate (s : Store) (now : Time) (e : Enrollment) :
    Store × Except StoreError Enrollment :=
  if (mapGet Enrollment.ID s.enrollments e.ID).isNone then
    (s, .error (.NotFoundError "enrollment" e.ID))
  else
    let out : Enrollment := { e with toMeta := applyMetaOnUpdate e.toMeta now }
    ({ s with enrollments := mapSet Enrollment.ID s.enrollments out }, .ok out)

/-- `enrollmentRepo.List` with `store.ListOptions{}`: all entries (limit 0,
offset 0), sorted by CreatedAt ascending. -/
def enrollmentRepoListAll (s : Store) : List Enrollment :=
  sortSlice (fun a b => decide (a.CreatedAt < b.CreatedAt)) s.enrollments

/-! ## http/enrollments.go: the apply and drop handlers -/

/-- The JSON body of an apply request (`applyReq`). -/
structure ApplyReq where
  StudentID : String
  ClassID : String
  deriving DecidableEq

/-- The JSON body of a drop response (`dropResp`). -/
structure DropResp where
  Dropped : Enrollment
  Promoted : Option Enrollment
  deriving DecidableEq

/-- The handler of `POST /enrollments:apply` after the JSON body is decoded.
`shim` is the outcome of the type assertion `st.(memoryStoreShim)`; in the
fallback branch the repositories of `st` are those of the in-memory store. -/
def postEnrollmentsApply (shim : Bool) (s : Store) (now : Time) (newId : String)
    (req : ApplyReq) : Store × HttpResponse Enrollment :=
  if req.StudentID == "" || req.ClassID == "" then
    (s, .error "studentId and classId required" 400)
  else if shim then
    match ApplyEnrollment s now newId req.StudentID req.ClassID with
    | (s1, .error err) => (s1, .error err.Error 400)
    | (s1, .ok en) => (s1, .json 201 en)
  else
    match classRepoGet s req.ClassID with
    | .error _ => (s, .error "classId not found" 400)
    | .ok classes =>
      let ens := enrollmentRepoListAll s
      let enrolled : Int :=
        ens.countP (fun e => e.ClassID == req.ClassID && e.Status == EnrollmentEnrolled)
      let status := if enrolled ≥ classes.Capacity then EnrollmentWaitlisted
        else EnrollmentEnrolled
      match enrollmentRepoCreate s now newId
          { toMeta := { ID := "", CreatedAt := zeroTime, UpdatedAt := zeroTime },
            StudentID := req.StudentID, ClassID := req.ClassID, Status := status } with
      | (s1, .error err) => (s1, .error err.Error 400)
      | (s1, .ok en) => (s1, .json 201 en)

/-- The handler of `POST /enrollments/{id}:drop` (behind the admin role check).
`shim` is the outcome of the type assertion `st.(memoryStoreShim)`. -/
def postEnrollmentDrop (shim : Bool) (s : Store) (now1 now2 : Time) (id : String) :
    Store × HttpResponse DropResp :=
  if shim then
    match DropEnrollmentAndPromote s now1 now2 id with
    | (s1, .error err) => (s1, .error err.Error 400)
    | (s1, .ok (dropped, promoted)) => (s1, .json 200 { Dropped := dropped, Promoted := promoted })
  else
    match enrollmentRepoGet s id with
    | .error _ => (s, .error "Not Found" 404)
    | .ok en =>
      match enrollmentRepoUpdate s now1 { en with Status := EnrollmentDropped } with
      | (s1, .error err) => (s1, .error err.Error 400)
      | (s1, .ok en1) => (s1, .json 200 { Dropped := en1, Promoted := none })

/-! ## Earliest waiting entries -/

/-- An earliest waiting entry of a class: a waitlisted entry of the class than
which no waitlisted entry of the class in the map was created earlier. -/
def isEarliestWaiting (enrollments : List Enrollment) (classID : String) (x : Enrollment) :
    Prop :=
  x.ClassID = classID ∧ x.Status = EnrollmentWaitlisted ∧
  ∀ z ∈ enrollments, z.ClassID = classID → z.Status = EnrollmentWaitlisted →
    x.CreatedAt ≤ z.CreatedAt

instance (enrollments : List Enrollment) (classID : String) (x : Enrollment) :
    Decidable (isEarliestWaiting enrollments classID x) := by
  unfold isEarliestWaiting; infer_instance

/-- The earliest CreatedAt among the waitlisted entries of the class is held by
at most one entry. -/
def earliestWaitingUnique (enrollments : List Enrollment) (classID : String) : Prop :=
  ∀ x ∈ enrollments, ∀ y ∈ enrollments,
    isEarliestWaiting enrollments classID x → isEarliestWaiting enrollments classID y → x = y

instance (enrollments : List Enrollment) (classID : String) :
    Decidable (earliestWaitingUnique enrollments classID) := by
  unfold earliestWaitingUnique; infer_instance

/-! ## Correspondence of the two facades -/

/-- The status renaming between the facades: registered to enrolled, cancelled
to dropped, waitlisted to waitlisted. -/
def renameStatus (status : String) : EnrollmentStatus :=
  if status == "registered" then EnrollmentEnrolled
  else if status == "cancelled" then EnrollmentDropped
  else status

/-- The enrollment that corresponds to an event registration: same Meta and
student, the event as class, the status renamed. -/
def EventRegistration.toEnrollment (r : EventRegistration) : Enrollment :=
  { toMeta := r.toMeta, StudentID := r.StudentID, ClassID := r.EventID,
    Status := renameStatus r.Status }

/-- The three statuses of an event registration. -/
def validRegistrationStatus (status : String) : Bool :=
  status == "registered" || status == "waitlisted" || status == "cancelled"

/-- Corresponding stores.  The maps of the two stores are independent Go maps,
so nothing is asked of their enumeration orders: a student ID is present in
one store exactly when it is present in the other, a class is found under an
ID exactly when an event is, with the same capacity, and the enrollment map
holds, in any order, the enrollments that correspond to the registrations (one
per key, all of a status the renaming covers). -/
def Corresponds (se sc : Store) : Prop :=
  (∀ id : String, (mapGet Student.ID sc.students id).isNone =
    (mapGet Student.ID se.students id).isNone) ∧
  (∀ id : String, (mapGet Class.ID sc.classes id).map Class.Capacity =
    (mapGet Event.ID se.events id).map Event.Capacity) ∧
  sc.enrollments.Perm (se.registrations.map EventRegistration.toEnrollment) ∧
  (se.registrations.map EventRegistration.ID).Nodup ∧
  ∀ r ∈ se.registrations, validRegistrationStatus r.Status = true

/-- Corresponding stores whose enrollment map is, in addition, enumerated in
the order of the registration map. -/
def CorrespondsInOrder (se sc : Store) : Prop :=
  (∀ id : String, (mapGet Student.ID sc.students id).isNone =
    (mapGet Student.ID se.students id).isNone) ∧
  (∀ id : String, (mapGet Class.ID sc.classes id).map Class.Capacity =
    (mapGet Event.ID se.events id).map Event.Capacity) ∧
  sc.enrollments = se.registrations.map EventRegistration.toEnrollment ∧
  (se.registrations.map EventRegistration.ID).Nodup ∧
  ∀ r ∈ se.registrations, validRegistrationStatus r.Status = true

/-- An earliest waiting registration of an event: a waitlisted registration of
the event than which no waitlisted registration of the event in the map was
created earlier. -/
def isEarliestWaitingRegistration (registrations : List EventRegistration)
    (eventID : String) (x : EventRegistration) : Prop :=
  x.EventID = eventID ∧ x.Status = "waitlisted" ∧
  ∀ z ∈ registrations, z.EventID = eventID → z.Status = "waitlisted" →
    x.CreatedAt ≤ z.CreatedAt

instance (registrations : List EventRegistration) (eventID : String) (x : EventRegistration) :
    Decidable (isEarliestWaitingRegistration registrations eventID x) := by
  unfold isEarliestWaitingRegistration; infer_instance

/-- The earliest CreatedAt among the waitlisted registrations of the event is
held by at most one registration. -/
def earliestRegistrationUnique (registrations : List EventRegistration) (eventID : String) :
    Prop :=
  ∀ x ∈ registrations, ∀ y ∈ registrations,
    isEarliestWaitingRegistration registrations eventID x →
    isEarliestWaitingRegistration registrations eventID y → x = y

instance (registrations : List EventRegistration) (eventID : String) :
    Decidable (earliestRegistrationUnique registrations eventID) := by
  unfold earliestRegistrationUnique; infer_instance

/-- The kind of a typed error. -/
def StoreError.kind : StoreError → Nat
  | .NotFoundError _ _ => 0
  | .ConflictError _ => 1
  | .ValidationError _ _ => 2
  | .PermissionError _ => 3

/-- Corresponding results of the two apply operations: both succeed with
corresponding records, or both fail with an error of the same kind. -/
def applyResultsCorrespond :
    Except StoreError EventRegistration → Except StoreError Enrollment → Prop
  | .ok r, .ok e => e = r.toEnrollment
  | .error a, .error b => a.kind = b.kind
  | _, _ => False

/-- Corresponding results of cancel and drop: both succeed with corresponding
records and corresponding promoted records (or none), or both fail with an
error of the same kind. -/
def cancelResultsCorrespond :
    Except StoreError (EventRegistration × Option EventRegistration) →
    Except StoreError (Enrollment × Option Enrollment) → Prop
  | .ok (r, p), .ok (e, q) =>
    e = r.toEnrollment ∧ q = p.map EventRegistration.toEnrollment
  | .error a, .error b => a.kind = b.kind
  | _, _ => False

/-! ## Sequences of calls -/

/-- One application in a run of applications to a class: the clock reading,
the generated ID and the applying student. -/
structure Application where
  now : Time
  id : String
  studentID : String
  deriving DecidableEq

/-- The students of the list apply one after another with `ApplyEnrollment` to
the class; the results are returned in order of the calls. -/
def applyAll (s : Store) (classID : String) :
    List Application → Store × List (Except StoreError Enrollment)
  | [] => (s, [])
  | a :: rest =>
    let r := ApplyEnrollment s a.now a.id a.studentID classID
    let rs := applyAll r.1 classID rest
    (rs.1, r.2 :: rs.2)


/-- The number of non-terminal enrollments of a (student, class) pair. -/
def activeCount (s : Store) (studentID classID : String) : Nat :=
  s.enrollments.countP (isActiveFor studentID classID)

/-- Stores reached from `s0` by finitely many calls of the three enrollment
operations, with arbitrary arguments and clock readings.  Between two calls the
enumeration order of the enrollment map may change (`reorder`).  A call of
`SetEnrollmentStatus` is taken only when `allow` admits it. -/
inductive Reachable (allow : Store → String → EnrollmentStatus → Prop) (s0 : Store) :
    Store → Prop where
  | init : Reachable allow s0 s0
  | reorder (s : Store) (l : List Enrollment) :
      Reachable allow s0 s → l.Perm s.enrollments →
      Reachable allow s0 { s with enrollments := l }
  | apply (s : Store) (now : Time) (id studentID classID : String) :
      Reachable allow s0 s →
      Reachable allow s0 (ApplyEnrollment s now id studentID classID).1
  | drop (s : Store) (now1 now2 : Time) (id : String) :
      Reachable allow s0 s →
      Reachable allow s0 (DropEnrollmentAndPromote s now1 now2 id).1
  | setStatus (s : Store) (now : Time) (id : String) (status : EnrollmentStatus) :
      Reachable allow s0 s → allow s id status →
      Reachable allow s0 (SetEnrollmentStatus s now id status).1

/-- Every class of non-negative capacity holds at most that many enrolled
entries. -/
def CapInv (s : Store) : Prop :=
  ∀ c : String, 0 ≤ classCapacity s c → (enrolledCount s c : Int) ≤ classCapacity s c

/-- Stores reached from `s0` by finitely many calls of `ApplyEnrollment`, each
with a generated ID that is not yet a key of the map, and of
`DropEnrollmentAndPromote`, with any change of enumeration order between two
calls. -/
inductive ReachableApplyDrop (s0 : Store) : Store → Prop where
  | init : ReachableApplyDrop s0 s0
  | reorder (s : Store) (l : List Enrollment) :
      ReachableApplyDrop s0 s → l.Perm s.enrollments →
      ReachableApplyDrop s0 { s with enrollments := l }
  | apply (s : Store) (now : Time) (id studentID classID : String) :
      ReachableApplyDrop s0 s → id ∉ s.enrollments.map Enrollment.ID →
      ReachableApplyDrop s0 (ApplyEnrollment s now id studentID classID).1
  | drop (s : Store) (now1 now2 : Time) (id : String) :
      ReachableApplyDrop s0 s →
      ReachableApplyDrop s0 (DropEnrollmentAndPromote s now1 now2 id).1

/-- The number of waitlisted entries of a class. -/
def waitlistedCount (s : Store) (classID : String) : Nat :=
  s.enrollments.countP (isWaitlistedIn classID)

/-- One entry per key, the capacity bound, and: a class of non-negative
capacity with a waitlisted entry holds exactly as many enrolled entries as its
capacity. -/
def FullInv (s : Store) : Prop :=
  (s.enrollments.map Enrollment.ID).Nodup ∧ CapInv s ∧
    ∀ c : String, 0 ≤ classCapacity s c → 0 < waitlistedCount s c →
      (enrolledCount s c : Int) = classCapacity s c

/-- Stores reached from `s0` by finitely many calls of `applyEventRegistration`
and `cancelEventRegistrationAndPromote`, with arbitrary arguments, clock
readings and generated IDs, and any change of enumeration order of the
registration map between two calls. -/
inductive EventReachable (s0 : Store) : Store → Prop where
  | init : EventReachable s0 s0
  | reorder (s : Store) (l : List EventRegistration) :
      EventReachable s0 s → l.Perm s.registrations →
      EventReachable s0 { s with registrations := l }
  | apply (s : Store) (now : Time) (id eventID studentID : String) :
      EventReachable s0 s →
      EventReachable s0 (applyEventRegistration s now id eventID studentID).1
  | cancel (s : Store) (now1 now2 : Time) (id : String) :
      EventReachable s0 s →
      EventReachable s0 (cancelEventRegistrationAndPromote s now1 now2 id).1

/-- Every event of positive capacity holds at most that many registered
entries. -/
def EventCapInv (s : Store) : Prop :=
  ∀ v : String, 0 < eventCapacity s v → (registeredCount s v : Int) ≤ eventCapacity s v

/-- The students of the list register one after another with
`applyEventRegistration` for the event; the results are returned in order of
the calls. -/
def registerAll (s : Store) (eventID : String) :
    List Application → Store × List (Except StoreError EventRegistration)
  | [] => (s, [])
  | a :: rest =>
    let r := applyEventRegistration s a.now a.id eventID a.studentID
    let rs := registerAll r.1 eventID rest
    (rs.1, r.2 :: rs.2)

/-- Every call of `SetEnrollmentStatus` is admitted. -/
def anyCall : Store → String → EnrollmentStatus → Prop := fun _ _ _ => True

/-- The terminal statuses: dropped and rejected. -/
def isTerminal (status : EnrollmentStatus) : Bool :=
  status == EnrollmentDropped || status == EnrollmentRejected

/-- A call of `SetEnrollmentStatus` that gives a non-terminal status to a
dropped or rejected entry whose (student, class) pair already has a
non-terminal entry. -/
def revivesDuplicate (s : Store) (id : String) (status : EnrollmentStatus) : Bool :=
  match mapGet Enrollment.ID s.enrollments id with
  | none => false
  | some e =>
    isTerminal e.Status && !isTerminal status && hasActiveEnrollment s e.StudentID e.ClassID

/-- The calls of `SetEnrollmentStatus` that revive no duplicate. -/
def noDuplicateRevival : Store → String → EnrollmentStatus → Prop :=
  fun s id status => revivesDuplicate s id status = false

/-- One entry per key, and at most one non-terminal entry per pair. -/
def SingleInv (s : Store) : Prop :=
  (s.enrollments.map Enrollment.ID).Nodup ∧
    ∀ studentID classID : String, activeCount s studentID classID ≤ 1

/-- The status changes of an existing record that the state machine of the
specification lists: waitlisted to enrolled, enrolled or waitlisted to
dropped, enrolled or waitlisted to rejected. -/
def specTransition (old new : EnrollmentStatus) : Bool :=
  (old == EnrollmentWaitlisted && new == EnrollmentEnrolled) ||
  (old == EnrollmentEnrolled && new == EnrollmentDropped) ||
  (old == EnrollmentWaitlisted && new == EnrollmentDropped) ||
  (old == EnrollmentEnrolled && new == EnrollmentRejected) ||
  (old == EnrollmentWaitlisted && new == EnrollmentRejected)

/-! ## Concrete stores -/

/-- A student record with the given ID. -/
def mkStudent (id : String) : Student :=
  { toMeta := { ID := id, CreatedAt := 0, UpdatedAt := 0 }, GuardianID := "g1",
    FirstName := "", LastName := "", DOB := 0, PriorLevel := "", MedicalNotes := "",
    PhotoConsent := false }

/-- A class record with the given ID and capacity. -/
def mkClass (id : String) (capacity : Int) : Class :=
  { toMeta := { ID := id, CreatedAt := 0, UpdatedAt := 0 }, TermID := "t1", CampusID := "k1",
    RoomID := "r1", TeacherID := "", Level := "L1", Weekday := 2, StartHHMM := "15:30",
    EndHHMM := "16:30", Capacity := capacity, PlaylistID := "" }

/-- An enrollment record. -/
def mkEnrollment (id studentID classID : String) (status : EnrollmentStatus) (created : Time) :
    Enrollment :=
  { toMeta := { ID := id, CreatedAt := created, UpdatedAt := created },
    StudentID := studentID, ClassID := classID, Status := status }

/-- One class c1 of capacity 1, three students, no enrollments. -/
def store0 : Store :=
  { students := [mkStudent "s1", mkStudent "s2", mkStudent "s3"],
    classes := [mkClass "c1" 1], enrollments := [], events := [], registrations := [] }

/-- The store after s1 and s2 apply to c1 and s1 then drops. -/
def store1 : Store :=
  (DropEnrollmentAndPromote
    (ApplyEnrollment (ApplyEnrollment store0 1 "e1" "s1" "c1").1 2 "e2" "s2" "c1").1
    3 4 "e1").1

/-- The store after s1 applies to c1, drops, applies again, and the first entry
is set back to waitlisted. -/
def store2 : Store :=
  (SetEnrollmentStatus
    (ApplyEnrollment
      (DropEnrollmentAndPromote (ApplyEnrollment store0 1 "e1" "s1" "c1").1 2 3 "e1").1
      4 "e2" "s1" "c1").1
    5 "e1" "waitlisted").1

/-- The store after s1 and s2 apply to c1 and the waiting entry of s2 is
rejected by an administrator. -/
def store6 : Store :=
  (SetEnrollmentStatus
    (ApplyEnrollment (ApplyEnrollment store0 1 "e1" "s1" "c1").1 2 "e2" "s2" "c1").1
    3 "e2" EnrollmentRejected).1

/-- The store after s1 applies to c1 and drops. -/
def store7 : Store :=
  (DropEnrollmentAndPromote (ApplyEnrollment store0 1 "e1" "s1" "c1").1 2 3 "e1").1

/-- Capacity 1: s1 holds the seat, s2 and s3 wait, s3 created before s2. -/
def store3 : Store :=
  { store0 with enrollments :=
      [mkEnrollment "e1" "s1" "c1" EnrollmentEnrolled 1,
       mkEnrollment "e2" "s2" "c1" EnrollmentWaitlisted 5,
       mkEnrollment "e3" "s3" "c1" EnrollmentWaitlisted 3] }

/-- Capacity 1: the only entry of c1 is rejected. -/
def store4 : Store :=
  { store0 with enrollments := [mkEnrollment "e1" "s1" "c1" EnrollmentRejected 1] }

/-- Capacity 1: s1 holds the seat of c1 and s2 waits. -/
def store5 : Store :=
  { store0 with enrollments :=
      [mkEnrollment "e1" "s1" "c1" EnrollmentEnrolled 1,
       mkEnrollment "e2" "s2" "c1" EnrollmentWaitlisted 2] }

/-- The store between the two writes of `DropEnrollmentAndPromote`: the entry
`e` is stored as dropped and nobody is promoted yet. -/
def droppedOnly (s : Store) (e : Enrollment) (now1 : Time) : Store :=
  { s with enrollments :=
      mapSet Enrollment.ID s.enrollments (e.withStatus EnrollmentDropped now1) }

/-- Capacity of c1 lowered to 1 after s1 and s2 were admitted; s3 waits. -/
def store8 : Store :=
  { store0 with enrollments :=
      [mkEnrollment "e1" "s1" "c1" EnrollmentEnrolled 1,
       mkEnrollment "e2" "s2" "c1" EnrollmentEnrolled 2,
       mkEnrollment "e3" "s3" "c1" EnrollmentWaitlisted 3] }

/-- Capacity 1: s1 holds the seat, s2 and s3 wait with the same CreatedAt. -/
def store9 : Store :=
  { store0 with enrollments :=
      [mkEnrollment "e1" "s1" "c1" EnrollmentEnrolled 1,
       mkEnrollment "e2" "s2" "c1" EnrollmentWaitlisted 5,
       mkEnrollment "e3" "s3" "c1" EnrollmentWaitlisted 5] }

/-- The enrollment map of `store9` in another enumeration order. -/
def store9Reordered : List Enrollment :=
  [mkEnrollment "e1" "s1" "c1" EnrollmentEnrolled 1,
   mkEnrollment "e3" "s3" "c1" EnrollmentWaitlisted 5,
   mkEnrollment "e2" "s2" "c1" EnrollmentWaitlisted 5]

/-- The enrollment map of `store3` in another enumeration order. -/
def store3Reordered : List Enrollment :=
  [mkEnrollment "e3" "s3" "c1" EnrollmentWaitlisted 3,
   mkEnrollment "e1" "s1" "c1" EnrollmentEnrolled 1,
   mkEnrollment "e2" "s2" "c1" EnrollmentWaitlisted 5]

/-- Capacity 1: s1 holds the seat, s3 waits since 3, s2 and s4 wait with the
same later CreatedAt. -/
def store11 : Store :=
  { students := [mkStudent "s1", mkStudent "s2", mkStudent "s3", mkStudent "s4"],
    classes := [mkClass "c1" 1],
    enrollments :=
      [mkEnrollment "e1" "s1" "c1" EnrollmentEnrolled 1,
       mkEnrollment "e2" "s2" "c1" EnrollmentWaitlisted 5,
       mkEnrollment "e3" "s3" "c1" EnrollmentWaitlisted 3,
       mkEnrollment "e4" "s4" "c1" EnrollmentWaitlisted 5],
    events := [], registrations := [] }

/-- The enrollment map of `store11` in another enumeration order. -/
def store11Reordered : List Enrollment :=
  [mkEnrollment "e4" "s4" "c1" EnrollmentWaitlisted 5,
   mkEnrollment "e2" "s2" "c1" EnrollmentWaitlisted 5,
   mkEnrollment "e1" "s1" "c1" EnrollmentEnrolled 1,
   mkEnrollment "e3" "s3" "c1" EnrollmentWaitlisted 3]

/-- An event record with the given ID and capacity. -/
def mkEvent (id : String) (capacity : Int) : Event :=
  { toMeta := { ID := id, CreatedAt := 0, UpdatedAt := 0 }, Title := "Show", Start := 0,
    End := 1, Location := "Hall", Capacity := capacity, EligibilityLevel := "" }

/-- An event registration record. -/
def mkRegistration (id eventID studentID status : String) (created : Time) :
    EventRegistration :=
  { toMeta := { ID := id, CreatedAt := created, UpdatedAt := created },
    EventID := eventID, StudentID := studentID, Status := status }

/-- One event v1 of capacity 2, one event v0 of capacity 0, three students, no
registrations. -/
def storeE0 : Store :=
  { students := [mkStudent "s1", mkStudent "s2", mkStudent "s3"],
    classes := [mkClass "c0" 0], enrollments := [],
    events := [mkEvent "v1" 2, mkEvent "v0" 0], registrations := [] }

/-- The store after s1 registers for v1, cancels, and registers again: the map
holds the cancelled registration r1 and the active registration r2. -/
def storeE1 : Store :=
  (applyEventRegistration
    (cancelEventRegistrationAndPromote
      (applyEventRegistration storeE0 1 "r1" "v1" "s1").1 2 3 "r1").1
    4 "r2" "v1" "s1").1

/-- The registration map of `storeE1` in the other enumeration order. -/
def storeE1Reordered : List EventRegistration :=
  [mkRegistration "r2" "v1" "s1" "registered" 4,
   (mkRegistration "r1" "v1" "s1" "registered" 1).withStatus "cancelled" 2]

/-- The number of registrations of a (student, event) pair whose status is not
cancelled. -/
def activeRegistrations (s : Store) (eventID studentID : String) : Nat :=
  s.registrations.countP
    (fun r => r.EventID == eventID && r.StudentID == studentID && r.Status != "cancelled")

/-- The three students of `store0` applying in turn. -/
def threeApplications : List Application :=
  [{ now := 1, id := "e1", studentID := "s1" },
   { now := 2, id := "e2", studentID := "s2" },
   { now := 3, id := "e3", studentID := "s3" }]

/-- The store after s1 and s2 apply to c1 (s1 enrolled, s2 waitlisted). -/
def store10 : Store :=
  (ApplyEnrollment (ApplyEnrollment store0 1 "e1" "s1" "c1").1 2 "e2" "s2" "c1").1

/-- Event v1 of capacity 2: s1 is registered, s2 and s3 wait, s3 created
before s2. -/
def storeE2 : Store :=
  { storeE0 with registrations :=
      [mkRegistration "r1" "v1" "s1" "registered" 1,
       mkRegistration "r2" "v1" "s2" "waitlisted" 5,
       mkRegistration "r3" "v1" "s3" "waitlisted" 3] }

/-- The store after the three students of `storeE0` register for v1 (capacity
2) and the first registration is cancelled. -/
def storeE3 : Store :=
  (cancelEventRegistrationAndPromote (registerAll storeE0 "v1" threeApplications).1 7 8 "e1").1

/-- An accessor with term t1, campus k1 and room r1 of campus k1, whose class
repository accepts every class. -/
def accessor0 : Accessor :=
  { termsGet := fun id =>
      if id == "t1" then
        .ok { toMeta := { ID := "t1", CreatedAt := 0, UpdatedAt := 0 }, Name := "Fall",
              StartDate := 0, EndDate := 9 }
      else .error (.NotFoundError "term" id),
    campusesGet := fun id =>
      if id == "k1" then .ok { toMeta := { ID := "k1", CreatedAt := 0, UpdatedAt := 0 },
                               Name := "Main" }
      else .error (.NotFoundError "campus" id),
    roomsGet := fun id =>
      if id == "r1" then .ok { toMeta := { ID := "r1", CreatedAt := 0, UpdatedAt := 0 },
                               CampusID := "k1", Name := "R1", Capacity := 10 }
      else .error (.NotFoundError "room" id),
    classesCreate := fun c => .ok c,
    classesUpdate := fun c => .ok c }

/-- The class-side store that corresponds to `storeE0`: classes v1 of capacity
2 and v0 of capacity 0, no enrollments. -/
def storeC0 : Store :=
  { students := [mkStudent "s1", mkStudent "s2", mkStudent "s3"],
    classes := [mkClass "v1" 2, mkClass "v0" 0], enrollments := [],
    events := [], registrations := [] }

/-- The class-side store that corresponds to `storeE2`. -/
def storeC2 : Store :=
  { storeC0 with enrollments :=
      [mkEnrollment "r1" "s1" "v1" EnrollmentEnrolled 1,
       mkEnrollment "r2" "s2" "v1" EnrollmentWaitlisted 5,
       mkEnrollment "r3" "s3" "v1" EnrollmentWaitlisted 3] }

/-- The enrollment map of `storeC2` in another enumeration order. -/
def storeC2Reordered : List Enrollment :=
  [mkEnrollment "r3" "s3" "v1" EnrollmentWaitlisted 3,
   mkEnrollment "r2" "s2" "v1" EnrollmentWaitlisted 5,
   mkEnrollment "r1" "s1" "v1" EnrollmentEnrolled 1]

/-- Event v1: s1 is registered, s2 and s3 wait with the same CreatedAt. -/
def storeE4 : Store :=
  { storeE0 with registrations :=
      [mkRegistration "r1" "v1" "s1" "registered" 1,
       mkRegistration "r2" "v1" "s2" "waitlisted" 5,
       mkRegistration "r3" "v1" "s3" "waitlisted" 5] }

/-- The class-side store with the records of `storeE4`, its enrollment map in
another enumeration order. -/
def storeC4 : Store :=
  { storeC0 with enrollments :=
      [mkEnrollment "r1" "s1" "v1" EnrollmentEnrolled 1,
       mkEnrollment "r3" "s3" "v1" EnrollmentWaitlisted 5,
       mkEnrollment "r2" "s2" "v1" EnrollmentWaitlisted 5] }

/-! ## Lemmas on maps -/

section MapLemmas

variable {α : Type} (key : α → String)

theorem mapGet_mapSet_self (m : List α) (v : α) :
    mapGet key (mapSet key m v) (key v) = some v := by
  induction m with
  | nil => simp [mapSet, mapGet]
  | cons x xs ih =>
    by_cases h : key x = key v
    · simp [mapSet, mapGet, h]
    · simpa [mapSet, mapGet, h] using ih

theorem mapGet_mapSet_ne (m : List α) (v : α) (id : String) (h : id ≠ key v) :
    mapGet key (mapSet key m v) id = mapGet key m id := by
  induction m with
  | nil => simp [mapSet, mapGet, Ne.symm h]
  | cons x xs ih =>
    by_cases hx : key x = key v
    · have : ¬ key x = id := fun hc => h (hc ▸ hx)
      simp [mapSet, mapGet, hx, Ne.symm h]
    · by_cases hi : key x = id
      · subst hi
        simp [mapSet, mapGet, hx]
      · simpa [mapSet, mapGet, hx, hi] using ih

theorem mapGet_some_key {m : List α} {id : String} {x : α} (h : mapGet key m id = some x) :
    key x = id := by
  have := List.find?_some h
  simpa using this

theorem mapGet_some_mem {m : List α} {id : String} {x : α} (h : mapGet key m id = some x) :
    x ∈ m := List.mem_of_find?_eq_some h

theorem mapGet_of_mem_nodup {m : List α} (hnd : (m.map key).Nodup) {x : α} (hx : x ∈ m) :
    mapGet key m (key x) = some x := by
  induction m with
  | nil => cases hx
  | cons y ys ih =>
    rw [List.map_cons, List.nodup_cons] at hnd
    rcases List.mem_cons.mp hx with rfl | hmem
    · simp [mapGet]
    · have hne : ¬ key y = key x := fun hc => hnd.1 (hc ▸ List.mem_map_of_mem key hmem)
      simpa [mapGet, hne] using ih hnd.2 hmem

theorem mem_mapSet {m : List α} {v x : α} (h : x ∈ mapSet key m v) : x = v ∨ x ∈ m := by
  induction m with
  | nil => simpa [mapSet] using h
  | cons y ys ih =>
    by_cases hy : key y = key v
    · simp [mapSet, hy] at h
      rcases h with rfl | h
      · exact Or.inl rfl
      · exact Or.inr (List.mem_cons_of_mem _ h)
    · simp [mapSet, hy] at h
      rcases h with rfl | h
      · exact Or.inr (List.mem_cons_self _ _)
      · rcases ih h with rfl | h2
        · exact Or.inl rfl
        · exact Or.inr (List.mem_cons_of_mem _ h2)

theorem mapSet_keys_of_get {m : List α} {v old : α} (h : mapGet key m (key v) = some old) :
    (mapSet key m v).map key = m.map key := by
  induction m with
  | nil => simp [mapGet] at h
  | cons y ys ih =>
    by_cases hy : key y = key v
    · simp [mapSet, hy]
    · have h2 : mapGet key ys (key v) = some old := by simpa [mapGet, hy] using h
      simp [mapSet, hy, ih h2]

theorem mapSet_keys_of_none {m : List α} {v : α} (h : mapGet key m (key v) = none) :
    (mapSet key m v).map key = m.map key ++ [key v] := by
  induction m with
  | nil => simp [mapSet]
  | cons y ys ih =>
    by_cases hy : key y = key v
    · simp [mapGet, hy] at h
    · have h2 : mapGet key ys (key v) = none := by simpa [mapGet, hy] using h
      simp [mapSet, hy, ih h2]

theorem mapGet_none_not_mem {m : List α} {id : String} (h : mapGet key m id = none) :
    id ∉ m.map key := by
  intro hc
  rcases List.mem_map.mp hc with ⟨x, hx, rfl⟩
  have := List.find?_eq_none.mp h x hx
  simp at this

theorem nodup_mapSet {m : List α} (v : α) (hnd : (m.map key).Nodup) :
    ((mapSet key m v).map key).Nodup := by
  cases h : mapGet key m (key v) with
  | some old => rw [mapSet_keys_of_get key h]; exact hnd
  | none =>
    rw [mapSet_keys_of_none key h]
    refine List.Nodup.append hnd (List.nodup_singleton _) ?_
    intro a ha hb
    have : a = key v := by simpa using hb
    exact mapGet_none_not_mem key h (this ▸ ha)

theorem countP_mapSet_le (p : α → Bool) (m : List α) (v : α) :
    (mapSet key m v).countP p ≤ m.countP p + (if p v then 1 else 0) := by
  induction m with
  | nil => simp [mapSet, List.countP_cons]
  | cons y ys ih =>
    by_cases hy : key y = key v
    · simp only [mapSet, hy, beq_self_eq_true, if_true, List.countP_cons]
      split <;> split <;> omega
    · simp only [mapSet, hy, beq_iff_eq, if_false, List.countP_cons]
      omega

theorem countP_mapSet_of_get (p : α → Bool) {m : List α} {v old : α}
    (h : mapGet key m (key v) = some old) :
    (mapSet key m v).countP p + (if p old then 1 else 0) =
      m.countP p + (if p v then 1 else 0) := by
  induction m with
  | nil => simp [mapGet] at h
  | cons y ys ih =>
    by_cases hy : key y = key v
    · have : y = old := by simpa [mapGet, hy] using h
      subst this
      simp only [mapSet, hy, beq_self_eq_true, if_true, List.countP_cons]
      omega
    · have h2 : mapGet key ys (key v) = some old := by simpa [mapGet, hy] using h
      have := ih h2
      simp only [mapSet, hy, beq_iff_eq, if_false, List.countP_cons]
      omega

theorem filter_mapSet_of_get (p : α → Bool) {m : List α} {v old : α}
    (h : mapGet key m (key v) = some old) (hv : p v = false) (ho : p old = false) :
    (mapSet key m v).filter p = m.filter p := by
  induction m with
  | nil => simp [mapGet] at h
  | cons y ys ih =>
    by_cases hy : key y = key v
    · have : y = old := by simpa [mapGet, hy] using h
      subst this
      simp [mapSet, hy, List.filter_cons, hv, ho]
    · have h2 : mapGet key ys (key v) = some old := by simpa [mapGet, hy] using h
      simp [mapSet, hy, List.filter_cons, ih h2]

end MapLemmas

/-! ## Lemmas on `sort.Slice` by creation time -/

section SortLemmas

variable {α : Type} (f : α → Int)

theorem mem_insertSorted (less : α → α → Bool) (x y : α) (l : List α) :
    y ∈ insertSorted less x l ↔ y = x ∨ y ∈ l := by
  induction l with
  | nil => simp [insertSorted]
  | cons z zs ih =>
    unfold insertSorted
    split
    · simp only [List.mem_cons, ih]; tauto
    · simp only [List.mem_cons]

theorem mem_sortSlice (less : α → α → Bool) (y : α) (l : List α) :
    y ∈ sortSlice less l ↔ y ∈ l := by
  induction l with
  | nil => simp [sortSlice]
  | cons z zs ih => simp only [sortSlice, mem_insertSorted, ih, List.mem_cons]

theorem sortSlice_eq_nil (less : α → α → Bool) (l : List α) (h : sortSlice less l = []) :
    l = [] := by
  cases l with
  | nil => rfl
  | cons z zs =>
    have : z ∈ sortSlice less (z :: zs) := (mem_sortSlice less z _).mpr (List.mem_cons_self _ _)
    rw [h] at this
    cases this

theorem sortSlice_head_le (l : List α) (h : α) (t : List α)
    (hs : sortSlice (fun a b => decide (f a < f b)) l = h :: t) :
    ∀ x ∈ l, f h ≤ f x := by
  induction l generalizing h t with
  | nil => simp [sortSlice] at hs
  | cons z zs ih =>
    simp only [sortSlice] at hs
    cases hzs : sortSlice (fun a b => decide (f a < f b)) zs with
    | nil =>
      have hz : zs = [] := sortSlice_eq_nil _ _ hzs
      rw [hzs] at hs
      simp only [insertSorted, List.cons.injEq] at hs
      intro x hx
      subst hz
      simp only [List.mem_singleton] at hx
      rw [hx, hs.1]
    | cons h2 t2 =>
      have ih2 := ih h2 t2 hzs
      rw [hzs] at hs
      unfold insertSorted at hs
      by_cases hlt : f h2 < f z
      · simp only [hlt, decide_True, if_true, List.cons.injEq] at hs
        intro x hx
        rcases List.mem_cons.mp hx with rfl | hx
        · rw [← hs.1]; exact le_of_lt hlt
        · rw [← hs.1]; exact ih2 x hx
      · simp only [hlt, decide_False, Bool.false_eq_true, if_false, List.cons.injEq] at hs
        intro x hx
        rcases List.mem_cons.mp hx with rfl | hx
        · rw [← hs.1]
        · rw [← hs.1]; exact le_trans (not_lt.mp hlt) (ih2 x hx)

end SortLemmas

/-! ## The capacity bound is preserved by every call -/

theorem ApplyEnrollment_classes (s : Store) (now : Time) (id studentID classID : String) :
    (ApplyEnrollment s now id studentID classID).1.classes = s.classes := by
  unfold ApplyEnrollment
  split_ifs <;> rfl

theorem DropEnrollmentAndPromote_classes (s : Store) (now1 now2 : Time) (id : String) :
    (DropEnrollmentAndPromote s now1 now2 id).1.classes = s.classes := by
  unfold DropEnrollmentAndPromote
  split
  · rfl
  · dsimp only
    split_ifs
    · rfl
    · split <;> rfl
    · rfl

theorem SetEnrollmentStatus_classes (s : Store) (now : Time) (id : String)
    (status : EnrollmentStatus) :
    (SetEnrollmentStatus s now id status).1.classes = s.classes := by
  unfold SetEnrollmentStatus
  split
  · rfl
  · dsimp only
    split_ifs <;> rfl

theorem classCapacity_congr {s t : Store} (h : t.classes = s.classes) (c : String) :
    classCapacity t c = classCapacity s c := by
  unfold classCapacity; rw [h]

/-- The two outcomes of `ApplyEnrollment`: an error with the store as it was,
or a new entry written under its ID. -/
theorem ApplyEnrollment_cases (s : Store) (now : Time) (id studentID classID : String) :
    (∃ err, ApplyEnrollment s now id studentID classID = (s, .error err)) ∨
    (∃ en : Enrollment, en.ClassID = classID ∧ en.StudentID = studentID ∧
      en.Status = admissionStatus s classID ∧
      hasActiveEnrollment s studentID classID = false ∧
      ApplyEnrollment s now id studentID classID =
        ({ s with enrollments := mapSet Enrollment.ID s.enrollments en }, .ok en)) := by
  unfold ApplyEnrollment
  split_ifs with h1 h2 h3
  · exact Or.inl ⟨_, rfl⟩
  · exact Or.inl ⟨_, rfl⟩
  · exact Or.inl ⟨_, rfl⟩
  · exact Or.inr ⟨_, rfl, rfl, rfl, by simpa using h3, rfl⟩

theorem isEnrolledIn_true {c : String} {e : Enrollment} (h : isEnrolledIn c e = true) :
    e.ClassID = c ∧ e.Status = EnrollmentEnrolled := by
  simpa [isEnrolledIn] using h

theorem capInv_apply (s : Store) (now : Time) (id studentID classID : String)
    (h : CapInv s) : CapInv (ApplyEnrollment s now id studentID classID).1 := by
  intro c hc
  rw [classCapacity_congr (ApplyEnrollment_classes s now id studentID classID)] at hc ⊢
  have hs := h c hc
  rcases ApplyEnrollment_cases s now id studentID classID with ⟨err, he⟩ | ⟨en, hcl, -, hst, -, he⟩
  · rw [he]; exact hs
  · rw [he]
    simp only [enrolledCount] at hs ⊢
    have hle := countP_mapSet_le Enrollment.ID (isEnrolledIn c) s.enrollments en
    by_cases hen : isEnrolledIn c en = true
    · obtain ⟨h1, h2⟩ := isEnrolledIn_true hen
      have hcc : classID = c := hcl.symm.trans h1
      subst hcc
      have hlt : (enrolledCount s classID : Int) < classCapacity s classID := by
        by_contra hge
        rw [hst] at h2
        simp only [admissionStatus, ge_iff_le, not_lt.mp hge, if_true] at h2
        exact absurd h2 (by decide)
      simp only [enrolledCount] at hlt
      simp only [hen, if_true] at hle
      omega
    · simp only [hen] at hle
      simp only [Bool.false_eq_true, if_false] at hle
      omega

/-- The outcomes of `DropEnrollmentAndPromote`: unknown id; already dropped;
dropped without promotion; dropped with the head of the waitlist promoted. -/
theorem DropEnrollmentAndPromote_cases (s : Store) (now1 now2 : Time) (id : String) :
    (mapGet Enrollment.ID s.enrollments id = none ∧
      DropEnrollmentAndPromote s now1 now2 id = (s, .error (.NotFoundError "enrollment" id))) ∨
    (∃ e, mapGet Enrollment.ID s.enrollments id = some e ∧ e.Status = EnrollmentDropped ∧
      DropEnrollmentAndPromote s now1 now2 id = (s, .ok (e, none))) ∨
    (∃ e, mapGet Enrollment.ID s.enrollments id = some e ∧ e.Status ≠ EnrollmentDropped ∧
      (e.Status ≠ EnrollmentEnrolled ∨
        waitlistOf (mapSet Enrollment.ID s.enrollments (e.withStatus EnrollmentDropped now1))
          e.ClassID = []) ∧
      DropEnrollmentAndPromote s now1 now2 id =
        ({ s with enrollments := mapSet Enrollment.ID s.enrollments
                                  (e.withStatus EnrollmentDropped now1) },
          .ok (e.withStatus EnrollmentDropped now1, none))) ∨
    (∃ e n t, mapGet Enrollment.ID s.enrollments id = some e ∧
      e.Status = EnrollmentEnrolled ∧
      waitlistOf (mapSet Enrollment.ID s.enrollments (e.withStatus EnrollmentDropped now1))
        e.ClassID = n :: t ∧
      DropEnrollmentAndPromote s now1 now2 id =
        ({ s with enrollments := mapSet Enrollment.ID
                                  (mapSet Enrollment.ID s.enrollments
                                    (e.withStatus EnrollmentDropped now1))
                                  (n.withStatus EnrollmentEnrolled now2) },
          .ok (e.withStatus EnrollmentDropped now1,
            some (n.withStatus EnrollmentEnrolled now2)))) := by
  unfold DropEnrollmentAndPromote
  cases hg : mapGet Enrollment.ID s.enrollments id with
  | none => exact Or.inl ⟨rfl, rfl⟩
  | some e =>
    right
    dsimp only
    by_cases hd : e.Status = EnrollmentDropped
    · left
      exact ⟨e, rfl, hd, by simp [hd]⟩
    · right
      by_cases hen : e.Status = EnrollmentEnrolled
      · cases hw : waitlistOf
            (mapSet Enrollment.ID s.enrollments (e.withStatus EnrollmentDropped now1)) e.ClassID with
        | nil =>
          left
          refine ⟨e, rfl, hd, Or.inr hw, ?_⟩
          have hw2 : waitlistOf
            (mapSet Enrollment.ID s.enrollments (e.withStatus EnrollmentDropped now1))
            (e.withStatus EnrollmentDropped now1).ClassID = [] := hw
          have hne : ¬ EnrollmentEnrolled = EnrollmentDropped := by decide
          simp [hen, hw2, hne]
        | cons n t =>
          right
          refine ⟨e, n, t, rfl, hen, hw, ?_⟩
          have hw2 : waitlistOf
            (mapSet Enrollment.ID s.enrollments (e.withStatus EnrollmentDropped now1))
            (e.withStatus EnrollmentDropped now1).ClassID = n :: t := hw
          have hne : ¬ EnrollmentEnrolled = EnrollmentDropped := by decide
          simp [hen, hw2, hne]
      · left
        exact ⟨e, rfl, hd, Or.inl hen, by simp [hd, hen]⟩

/-- The outcomes of `SetEnrollmentStatus`: unknown id; class full; status
written. -/
theorem SetEnrollmentStatus_cases (s : Store) (now : Time) (id : String)
    (status : EnrollmentStatus) :
    (mapGet Enrollment.ID s.enrollments id = none ∧
      SetEnrollmentStatus s now id status = (s, .error (.NotFoundError "enrollment" id))) ∨
    (∃ e, mapGet Enrollment.ID s.enrollments id = some e ∧ status = EnrollmentEnrolled ∧
      e.Status ≠ EnrollmentEnrolled ∧
      (enrolledCount s e.ClassID : Int) ≥ classCapacity s e.ClassID ∧
      SetEnrollmentStatus s now id status = (s, .error (.ConflictError "class full"))) ∨
    (∃ e, mapGet Enrollment.ID s.enrollments id = some e ∧
      (status = EnrollmentEnrolled → e.Status = EnrollmentEnrolled ∨
        (enrolledCount s e.ClassID : Int) < classCapacity s e.ClassID) ∧
      SetEnrollmentStatus s now id status =
        ({ s with enrollments := mapSet Enrollment.ID s.enrollments (e.withStatus status now) },
          .ok (e.withStatus status now))) := by
  unfold SetEnrollmentStatus
  cases hg : mapGet Enrollment.ID s.enrollments id with
  | none => exact Or.inl ⟨rfl, rfl⟩
  | some e =>
    right
    dsimp only
    by_cases hc : status = EnrollmentEnrolled ∧ e.Status ≠ EnrollmentEnrolled ∧
        (enrolledCount s e.ClassID : Int) ≥ classCapacity s e.ClassID
    · left
      refine ⟨e, rfl, hc.1, hc.2.1, hc.2.2, ?_⟩
      simp [hc.1, hc.2.1, hc.2.2]
    · right
      refine ⟨e, rfl, ?_, ?_⟩
      · intro h1
        by_cases h2 : e.Status = EnrollmentEnrolled
        · exact Or.inl h2
        · right
          by_contra h3
          exact hc ⟨h1, h2, not_lt.mp h3⟩
      · have : (status == EnrollmentEnrolled && (e.Status != EnrollmentEnrolled &&
            decide ((enrolledCount s e.ClassID : Int) ≥ classCapacity s e.ClassID))) = false := by
          by_contra hne
          simp only [Bool.not_eq_false, Bool.and_eq_true, beq_iff_eq, bne_iff_ne,
            decide_eq_true_eq] at hne
          exact hc hne
        simp only [this, Bool.false_eq_true, if_false]

theorem withStatus_ID (e : Enrollment) (status : EnrollmentStatus) (now : Time) :
    (e.withStatus status now).ID = e.ID := rfl

theorem mapGet_withStatus {m : List Enrollment} {id : String} {e : Enrollment}
    (h : mapGet Enrollment.ID m id = some e) (status : EnrollmentStatus) (now : Time) :
    mapGet Enrollment.ID m (e.withStatus status now).ID = some e := by
  rw [withStatus_ID, mapGet_some_key Enrollment.ID h]; exact h

theorem mem_waitlistOf {m : List Enrollment} {c : String} {n : Enrollment}
    (h : n ∈ waitlistOf m c) :
    n ∈ m ∧ n.ClassID = c ∧ n.Status = EnrollmentWaitlisted := by
  unfold waitlistOf at h
  rw [mem_sortSlice, List.mem_filter] at h
  refine ⟨h.1, ?_⟩
  simpa [isWaitlistedIn] using h.2

theorem capInv_drop (s : Store) (now1 now2 : Time) (id : String)
    (h : CapInv s) : CapInv (DropEnrollmentAndPromote s now1 now2 id).1 := by
  intro c hc
  rw [classCapacity_congr (DropEnrollmentAndPromote_classes s now1 now2 id)] at hc ⊢
  have hs := h c hc
  have hdrop : ∀ e : Enrollment, isEnrolledIn c (e.withStatus EnrollmentDropped now1) = false := by
    intro e
    have hne : ¬ EnrollmentDropped = EnrollmentEnrolled := by decide
    simp [isEnrolledIn, Enrollment.withStatus, hne]
  rcases DropEnrollmentAndPromote_cases s now1 now2 id with
    ⟨-, he⟩ | ⟨e, -, -, he⟩ | ⟨e, hg, -, -, he⟩ | ⟨e, n, t, hg, hen, hw, he⟩
  · rw [he]; exact hs
  · rw [he]; exact hs
  · rw [he]
    simp only [enrolledCount] at hs ⊢
    have heq := countP_mapSet_of_get Enrollment.ID (isEnrolledIn c)
      (mapGet_withStatus hg EnrollmentDropped now1)
    rw [hdrop e] at heq
    simp only [Bool.false_eq_true, if_false] at heq
    omega
  · rw [he]
    simp only [enrolledCount] at hs ⊢
    have heq := countP_mapSet_of_get Enrollment.ID (isEnrolledIn c)
      (mapGet_withStatus hg EnrollmentDropped now1)
    rw [hdrop e] at heq
    simp only [Bool.false_eq_true, if_false] at heq
    have hle := countP_mapSet_le Enrollment.ID (isEnrolledIn c)
      (mapSet Enrollment.ID s.enrollments (e.withStatus EnrollmentDropped now1))
      (n.withStatus EnrollmentEnrolled now2)
    have hn := mem_waitlistOf (hw ▸ List.mem_cons_self n t)
    by_cases hcc : e.ClassID = c
    · have hpe : isEnrolledIn c e = true := by simp [isEnrolledIn, hcc, hen]
      rw [hpe] at heq
      simp only [if_true] at heq
      split at hle <;> omega
    · have hpn : isEnrolledIn c (n.withStatus EnrollmentEnrolled now2) = false := by
        have : ¬ n.ClassID = c := fun hc2 => hcc (hn.2.1 ▸ hc2)
        simp [isEnrolledIn, Enrollment.withStatus, this]
      rw [hpn] at hle
      simp only [Bool.false_eq_true, if_false] at hle
      omega

theorem capInv_setStatus (s : Store) (now : Time) (id : String) (status : EnrollmentStatus)
    (h : CapInv s) : CapInv (SetEnrollmentStatus s now id status).1 := by
  intro c hc
  rw [classCapacity_congr (SetEnrollmentStatus_classes s now id status)] at hc ⊢
  have hs := h c hc
  rcases SetEnrollmentStatus_cases s now id status with
    ⟨-, he⟩ | ⟨e, -, -, -, -, he⟩ | ⟨e, hg, hok, he⟩
  · rw [he]; exact hs
  · rw [he]; exact hs
  · rw [he]
    simp only [enrolledCount] at hs ⊢
    have heq := countP_mapSet_of_get Enrollment.ID (isEnrolledIn c)
      (mapGet_withStatus hg status now)
    by_cases hp : isEnrolledIn c (e.withStatus status now) = true
    · obtain ⟨h1, h2⟩ := isEnrolledIn_true hp
      have h1 : e.ClassID = c := h1
      have h2 : status = EnrollmentEnrolled := h2
      rw [hp] at heq
      simp only [if_true] at heq
      rcases hok h2 with h3 | h3
      · have hpe : isEnrolledIn c e = true := by simp [isEnrolledIn, h1, h3]
        rw [hpe] at heq
        simp only [if_true] at heq
        omega
      · rw [h1] at h3
        simp only [enrolledCount] at h3
        split at heq <;> omega
    · simp only [hp, Bool.false_eq_true, if_false] at heq
      omega

theorem capInv_of_no_enrollments (s : Store) (h : s.enrollments = []) : CapInv s := by
  intro c hc
  simpa [enrolledCount, h] using hc

theorem Reachable.classes_eq {allow : Store → String → EnrollmentStatus → Prop} {s0 s : Store}
    (h : Reachable allow s0 s) : s.classes = s0.classes := by
  induction h with
  | init => rfl
  | reorder s l _ _ ih => exact ih
  | apply s now id studentID classID _ ih =>
    rw [ApplyEnrollment_classes]; exact ih
  | drop s now1 now2 id _ ih =>
    rw [DropEnrollmentAndPromote_classes]; exact ih
  | setStatus s now id status _ _ ih =>
    rw [SetEnrollmentStatus_classes]; exact ih

theorem Reachable.capInv {allow : Store → String → EnrollmentStatus → Prop} {s0 s : Store}
    (h : Reachable allow s0 s) (h0 : CapInv s0) : CapInv s := by
  induction h with
  | init => exact h0
  | reorder s l _ hp ih =>
    intro c hc
    have := ih c hc
    simpa [enrolledCount, classCapacity, hp.countP_eq] using this
  | apply s now id studentID classID _ ih => exact capInv_apply s now id studentID classID ih
  | drop s now1 now2 id _ ih => exact capInv_drop s now1 now2 id ih
  | setStatus s now id status _ _ ih => exact capInv_setStatus s now id status ih

/-! ## Claims -/

/-- C1. Capacity invariant for class enrollment: starting from a store with no
enrollments, after every finite sequence of `ApplyEnrollment`,
`DropEnrollmentAndPromote` and `SetEnrollmentStatus` calls (any arguments,
successful or failing, any enumeration order of the map), the number of
enrolled entries of a class of capacity C >= 0 is at most C. -/
theorem capacity_invariant (s0 s : Store) (classID : String)
    (h0 : s0.enrollments = []) (hr : Reachable anyCall s0 s)
    (hC : 0 ≤ classCapacity s0 classID) :
    (enrolledCount s classID : Int) ≤ classCapacity s0 classID := by
  have hcap := classCapacity_congr hr.classes_eq classID
  have := hr.capInv (capInv_of_no_enrollments s0 h0) classID (hcap ▸ hC)
  rw [hcap] at this
  exact this

theorem capacity_invariant_witness :
    (enrolledCount store1 "c1" : Int) ≤ classCapacity store0 "c1" :=
  capacity_invariant store0 store1 "c1" rfl
    (Reachable.drop _ 3 4 "e1"
      (Reachable.apply _ 2 "e2" "s2" "c1" (Reachable.apply _ 1 "e1" "s1" "c1" Reachable.init)))
    (by decide)

/-! ### C2 -/

theorem activeCount_eq_zero {s : Store} {studentID classID : String}
    (h : hasActiveEnrollment s studentID classID = false) :
    activeCount s studentID classID = 0 := by
  unfold hasActiveEnrollment at h
  unfold activeCount
  rw [List.countP_eq_zero]
  intro a ha
  have := List.any_eq_false.mp h a ha
  simpa using this

theorem isActiveFor_withStatus_of_terminal (studentID classID : String) (e : Enrollment)
    (status : EnrollmentStatus) (now : Time) (h : isTerminal status = true) :
    isActiveFor studentID classID (e.withStatus status now) = false := by
  have h2 : (status == EnrollmentDropped || status == EnrollmentRejected) = true := h
  simp [isActiveFor, Enrollment.withStatus, h2]

theorem isActiveFor_true {studentID classID : String} {e : Enrollment}
    (h : isActiveFor studentID classID e = true) :
    e.StudentID = studentID ∧ e.ClassID = classID ∧ isTerminal e.Status = false := by
  simp only [isActiveFor, Bool.and_eq_true, beq_iff_eq, Bool.not_eq_true'] at h
  exact ⟨h.1.1, h.1.2, h.2⟩

theorem singleInv_apply (s : Store) (now : Time) (id studentID classID : String)
    (h : SingleInv s) : SingleInv (ApplyEnrollment s now id studentID classID).1 := by
  rcases ApplyEnrollment_cases s now id studentID classID with
    ⟨err, he⟩ | ⟨en, hcl, hstu, -, hno, he⟩
  · rw [he]; exact h
  · rw [he]
    refine ⟨nodup_mapSet Enrollment.ID en h.1, ?_⟩
    intro st c
    have hle := countP_mapSet_le Enrollment.ID (isActiveFor st c) s.enrollments en
    have hs := h.2 st c
    simp only [activeCount] at hs ⊢
    by_cases hp : isActiveFor st c en = true
    · obtain ⟨h1, h2, -⟩ := isActiveFor_true hp
      have hz := activeCount_eq_zero hno
      rw [← hstu, ← hcl, h1, h2] at hz
      simp only [activeCount] at hz
      simp only [hp, if_true] at hle
      omega
    · simp only [hp, Bool.false_eq_true, if_false] at hle
      omega

theorem singleInv_drop (s : Store) (now1 now2 : Time) (id : String)
    (h : SingleInv s) : SingleInv (DropEnrollmentAndPromote s now1 now2 id).1 := by
  have hterm : isTerminal EnrollmentDropped = true := by decide
  rcases DropEnrollmentAndPromote_cases s now1 now2 id with
    ⟨-, he⟩ | ⟨e, -, -, he⟩ | ⟨e, hg, -, -, he⟩ | ⟨e, n, t, hg, hen, hw, he⟩
  · rw [he]; exact h
  · rw [he]; exact h
  · rw [he]
    refine ⟨nodup_mapSet Enrollment.ID _ h.1, ?_⟩
    intro st c
    have hs := h.2 st c
    simp only [activeCount] at hs ⊢
    have heq := countP_mapSet_of_get Enrollment.ID (isActiveFor st c)
      (mapGet_withStatus hg EnrollmentDropped now1)
    rw [isActiveFor_withStatus_of_terminal st c e _ now1 hterm] at heq
    simp only [Bool.false_eq_true, if_false] at heq
    omega
  · rw [he]
    have hnd1 := nodup_mapSet Enrollment.ID (e.withStatus EnrollmentDropped now1) h.1
    refine ⟨nodup_mapSet Enrollment.ID _ hnd1, ?_⟩
    intro st c
    have hs := h.2 st c
    simp only [activeCount] at hs ⊢
    have heq := countP_mapSet_of_get Enrollment.ID (isActiveFor st c)
      (mapGet_withStatus hg EnrollmentDropped now1)
    rw [isActiveFor_withStatus_of_terminal st c e _ now1 hterm] at heq
    simp only [Bool.false_eq_true, if_false] at heq
    have hn := mem_waitlistOf (hw ▸ List.mem_cons_self n t)
    have hgn : mapGet Enrollment.ID
        (mapSet Enrollment.ID s.enrollments (e.withStatus EnrollmentDropped now1))
        (n.withStatus EnrollmentEnrolled now2).ID = some n := by
      rw [withStatus_ID]; exact mapGet_of_mem_nodup Enrollment.ID hnd1 hn.1
    have heq2 := countP_mapSet_of_get Enrollment.ID (isActiveFor st c) hgn
    have hsame : isActiveFor st c (n.withStatus EnrollmentEnrolled now2) = isActiveFor st c n := by
      have h1 : (EnrollmentEnrolled == EnrollmentDropped) = false := by decide
      have h2 : (EnrollmentEnrolled == EnrollmentRejected) = false := by decide
      have h3 : (EnrollmentWaitlisted == EnrollmentDropped) = false := by decide
      have h4 : (EnrollmentWaitlisted == EnrollmentRejected) = false := by decide
      simp [isActiveFor, Enrollment.withStatus, hn.2.2, h1, h2, h3, h4]
    rw [hsame] at heq2
    omega

theorem singleInv_setStatus (s : Store) (now : Time) (id : String) (status : EnrollmentStatus)
    (hallow : noDuplicateRevival s id status)
    (h : SingleInv s) : SingleInv (SetEnrollmentStatus s now id status).1 := by
  rcases SetEnrollmentStatus_cases s now id status with
    ⟨-, he⟩ | ⟨e, -, -, -, -, he⟩ | ⟨e, hg, -, he⟩
  · rw [he]; exact h
  · rw [he]; exact h
  · rw [he]
    refine ⟨nodup_mapSet Enrollment.ID _ h.1, ?_⟩
    intro st c
    have hs := h.2 st c
    simp only [activeCount] at hs ⊢
    have heq := countP_mapSet_of_get Enrollment.ID (isActiveFor st c)
      (mapGet_withStatus hg status now)
    by_cases hp : isActiveFor st c (e.withStatus status now) = true
    · obtain ⟨h1, h2, h3⟩ := isActiveFor_true hp
      have h1 : e.StudentID = st := h1
      have h2 : e.ClassID = c := h2
      have h3 : isTerminal status = false := h3
      by_cases hpe : isActiveFor st c e = true
      · rw [hp, hpe] at heq
        omega
      · have hte : isTerminal e.Status = true := by
          by_contra hnt
          apply hpe
          have : (e.Status == EnrollmentDropped || e.Status == EnrollmentRejected) = false := by
            simpa [isTerminal] using hnt
          simp [isActiveFor, h1, h2, this]
        have hno : hasActiveEnrollment s e.StudentID e.ClassID = false := by
          have := hallow
          simp only [noDuplicateRevival, revivesDuplicate, hg, hte, h3] at this
          simpa using this
        have hz := activeCount_eq_zero hno
        rw [h1, h2] at hz
        simp only [activeCount] at hz
        rw [hp] at heq
        simp only [if_true] at heq
        split at heq <;> omega
    · simp only [hp, Bool.false_eq_true, if_false] at heq
      omega

theorem Reachable.singleInv {s0 s : Store} (h : Reachable noDuplicateRevival s0 s)
    (h0 : SingleInv s0) : SingleInv s := by
  induction h with
  | init => exact h0
  | reorder s l _ hp ih =>
    refine ⟨(hp.map Enrollment.ID).nodup_iff.mpr ih.1, ?_⟩
    intro st c
    have := ih.2 st c
    simpa [activeCount, hp.countP_eq] using this
  | apply s now id studentID classID _ ih => exact singleInv_apply s now id studentID classID ih
  | drop s now1 now2 id _ ih => exact singleInv_drop s now1 now2 id ih
  | setStatus s now id status _ ha ih => exact singleInv_setStatus s now id status ha ih

/-- C2, as stated, fails: after s1 applies to c1, drops, applies again, and an
administrator sets the dropped entry back to waitlisted, the pair (s1, c1) has
two non-terminal entries. -/
theorem single_active_counterexample :
    ¬ (∀ (s0 s : Store) (studentID classID : String), s0.enrollments = [] →
        Reachable anyCall s0 s → activeCount s studentID classID ≤ 1) := by
  intro h
  have hr : Reachable anyCall store0 store2 :=
    Reachable.setStatus _ 5 "e1" "waitlisted"
      (Reachable.apply _ 4 "e2" "s1" "c1"
        (Reachable.drop _ 2 3 "e1" (Reachable.apply _ 1 "e1" "s1" "c1" Reachable.init)))
      trivial
  have h2 := h store0 store2 "s1" "c1" rfl hr
  revert h2
  decide

/-- C2, amended. Starting from a store with no enrollments, after every finite
sequence of `ApplyEnrollment`, `DropEnrollmentAndPromote` and
`SetEnrollmentStatus` calls in which no `SetEnrollmentStatus` call gives a
non-terminal status to a dropped or rejected entry whose pair already has a
non-terminal entry, every (student, class) pair has at most one non-terminal
entry. -/
theorem single_active_invariant (s0 s : Store) (studentID classID : String)
    (h0 : s0.enrollments = []) (hr : Reachable noDuplicateRevival s0 s) :
    activeCount s studentID classID ≤ 1 := by
  have hinit : SingleInv s0 := by
    refine ⟨by simp [h0], ?_⟩
    intro st c
    simp [activeCount, h0]
  exact (hr.singleInv hinit).2 studentID classID

theorem single_active_invariant_witness : activeCount store6 "s1" "c1" ≤ 1 :=
  single_active_invariant store0 store6 "s1" "c1" rfl
    (Reachable.setStatus _ 3 "e2" EnrollmentRejected
      (Reachable.apply _ 2 "e2" "s2" "c1" (Reachable.apply _ 1 "e1" "s1" "c1" Reachable.init))
      (by unfold noDuplicateRevival; decide))

/-! ### C3 -/

theorem mapGet_isSome_of_mem_keys {α : Type} (key : α → String) {m : List α} {id : String}
    (h : id ∈ m.map key) : (mapGet key m id).isNone = false := by
  rcases List.mem_map.mp h with ⟨x, hx, rfl⟩
  cases hg : mapGet key m (key x) with
  | some y => rfl
  | none => exact absurd (List.mem_map_of_mem key hx) (mapGet_none_not_mem key hg)

theorem hasActiveEnrollment_false_iff (s : Store) (studentID classID : String) :
    hasActiveEnrollment s studentID classID = false ↔
      ∀ e ∈ s.enrollments, e.StudentID = studentID → e.ClassID = classID →
        e.Status = EnrollmentDropped ∨ e.Status = EnrollmentRejected := by
  unfold hasActiveEnrollment
  rw [List.any_eq_false]
  constructor
  · intro h e he h1 h2
    have := h e he
    by_cases hd : e.Status = EnrollmentDropped
    · exact Or.inl hd
    · by_cases hr : e.Status = EnrollmentRejected
      · exact Or.inr hr
      · simp [isActiveFor, h1, h2, hd, hr] at this
  · intro h e he
    by_cases h1 : e.StudentID = studentID
    · by_cases h2 : e.ClassID = classID
      · rcases h e he h1 h2 with hd | hr
        · simp [isActiveFor, hd]
        · simp [isActiveFor, hr]
      · simp [isActiveFor, h2]
    · simp [isActiveFor, h1]

/-- C3. Admission decision of `ApplyEnrollment`: when the class and the student
exist and every entry of the pair is dropped or rejected, the call succeeds with
a record of the given student and class, the generated ID, CreatedAt =
UpdatedAt, and status enrolled if the enrolled count of the class is strictly
below its capacity and waitlisted otherwise; `GetEnrollment` on its ID then
returns it. -/
theorem apply_admission (s : Store) (now : Time) (id studentID classID : String)
    (hclass : classID ∈ s.classes.map Class.ID)
    (hstudent : studentID ∈ s.students.map Student.ID)
    (hnone : ∀ e ∈ s.enrollments, e.StudentID = studentID → e.ClassID = classID →
      e.Status = EnrollmentDropped ∨ e.Status = EnrollmentRejected) :
    ∃ en : Enrollment,
      (ApplyEnrollment s now id studentID classID).2 = .ok en ∧
      en.ID = id ∧ en.StudentID = studentID ∧ en.ClassID = classID ∧
      en.CreatedAt = en.UpdatedAt ∧
      en.Status = (if (enrolledCount s classID : Int) < classCapacity s classID
        then EnrollmentEnrolled else EnrollmentWaitlisted) ∧
      GetEnrollment (ApplyEnrollment s now id studentID classID).1 en.ID = .ok en := by
  have h1 := mapGet_isSome_of_mem_keys Class.ID hclass
  have h2 := mapGet_isSome_of_mem_keys Student.ID hstudent
  have h3 := (hasActiveEnrollment_false_iff s studentID classID).mpr hnone
  refine ⟨{ toMeta := { ID := id, CreatedAt := now, UpdatedAt := now },
            StudentID := studentID, ClassID := classID,
            Status := admissionStatus s classID }, ?_, rfl, rfl, rfl, rfl, ?_, ?_⟩
  · simp [ApplyEnrollment, h1, h2, h3]
  · show admissionStatus s classID = _
    unfold admissionStatus
    by_cases hlt : (enrolledCount s classID : Int) < classCapacity s classID
    · simp [hlt, not_le.mpr hlt]
    · simp [hlt, not_lt.mp hlt]
  · simp only [ApplyEnrollment, h1, h2, h3, Bool.false_eq_true, if_false, GetEnrollment]
    rw [mapGet_mapSet_self]

theorem apply_admission_witness :
    ∃ en : Enrollment,
      (ApplyEnrollment store7 4 "e2" "s1" "c1").2 = .ok en ∧
      en.ID = "e2" ∧ en.StudentID = "s1" ∧ en.ClassID = "c1" ∧
      en.CreatedAt = en.UpdatedAt ∧
      en.Status = (if (enrolledCount store7 "c1" : Int) < classCapacity store7 "c1"
        then EnrollmentEnrolled else EnrollmentWaitlisted) ∧
      GetEnrollment (ApplyEnrollment store7 4 "e2" "s1" "c1").1 en.ID = .ok en :=
  apply_admission store7 4 "e2" "s1" "c1" (by decide) (by decide) (by decide)

/-- Replay of scenario 6: after the entry of s1 is dropped, a fresh application
of s1 to c1 is admitted as a new entry. -/
theorem store7_reapply :
    (ApplyEnrollment store7 4 "e2" "s1" "c1").2 =
      .ok (mkEnrollment "e2" "s1" "c1" EnrollmentEnrolled 4) := by
  decide

/-! ### C5 -/

/-- C5. Duplicate active application is rejected: when the class and the
student exist and some entry of the pair has a status other than dropped or
rejected, `ApplyEnrollment` returns ConflictError "already applied" and leaves
the store as it was. -/
theorem apply_duplicate_conflict (s : Store) (now : Time) (id studentID classID : String)
    (hclass : classID ∈ s.classes.map Class.ID)
    (hstudent : studentID ∈ s.students.map Student.ID)
    (hdup : ∃ e ∈ s.enrollments, e.StudentID = studentID ∧ e.ClassID = classID ∧
      e.Status ≠ EnrollmentDropped ∧ e.Status ≠ EnrollmentRejected) :
    ApplyEnrollment s now id studentID classID =
      (s, .error (.ConflictError "already applied")) := by
  have h1 := mapGet_isSome_of_mem_keys Class.ID hclass
  have h2 := mapGet_isSome_of_mem_keys Student.ID hstudent
  have h3 : hasActiveEnrollment s studentID classID = true := by
    by_contra hc
    have hf : hasActiveEnrollment s studentID classID = false := by simpa using hc
    obtain ⟨e, he, hs1, hs2, hs3, hs4⟩ := hdup
    rcases (hasActiveEnrollment_false_iff s studentID classID).mp hf e he hs1 hs2 with h | h
    · exact hs3 h
    · exact hs4 h
  simp [ApplyEnrollment, h1, h2, h3]

theorem apply_duplicate_conflict_witness :
    ApplyEnrollment (ApplyEnrollment store0 1 "e1" "s1" "c1").1 2 "e2" "s1" "c1" =
      ((ApplyEnrollment store0 1 "e1" "s1" "c1").1, .error (.ConflictError "already applied")) :=
  apply_duplicate_conflict (ApplyEnrollment store0 1 "e1" "s1" "c1").1 2 "e2" "s1" "c1"
    (by decide) (by decide) (by decide)

/-! ### C4 -/

theorem ne_id_of_ne {m : List Enrollment} (hnd : (m.map Enrollment.ID).Nodup) {id : String}
    {e n : Enrollment} (hg : mapGet Enrollment.ID m id = some e) (hn : n ∈ m) (hne : n ≠ e) :
    n.ID ≠ id := by
  intro hc
  have := mapGet_of_mem_nodup Enrollment.ID hnd hn
  rw [hc, hg] at this
  exact hne (Option.some.inj this).symm

theorem waitlistOf_after_drop {m : List Enrollment} {id : String} {e : Enrollment}
    (hg : mapGet Enrollment.ID m id = some e) (hnw : e.Status ≠ EnrollmentWaitlisted)
    (now1 : Time) (c : String) :
    waitlistOf (mapSet Enrollment.ID m (e.withStatus EnrollmentDropped now1)) c =
      waitlistOf m c := by
  unfold waitlistOf
  rw [filter_mapSet_of_get Enrollment.ID (isWaitlistedIn c)
    (mapGet_withStatus hg EnrollmentDropped now1)]
  · have : ¬ EnrollmentDropped = EnrollmentWaitlisted := by decide
    simp [isWaitlistedIn, Enrollment.withStatus, this]
  · simp [isWaitlistedIn, hnw]

/-- C4. Promotion is FIFO by creation: dropping an enrolled entry whose class
has a waitlisted entry returns, as promoted, a waitlisted entry of that class
than which no waitlisted entry of the class was created strictly earlier, now
with status enrolled; afterwards the map holds the promoted record under its ID
and the dropped record, with status dropped, under the dropped ID. -/
theorem drop_promotes_earliest (s : Store) (now1 now2 : Time) (id : String) (e : Enrollment)
    (hwf : s.WF)
    (hg : mapGet Enrollment.ID s.enrollments id = some e)
    (hen : e.Status = EnrollmentEnrolled)
    (hw : ∃ w ∈ s.enrollments, w.ClassID = e.ClassID ∧ w.Status = EnrollmentWaitlisted) :
    ∃ n d p : Enrollment,
      n ∈ s.enrollments ∧ n.ClassID = e.ClassID ∧ n.Status = EnrollmentWaitlisted ∧
      (∀ x ∈ s.enrollments, x.ClassID = e.ClassID → x.Status = EnrollmentWaitlisted →
        ¬ x.CreatedAt < n.CreatedAt) ∧
      (DropEnrollmentAndPromote s now1 now2 id).2 = .ok (d, some p) ∧
      p = { n with Status := EnrollmentEnrolled, toMeta := { n.toMeta with UpdatedAt := now2 } } ∧
      d = { e with Status := EnrollmentDropped, toMeta := { e.toMeta with UpdatedAt := now1 } } ∧
      mapGet Enrollment.ID (DropEnrollmentAndPromote s now1 now2 id).1.enrollments n.ID = some p ∧
      mapGet Enrollment.ID (DropEnrollmentAndPromote s now1 now2 id).1.enrollments id = some d := by
  have hnw : e.Status ≠ EnrollmentWaitlisted := by rw [hen]; decide
  have hnd : e.Status ≠ EnrollmentDropped := by rw [hen]; decide
  rcases DropEnrollmentAndPromote_cases s now1 now2 id with
    ⟨hg2, -⟩ | ⟨e2, hg2, hd2, -⟩ | ⟨e2, hg2, -, hor, -⟩ | ⟨e2, n, t, hg2, -, hwl, he⟩
  · rw [hg] at hg2; cases hg2
  · rw [hg] at hg2; cases hg2; exact absurd hd2 hnd
  · rw [hg] at hg2; cases hg2
    rcases hor with h | h
    · exact absurd hen h
    · rw [waitlistOf_after_drop hg hnw] at h
      obtain ⟨w, hwm, hwc, hws⟩ := hw
      have hmem : w ∈ waitlistOf s.enrollments e.ClassID := by
        unfold waitlistOf
        rw [mem_sortSlice, List.mem_filter]
        exact ⟨hwm, by simp [isWaitlistedIn, hwc, hws]⟩
      rw [h] at hmem
      cases hmem
  · rw [hg] at hg2; cases hg2
    rw [waitlistOf_after_drop hg hnw] at hwl
    have hn := mem_waitlistOf (hwl ▸ List.mem_cons_self n t)
    have hmin := sortSlice_head_le Enrollment.CreatedAt _ n t hwl
    have hne : n ≠ e := by
      intro hc
      rw [hc, hen] at hn
      exact absurd hn.2.2 (by decide)
    have hid : n.ID ≠ id := ne_id_of_ne hwf.1 hg hn.1 hne
    refine ⟨n, e.withStatus EnrollmentDropped now1, n.withStatus EnrollmentEnrolled now2,
      hn.1, hn.2.1, hn.2.2, ?_, ?_, rfl, rfl, ?_, ?_⟩
    · intro x hx hxc hxs
      have : x ∈ s.enrollments.filter (isWaitlistedIn e.ClassID) := by
        rw [List.mem_filter]
        exact ⟨hx, by simp [isWaitlistedIn, hxc, hxs]⟩
      exact not_lt.mpr (hmin x this)
    · rw [he]
    · rw [he]
      exact mapGet_mapSet_self Enrollment.ID _ _
    · rw [he]
      show mapGet Enrollment.ID (mapSet Enrollment.ID _ _) id = _
      rw [mapGet_mapSet_ne Enrollment.ID _ _ id (by rw [withStatus_ID]; exact Ne.symm hid)]
      have hkey : (e.withStatus EnrollmentDropped now1).ID = id :=
        (withStatus_ID e EnrollmentDropped now1).trans (mapGet_some_key Enrollment.ID hg)
      rw [← hkey]
      exact mapGet_mapSet_self Enrollment.ID _ _

theorem drop_promotes_earliest_witness :
    ∃ n d p : Enrollment,
      n ∈ store3.enrollments ∧
      n.ClassID = (mkEnrollment "e1" "s1" "c1" EnrollmentEnrolled 1).ClassID ∧
      n.Status = EnrollmentWaitlisted ∧
      (∀ x ∈ store3.enrollments,
        x.ClassID = (mkEnrollment "e1" "s1" "c1" EnrollmentEnrolled 1).ClassID →
        x.Status = EnrollmentWaitlisted → ¬ x.CreatedAt < n.CreatedAt) ∧
      (DropEnrollmentAndPromote store3 7 8 "e1").2 = .ok (d, some p) ∧
      p = { n with Status := EnrollmentEnrolled, toMeta := { n.toMeta with UpdatedAt := 8 } } ∧
      d = { mkEnrollment "e1" "s1" "c1" EnrollmentEnrolled 1 with
            Status := EnrollmentDropped,
            toMeta := { (mkEnrollment "e1" "s1" "c1" EnrollmentEnrolled 1).toMeta with
              UpdatedAt := 7 } } ∧
      mapGet Enrollment.ID (DropEnrollmentAndPromote store3 7 8 "e1").1.enrollments n.ID = some p ∧
      mapGet Enrollment.ID (DropEnrollmentAndPromote store3 7 8 "e1").1.enrollments "e1" = some d :=
  drop_promotes_earliest store3 7 8 "e1" (mkEnrollment "e1" "s1" "c1" EnrollmentEnrolled 1)
    (by decide) (by decide) (by decide)
    ⟨mkEnrollment "e2" "s2" "c1" EnrollmentWaitlisted 5, by decide, by decide, by decide⟩

/-- Replay of the promotion on `store3`: the entry created at time 3 is chosen
although the one created at time 5 is enumerated first. -/
theorem store3_promotes_e3 :
    (DropEnrollmentAndPromote store3 7 8 "e1").2 =
      .ok ((mkEnrollment "e1" "s1" "c1" EnrollmentEnrolled 1).withStatus EnrollmentDropped 7,
        some ((mkEnrollment "e3" "s3" "c1" EnrollmentWaitlisted 3).withStatus
          EnrollmentEnrolled 8)) := by
  decide

/-! ### C6 -/

theorem exists_mapGet_of_mem_keys {α : Type} (key : α → String) {m : List α} {id : String}
    (h : id ∈ m.map key) : ∃ x, mapGet key m id = some x := by
  have := mapGet_isSome_of_mem_keys key h
  cases hg : mapGet key m id with
  | some y => exact ⟨y, rfl⟩
  | none => rw [hg] at this; cases this

theorem drop_of_dropped (s : Store) (now1 now2 : Time) (id : String) (d : Enrollment)
    (hg : mapGet Enrollment.ID s.enrollments id = some d) (hd : d.Status = EnrollmentDropped) :
    DropEnrollmentAndPromote s now1 now2 id = (s, .ok (d, none)) := by
  simp [DropEnrollmentAndPromote, hg, hd]

theorem mapGet_dropped_after_set {m : List Enrollment} {id : String} {e : Enrollment}
    (hg : mapGet Enrollment.ID m id = some e) (status : EnrollmentStatus) (now : Time) :
    mapGet Enrollment.ID (mapSet Enrollment.ID m (e.withStatus status now)) id =
      some (e.withStatus status now) := by
  have hkey : (e.withStatus status now).ID = id :=
    (withStatus_ID e status now).trans (mapGet_some_key Enrollment.ID hg)
  rw [← hkey]
  exact mapGet_mapSet_self Enrollment.ID _ _

/-- C6. Withdraw is idempotent: for an existing enrollment id, the first
`DropEnrollmentAndPromote` succeeds with a dropped record, and a second call
right after it returns that same record, no promoted record and no error, and
leaves the store exactly as the first call left it. -/
theorem drop_twice (s : Store) (now1 now2 now3 now4 : Time) (id : String)
    (hwf : s.WF) (hex : id ∈ s.enrollments.map Enrollment.ID) :
    ∃ (d : Enrollment) (p : Option Enrollment),
      (DropEnrollmentAndPromote s now1 now2 id).2 = .ok (d, p) ∧
      d.Status = EnrollmentDropped ∧
      DropEnrollmentAndPromote (DropEnrollmentAndPromote s now1 now2 id).1 now3 now4 id =
        ((DropEnrollmentAndPromote s now1 now2 id).1, .ok (d, none)) := by
  obtain ⟨e0, hg0⟩ := exists_mapGet_of_mem_keys Enrollment.ID hex
  rcases DropEnrollmentAndPromote_cases s now1 now2 id with
    ⟨hg, -⟩ | ⟨e, hg, hd, he⟩ | ⟨e, hg, -, -, he⟩ | ⟨e, n, t, hg, hen, hwl, he⟩
  · rw [hg0] at hg; cases hg
  · refine ⟨e, none, by rw [he], hd, ?_⟩
    rw [he]
    exact drop_of_dropped s now3 now4 id e hg hd
  · refine ⟨e.withStatus EnrollmentDropped now1, none, by rw [he], rfl, ?_⟩
    rw [he]
    exact drop_of_dropped _ now3 now4 id _ (mapGet_dropped_after_set hg _ now1) rfl
  · refine ⟨e.withStatus EnrollmentDropped now1, some (n.withStatus EnrollmentEnrolled now2),
      by rw [he], rfl, ?_⟩
    rw [he]
    refine drop_of_dropped _ now3 now4 id _ ?_ rfl
    have hg1 := mapGet_dropped_after_set hg EnrollmentDropped now1
    have hnd1 := nodup_mapSet Enrollment.ID (e.withStatus EnrollmentDropped now1) hwf.1
    have hn := mem_waitlistOf (hwl ▸ List.mem_cons_self n t)
    have hne : n ≠ e.withStatus EnrollmentDropped now1 := by
      intro hc
      have h2 := hn.2.2
      rw [hc] at h2
      have h3 : EnrollmentDropped = EnrollmentWaitlisted := h2
      exact absurd h3 (by decide)
    have hid : n.ID ≠ id := ne_id_of_ne hnd1 hg1 hn.1 hne
    show mapGet Enrollment.ID (mapSet Enrollment.ID _ _) id = _
    rw [mapGet_mapSet_ne Enrollment.ID _ _ id (by rw [withStatus_ID]; exact Ne.symm hid)]
    exact hg1

theorem drop_twice_witness :
    ∃ (d : Enrollment) (p : Option Enrollment),
      (DropEnrollmentAndPromote store3 7 8 "e1").2 = .ok (d, p) ∧
      d.Status = EnrollmentDropped ∧
      DropEnrollmentAndPromote (DropEnrollmentAndPromote store3 7 8 "e1").1 9 10 "e1" =
        ((DropEnrollmentAndPromote store3 7 8 "e1").1, .ok (d, none)) :=
  drop_twice store3 7 8 9 10 "e1" (by decide) (by decide)

/-! ### C7 -/

/-- C7, as stated, fails: on a rejected entry `DropEnrollmentAndPromote` is not
a no-op, it rewrites the entry to dropped. -/
theorem drop_terminal_counterexample :
    ¬ (∀ (s : Store) (now1 now2 : Time) (id : String) (e : Enrollment),
        mapGet Enrollment.ID s.enrollments id = some e →
        (e.Status = EnrollmentDropped ∨ e.Status = EnrollmentRejected) →
        DropEnrollmentAndPromote s now1 now2 id = (s, .ok (e, none))) := by
  intro h
  have h2 := h store4 7 8 "e1" (mkEnrollment "e1" "s1" "c1" EnrollmentRejected 1)
    (by decide) (by decide)
  revert h2
  decide

/-- C7, amended. On a dropped entry `DropEnrollmentAndPromote` is a no-op: it
returns the entry unchanged, no promoted record, and the store as it was.  On a
rejected entry it promotes nobody and changes no other entry, and rewrites the
entry itself to status dropped with UpdatedAt set to the clock reading. -/
theorem drop_terminal (s : Store) (now1 now2 : Time) (id : String) (e : Enrollment)
    (hg : mapGet Enrollment.ID s.enrollments id = some e) :
    (e.Status = EnrollmentDropped →
      DropEnrollmentAndPromote s now1 now2 id = (s, .ok (e, none))) ∧
    (e.Status = EnrollmentRejected →
      (DropEnrollmentAndPromote s now1 now2 id).2 =
        .ok ({ e with Status := EnrollmentDropped,
                      toMeta := { e.toMeta with UpdatedAt := now1 } }, none) ∧
      mapGet Enrollment.ID (DropEnrollmentAndPromote s now1 now2 id).1.enrollments id =
        some { e with Status := EnrollmentDropped,
                      toMeta := { e.toMeta with UpdatedAt := now1 } } ∧
      ∀ id2 : String, id2 ≠ id →
        mapGet Enrollment.ID (DropEnrollmentAndPromote s now1 now2 id).1.enrollments id2 =
          mapGet Enrollment.ID s.enrollments id2) := by
  refine ⟨fun hd => drop_of_dropped s now1 now2 id e hg hd, ?_⟩
  intro hr
  have hnd : ¬ e.Status = EnrollmentDropped := by rw [hr]; decide
  have hne : ¬ e.Status = EnrollmentEnrolled := by rw [hr]; decide
  have hkey : (e.withStatus EnrollmentDropped now1).ID = id :=
    (withStatus_ID e EnrollmentDropped now1).trans (mapGet_some_key Enrollment.ID hg)
  have hrun : DropEnrollmentAndPromote s now1 now2 id =
      ({ s with enrollments := mapSet Enrollment.ID s.enrollments
                                (e.withStatus EnrollmentDropped now1) },
        .ok (e.withStatus EnrollmentDropped now1, none)) := by
    simp [DropEnrollmentAndPromote, hg, hnd, hne]
  rw [hrun]
  refine ⟨rfl, mapGet_dropped_after_set hg _ now1, ?_⟩
  intro id2 hid2
  exact mapGet_mapSet_ne Enrollment.ID _ _ id2 (by rw [hkey]; exact hid2)

theorem drop_terminal_witness :
    ((mkEnrollment "e1" "s1" "c1" EnrollmentRejected 1).Status = EnrollmentDropped →
      DropEnrollmentAndPromote store4 7 8 "e1" =
        (store4, .ok (mkEnrollment "e1" "s1" "c1" EnrollmentRejected 1, none))) ∧
    ((mkEnrollment "e1" "s1" "c1" EnrollmentRejected 1).Status = EnrollmentRejected →
      (DropEnrollmentAndPromote store4 7 8 "e1").2 =
        .ok ({ mkEnrollment "e1" "s1" "c1" EnrollmentRejected 1 with
                Status := EnrollmentDropped,
                toMeta := { (mkEnrollment "e1" "s1" "c1" EnrollmentRejected 1).toMeta with
                  UpdatedAt := 7 } }, none) ∧
      mapGet Enrollment.ID (DropEnrollmentAndPromote store4 7 8 "e1").1.enrollments "e1" =
        some { mkEnrollment "e1" "s1" "c1" EnrollmentRejected 1 with
                Status := EnrollmentDropped,
                toMeta := { (mkEnrollment "e1" "s1" "c1" EnrollmentRejected 1).toMeta with
                  UpdatedAt := 7 } } ∧
      ∀ id2 : String, id2 ≠ "e1" →
        mapGet Enrollment.ID (DropEnrollmentAndPromote store4 7 8 "e1").1.enrollments id2 =
          mapGet Enrollment.ID store4.enrollments id2) :=
  drop_terminal store4 7 8 "e1" (mkEnrollment "e1" "s1" "c1" EnrollmentRejected 1)
    (by decide)

/-! ### C8 -/

/-- C8. Withdrawing an entry that does not hold a seat promotes nobody: when the
status of the entry is not enrolled, `DropEnrollmentAndPromote` returns no
promoted record, every other entry is as before, no key is added or removed,
the enrolled count of every class is as before, and an entry that was
waitlisted is returned with status dropped. -/
theorem drop_without_seat (s : Store) (now1 now2 : Time) (id : String) (e : Enrollment)
    (hg : mapGet Enrollment.ID s.enrollments id = some e)
    (hne : e.Status ≠ EnrollmentEnrolled) :
    ∃ d : Enrollment,
      (DropEnrollmentAndPromote s now1 now2 id).2 = .ok (d, none) ∧
      d.ID = e.ID ∧
      (e.Status = EnrollmentWaitlisted → d.Status = EnrollmentDropped) ∧
      (∀ id2 : String, id2 ≠ id →
        mapGet Enrollment.ID (DropEnrollmentAndPromote s now1 now2 id).1.enrollments id2 =
          mapGet Enrollment.ID s.enrollments id2) ∧
      (DropEnrollmentAndPromote s now1 now2 id).1.enrollments.map Enrollment.ID =
        s.enrollments.map Enrollment.ID ∧
      ∀ c : String, enrolledCount (DropEnrollmentAndPromote s now1 now2 id).1 c =
        enrolledCount s c := by
  by_cases hd : e.Status = EnrollmentDropped
  · rw [drop_of_dropped s now1 now2 id e hg hd]
    refine ⟨e, rfl, rfl, ?_, fun _ _ => rfl, rfl, fun _ => rfl⟩
    intro hw
    rw [hd] at hw
    exact absurd hw (by decide)
  · have hkey : (e.withStatus EnrollmentDropped now1).ID = id :=
      (withStatus_ID e EnrollmentDropped now1).trans (mapGet_some_key Enrollment.ID hg)
    have hrun : DropEnrollmentAndPromote s now1 now2 id =
        ({ s with enrollments := mapSet Enrollment.ID s.enrollments
                                  (e.withStatus EnrollmentDropped now1) },
          .ok (e.withStatus EnrollmentDropped now1, none)) := by
      simp [DropEnrollmentAndPromote, hg, hd, hne]
    rw [hrun]
    refine ⟨e.withStatus EnrollmentDropped now1, rfl, rfl, fun _ => rfl, ?_, ?_, ?_⟩
    · intro id2 hid2
      exact mapGet_mapSet_ne Enrollment.ID _ _ id2 (by rw [hkey]; exact hid2)
    · exact mapSet_keys_of_get Enrollment.ID (mapGet_withStatus hg EnrollmentDropped now1)
    · intro c
      have heq := countP_mapSet_of_get Enrollment.ID (isEnrolledIn c)
        (mapGet_withStatus hg EnrollmentDropped now1)
      have h1 : isEnrolledIn c (e.withStatus EnrollmentDropped now1) = false := by
        have : ¬ EnrollmentDropped = EnrollmentEnrolled := by decide
        simp [isEnrolledIn, Enrollment.withStatus, this]
      have h2 : isEnrolledIn c e = false := by simp [isEnrolledIn, hne]
      rw [h1, h2] at heq
      simpa [enrolledCount] using heq

theorem drop_without_seat_witness :
    ∃ d : Enrollment,
      (DropEnrollmentAndPromote store5 7 8 "e2").2 = .ok (d, none) ∧
      d.ID = (mkEnrollment "e2" "s2" "c1" EnrollmentWaitlisted 2).ID ∧
      ((mkEnrollment "e2" "s2" "c1" EnrollmentWaitlisted 2).Status = EnrollmentWaitlisted →
        d.Status = EnrollmentDropped) ∧
      (∀ id2 : String, id2 ≠ "e2" →
        mapGet Enrollment.ID (DropEnrollmentAndPromote store5 7 8 "e2").1.enrollments id2 =
          mapGet Enrollment.ID store5.enrollments id2) ∧
      (DropEnrollmentAndPromote store5 7 8 "e2").1.enrollments.map Enrollment.ID =
        store5.enrollments.map Enrollment.ID ∧
      ∀ c : String, enrolledCount (DropEnrollmentAndPromote store5 7 8 "e2").1 c =
        enrolledCount store5 c :=
  drop_without_seat store5 7 8 "e2" (mkEnrollment "e2" "s2" "c1" EnrollmentWaitlisted 2)
    (by decide) (by decide)

/-! ### C9 -/

/-- C9. Forced admit respects capacity: for an existing entry that is not
enrolled, `SetEnrollmentStatus` to enrolled fails with ConflictError "class
full" and leaves the store (so the status of the entry) as it was when the
enrolled count of its class has reached the capacity; when the count is below
the capacity it succeeds and the entry is stored with status enrolled. -/
theorem setStatus_enrolled_checks_capacity (s : Store) (now : Time) (id : String)
    (e : Enrollment)
    (hg : mapGet Enrollment.ID s.enrollments id = some e)
    (hne : e.Status ≠ EnrollmentEnrolled) :
    ((enrolledCount s e.ClassID : Int) ≥ classCapacity s e.ClassID →
      SetEnrollmentStatus s now id EnrollmentEnrolled =
        (s, .error (.ConflictError "class full"))) ∧
    ((enrolledCount s e.ClassID : Int) < classCapacity s e.ClassID →
      ∃ e1 : Enrollment,
        (SetEnrollmentStatus s now id EnrollmentEnrolled).2 = .ok e1 ∧
        e1.Status = EnrollmentEnrolled ∧ e1.ID = e.ID ∧
        e1.StudentID = e.StudentID ∧ e1.ClassID = e.ClassID ∧
        mapGet Enrollment.ID (SetEnrollmentStatus s now id EnrollmentEnrolled).1.enrollments id =
          some e1) := by
  constructor
  · intro hfull
    simp [SetEnrollmentStatus, hg, hne, hfull]
  · intro hlt
    have hrun : SetEnrollmentStatus s now id EnrollmentEnrolled =
        ({ s with enrollments := mapSet Enrollment.ID s.enrollments
                                  (e.withStatus EnrollmentEnrolled now) },
          .ok (e.withStatus EnrollmentEnrolled now)) := by
      simp [SetEnrollmentStatus, hg, hne, hlt]
    rw [hrun]
    exact ⟨e.withStatus EnrollmentEnrolled now, rfl, rfl, rfl, rfl, rfl,
      mapGet_dropped_after_set hg _ now⟩

theorem setStatus_enrolled_checks_capacity_witness :
    ((enrolledCount store5 (mkEnrollment "e2" "s2" "c1" EnrollmentWaitlisted 2).ClassID : Int) ≥
        classCapacity store5 (mkEnrollment "e2" "s2" "c1" EnrollmentWaitlisted 2).ClassID →
      SetEnrollmentStatus store5 9 "e2" EnrollmentEnrolled =
        (store5, .error (.ConflictError "class full"))) ∧
    ((enrolledCount store5 (mkEnrollment "e2" "s2" "c1" EnrollmentWaitlisted 2).ClassID : Int) <
        classCapacity store5 (mkEnrollment "e2" "s2" "c1" EnrollmentWaitlisted 2).ClassID →
      ∃ e1 : Enrollment,
        (SetEnrollmentStatus store5 9 "e2" EnrollmentEnrolled).2 = .ok e1 ∧
        e1.Status = EnrollmentEnrolled ∧
        e1.ID = (mkEnrollment "e2" "s2" "c1" EnrollmentWaitlisted 2).ID ∧
        e1.StudentID = (mkEnrollment "e2" "s2" "c1" EnrollmentWaitlisted 2).StudentID ∧
        e1.ClassID = (mkEnrollment "e2" "s2" "c1" EnrollmentWaitlisted 2).ClassID ∧
        mapGet Enrollment.ID (SetEnrollmentStatus store5 9 "e2" EnrollmentEnrolled).1.enrollments
          "e2" = some e1) :=
  setStatus_enrolled_checks_capacity store5 9 "e2"
    (mkEnrollment "e2" "s2" "c1" EnrollmentWaitlisted 2) (by decide) (by decide)

/-- Replay of scenario 4 on `store5`: the forced admit of the waitlisted entry
is refused. -/
theorem store5_forced_admit_refused :
    SetEnrollmentStatus store5 9 "e2" EnrollmentEnrolled =
      (store5, .error (.ConflictError "class full")) := by
  decide

/-! ### C10 -/

theorem applyEventRegistration_error (s : Store) (now : Time) (id eventID studentID : String)
    (err : StoreError)
    (h : (applyEventRegistration s now id eventID studentID).2 = .error err) :
    (applyEventRegistration s now id eventID studentID).1 = s := by
  unfold applyEventRegistration at h ⊢
  cases hm : mapGet Event.ID s.events eventID with
  | none => rfl
  | some evt =>
    rw [hm] at h
    dsimp only at h ⊢
    by_cases h1 : (mapGet Student.ID s.students studentID).isNone = true
    · simp only [h1, if_true]
    · by_cases h2 : dedupeConflict eventID studentID s.registrations = true
      · simp only [h1, h2, if_true, Bool.false_eq_true, if_false]
      · simp only [h1, h2, Bool.false_eq_true, if_false] at h
        cases h

theorem cancelEventRegistrationAndPromote_error (s : Store) (now1 now2 : Time) (id : String)
    (err : StoreError)
    (h : (cancelEventRegistrationAndPromote s now1 now2 id).2 = .error err) :
    (cancelEventRegistrationAndPromote s now1 now2 id).1 = s := by
  unfold cancelEventRegistrationAndPromote at h ⊢
  cases hm : mapGet EventRegistration.ID s.registrations id with
  | none => rfl
  | some r =>
    rw [hm] at h
    dsimp only at h
    split_ifs at h
    all_goals first | cases h | (split at h <;> cases h)

/-- C10. Failure atomicity: whenever `ApplyEnrollment`,
`DropEnrollmentAndPromote`, `SetEnrollmentStatus`, `applyEventRegistration` or
`cancelEventRegistrationAndPromote` returns an error, the store after the call
is the store before the call. -/
theorem failure_atomicity (s : Store) (call : LedgerCall) (err : StoreError)
    (h : (call.run s).2 = some err) : (call.run s).1 = s := by
  cases call with
  | apply now id studentID classID =>
    simp only [LedgerCall.run] at h ⊢
    rcases ApplyEnrollment_cases s now id studentID classID with ⟨e, he⟩ | ⟨en, -, -, -, -, he⟩
    · rw [he]
    · rw [he] at h; cases h
  | drop now1 now2 id =>
    simp only [LedgerCall.run] at h ⊢
    rcases DropEnrollmentAndPromote_cases s now1 now2 id with
      ⟨-, he⟩ | ⟨e, -, -, he⟩ | ⟨e, -, -, -, he⟩ | ⟨e, n, t, -, -, -, he⟩
    · rw [he]
    · rw [he]
    · rw [he] at h; cases h
    · rw [he] at h; cases h
  | setStatus now id status =>
    simp only [LedgerCall.run] at h ⊢
    rcases SetEnrollmentStatus_cases s now id status with
      ⟨-, he⟩ | ⟨e, -, -, -, -, he⟩ | ⟨e, -, -, he⟩
    · rw [he]
    · rw [he]
    · rw [he] at h; cases h
  | applyEvent now id eventID studentID =>
    simp only [LedgerCall.run] at h ⊢
    cases hr : (applyEventRegistration s now id eventID studentID).2 with
    | error e2 => exact applyEventRegistration_error s now id eventID studentID e2 hr
    | ok v => rw [hr] at h; cases h
  | cancelEvent now1 now2 id =>
    simp only [LedgerCall.run] at h ⊢
    cases hr : (cancelEventRegistrationAndPromote s now1 now2 id).2 with
    | error e2 => exact cancelEventRegistrationAndPromote_error s now1 now2 id e2 hr
    | ok v => rw [hr] at h; cases h

theorem failure_atomicity_witness :
    ((LedgerCall.setStatus 9 "e2" EnrollmentEnrolled).run store5).1 = store5 :=
  failure_atomicity store5 (LedgerCall.setStatus 9 "e2" EnrollmentEnrolled)
    (.ConflictError "class full") (by decide)

/-! ### Closed forms of the drop -/

/-- The result of dropping an enrolled entry, in closed form: the head of the
waitlist of its class, if there is one, is the promoted record. -/
theorem drop_enrolled_result (s : Store) (now1 now2 : Time) (id : String) (e : Enrollment)
    (hg : mapGet Enrollment.ID s.enrollments id = some e)
    (hen : e.Status = EnrollmentEnrolled) :
    (DropEnrollmentAndPromote s now1 now2 id).2 =
      .ok (e.withStatus EnrollmentDropped now1,
        (waitlistOf s.enrollments e.ClassID).head?.map
          (fun n => n.withStatus EnrollmentEnrolled now2)) := by
  have hnw : e.Status ≠ EnrollmentWaitlisted := by rw [hen]; decide
  have hnd : e.Status ≠ EnrollmentDropped := by rw [hen]; decide
  rcases DropEnrollmentAndPromote_cases s now1 now2 id with
    ⟨hg2, -⟩ | ⟨e2, hg2, hd2, -⟩ | ⟨e2, hg2, -, hor, he⟩ | ⟨e2, n, t, hg2, -, hwl, he⟩
  · rw [hg] at hg2; cases hg2
  · rw [hg] at hg2; cases hg2; exact absurd hd2 hnd
  · rw [hg] at hg2; cases hg2
    rcases hor with h | h
    · exact absurd hen h
    · rw [waitlistOf_after_drop hg hnw] at h
      rw [he, h]; rfl
  · rw [hg] at hg2; cases hg2
    rw [waitlistOf_after_drop hg hnw] at hwl
    rw [he, hwl]; rfl

theorem drop_not_enrolled (s : Store) (now1 now2 : Time) (id : String) (e : Enrollment)
    (hg : mapGet Enrollment.ID s.enrollments id = some e)
    (hd : e.Status ≠ EnrollmentDropped) (hne : e.Status ≠ EnrollmentEnrolled) :
    DropEnrollmentAndPromote s now1 now2 id =
      ({ s with enrollments := mapSet Enrollment.ID s.enrollments
                                (e.withStatus EnrollmentDropped now1) },
        .ok (e.withStatus EnrollmentDropped now1, none)) := by
  simp [DropEnrollmentAndPromote, hg, hd, hne]

theorem drop_enrolled_empty (s : Store) (now1 now2 : Time) (id : String) (e : Enrollment)
    (hg : mapGet Enrollment.ID s.enrollments id = some e)
    (hen : e.Status = EnrollmentEnrolled)
    (hw : waitlistOf (mapSet Enrollment.ID s.enrollments (e.withStatus EnrollmentDropped now1))
      e.ClassID = []) :
    DropEnrollmentAndPromote s now1 now2 id =
      ({ s with enrollments := mapSet Enrollment.ID s.enrollments
                                (e.withStatus EnrollmentDropped now1) },
        .ok (e.withStatus EnrollmentDropped now1, none)) := by
  have hw2 : waitlistOf
      (mapSet Enrollment.ID s.enrollments (e.withStatus EnrollmentDropped now1))
      (e.withStatus EnrollmentDropped now1).ClassID = [] := hw
  have hne : ¬ EnrollmentEnrolled = EnrollmentDropped := by decide
  simp [DropEnrollmentAndPromote, hg, hen, hw2, hne]

theorem drop_enrolled_cons (s : Store) (now1 now2 : Time) (id : String) (e n : Enrollment)
    (t : List Enrollment)
    (hg : mapGet Enrollment.ID s.enrollments id = some e)
    (hen : e.Status = EnrollmentEnrolled)
    (hw : waitlistOf (mapSet Enrollment.ID s.enrollments (e.withStatus EnrollmentDropped now1))
      e.ClassID = n :: t) :
    DropEnrollmentAndPromote s now1 now2 id =
      ({ s with enrollments := mapSet Enrollment.ID
                                (mapSet Enrollment.ID s.enrollments
                                  (e.withStatus EnrollmentDropped now1))
                                (n.withStatus EnrollmentEnrolled now2) },
        .ok (e.withStatus EnrollmentDropped now1,
          some (n.withStatus EnrollmentEnrolled now2))) := by
  have hw2 : waitlistOf
      (mapSet Enrollment.ID s.enrollments (e.withStatus EnrollmentDropped now1))
      (e.withStatus EnrollmentDropped now1).ClassID = n :: t := hw
  have hne : ¬ EnrollmentEnrolled = EnrollmentDropped := by decide
  simp [DropEnrollmentAndPromote, hg, hen, hw2, hne]

/-! ### C11 -/

theorem enrolledCount_droppedOnly (s : Store) (id : String) (e : Enrollment) (now1 : Time)
    (hg : mapGet Enrollment.ID s.enrollments id = some e)
    (hen : e.Status = EnrollmentEnrolled) :
    enrolledCount (droppedOnly s e now1) e.ClassID + 1 = enrolledCount s e.ClassID := by
  have heq := countP_mapSet_of_get Enrollment.ID (isEnrolledIn e.ClassID)
    (mapGet_withStatus hg EnrollmentDropped now1)
  have h1 : isEnrolledIn e.ClassID (e.withStatus EnrollmentDropped now1) = false := by
    have : ¬ EnrollmentDropped = EnrollmentEnrolled := by decide
    simp [isEnrolledIn, Enrollment.withStatus, this]
  have h2 : isEnrolledIn e.ClassID e = true := by simp [isEnrolledIn, hen]
  rw [h1, h2] at heq
  simpa [enrolledCount, droppedOnly] using heq

/-- C11, as stated, fails: with the capacity of c1 lowered to 1 while two
entries are enrolled, dropping one of them promotes the waiting entry although
the enrolled count after the drop (1) is not below the capacity (1). -/
theorem drop_promotion_capacity_counterexample :
    ¬ (∀ (s : Store) (now1 now2 : Time) (id : String) (e d p : Enrollment),
        mapGet Enrollment.ID s.enrollments id = some e →
        e.Status = EnrollmentEnrolled →
        (DropEnrollmentAndPromote s now1 now2 id).2 = .ok (d, some p) →
        (enrolledCount (droppedOnly s e now1) e.ClassID : Int) < classCapacity s e.ClassID) := by
  intro h
  have h2 := h store8 7 8 "e1" (mkEnrollment "e1" "s1" "c1" EnrollmentEnrolled 1)
    ((mkEnrollment "e1" "s1" "c1" EnrollmentEnrolled 1).withStatus EnrollmentDropped 7)
    ((mkEnrollment "e3" "s3" "c1" EnrollmentWaitlisted 3).withStatus EnrollmentEnrolled 8)
    (by decide) (by decide) (by decide)
  revert h2
  decide

/-- The drop of an enrolled entry whose class has a waiting entry leaves the
class with as many enrolled entries as before the call. -/
theorem enrolledCount_after_promotion (s : Store) (now1 now2 : Time) (id : String)
    (e n : Enrollment) (t : List Enrollment)
    (hnodup : (s.enrollments.map Enrollment.ID).Nodup)
    (hg : mapGet Enrollment.ID s.enrollments id = some e)
    (hen : e.Status = EnrollmentEnrolled)
    (hw : waitlistOf s.enrollments e.ClassID = n :: t) :
    enrolledCount (DropEnrollmentAndPromote s now1 now2 id).1 e.ClassID =
      enrolledCount s e.ClassID := by
  have hnw : e.Status ≠ EnrollmentWaitlisted := by rw [hen]; decide
  have hw1 : waitlistOf (mapSet Enrollment.ID s.enrollments
      (e.withStatus EnrollmentDropped now1)) e.ClassID = n :: t := by
    rw [waitlistOf_after_drop hg hnw]; exact hw
  have hcount := enrolledCount_droppedOnly s id e now1 hg hen
  have hn := mem_waitlistOf (hw ▸ List.mem_cons_self n t)
  have hnmem1 := (mem_waitlistOf (hw1 ▸ List.mem_cons_self n t)).1
  have hnd1 := nodup_mapSet Enrollment.ID (e.withStatus EnrollmentDropped now1) hnodup
  have hgn : mapGet Enrollment.ID
      (mapSet Enrollment.ID s.enrollments (e.withStatus EnrollmentDropped now1))
      (n.withStatus EnrollmentEnrolled now2).ID = some n := by
    rw [withStatus_ID]; exact mapGet_of_mem_nodup Enrollment.ID hnd1 hnmem1
  have heq := countP_mapSet_of_get Enrollment.ID (isEnrolledIn e.ClassID) hgn
  have h1 : isEnrolledIn e.ClassID n = false := by
    have : ¬ EnrollmentWaitlisted = EnrollmentEnrolled := by decide
    simp [isEnrolledIn, hn.2.2, this]
  have h2 : isEnrolledIn e.ClassID (n.withStatus EnrollmentEnrolled now2) = true := by
    simp [isEnrolledIn, Enrollment.withStatus, hn.2.1]
  rw [h1, h2] at heq
  rw [drop_enrolled_cons s now1 now2 id e n t hg hen hw1]
  simp only [enrolledCount, droppedOnly] at hcount ⊢
  simp only [Bool.false_eq_true, if_false, if_true, Nat.add_zero] at heq
  omega

/-- C11, amended. `DropEnrollmentAndPromote` does not re-check the capacity.  On
an enrolled entry it promotes a waitlisted entry exactly when the class has a
waitlisted entry; its result and the enrollments it leaves are the same
whatever classes (and so whatever capacity) the store holds; and a promotion
leaves the class with as many enrolled entries as before the call, one more
than after the drop alone. -/
theorem drop_promotion_capacity (s : Store) (now1 now2 : Time) (id : String)
    (e : Enrollment)
    (hwf : s.WF)
    (hg : mapGet Enrollment.ID s.enrollments id = some e)
    (hen : e.Status = EnrollmentEnrolled) :
    ((∃ d p, (DropEnrollmentAndPromote s now1 now2 id).2 = .ok (d, some p)) ↔
      ∃ w ∈ s.enrollments, w.ClassID = e.ClassID ∧ w.Status = EnrollmentWaitlisted) ∧
    (∀ classes : List Class,
      DropEnrollmentAndPromote { s with classes := classes } now1 now2 id =
        ({ (DropEnrollmentAndPromote s now1 now2 id).1 with classes := classes },
          (DropEnrollmentAndPromote s now1 now2 id).2)) ∧
    (∀ d p, (DropEnrollmentAndPromote s now1 now2 id).2 = .ok (d, some p) →
      enrolledCount (DropEnrollmentAndPromote s now1 now2 id).1 e.ClassID =
        enrolledCount s e.ClassID ∧
      enrolledCount (droppedOnly s e now1) e.ClassID + 1 =
        enrolledCount (DropEnrollmentAndPromote s now1 now2 id).1 e.ClassID) := by
  have hres := drop_enrolled_result s now1 now2 id e hg hen
  refine ⟨?_, ?_, ?_⟩
  · constructor
    · rintro ⟨d, p, hp⟩
      rw [hres] at hp
      cases hw : waitlistOf s.enrollments e.ClassID with
      | nil => rw [hw] at hp; cases hp
      | cons n t =>
        have hn := mem_waitlistOf (hw ▸ List.mem_cons_self n t)
        exact ⟨n, hn.1, hn.2.1, hn.2.2⟩
    · rintro ⟨w, hwm, hwc, hws⟩
      have hmem : w ∈ waitlistOf s.enrollments e.ClassID := by
        unfold waitlistOf
        rw [mem_sortSlice, List.mem_filter]
        exact ⟨hwm, by simp [isWaitlistedIn, hwc, hws]⟩
      cases hw : waitlistOf s.enrollments e.ClassID with
      | nil => rw [hw] at hmem; cases hmem
      | cons n t =>
        exact ⟨e.withStatus EnrollmentDropped now1, n.withStatus EnrollmentEnrolled now2,
          by rw [hres, hw]; rfl⟩
  · intro classes
    unfold DropEnrollmentAndPromote
    dsimp only
    cases mapGet Enrollment.ID s.enrollments id with
    | none => rfl
    | some e2 =>
      dsimp only
      split_ifs
      · rfl
      · split <;> rfl
      · rfl
  · intro d p hp
    rw [hres] at hp
    cases hw : waitlistOf s.enrollments e.ClassID with
    | nil => rw [hw] at hp; cases hp
    | cons n t =>
      have hafter := enrolledCount_after_promotion s now1 now2 id e n t hwf.1 hg hen hw
      have hcount := enrolledCount_droppedOnly s id e now1 hg hen
      exact ⟨hafter, by omega⟩

theorem drop_promotion_capacity_witness :
    enrolledCount (DropEnrollmentAndPromote store8 7 8 "e1").1
        (mkEnrollment "e1" "s1" "c1" EnrollmentEnrolled 1).ClassID =
      enrolledCount store8 (mkEnrollment "e1" "s1" "c1" EnrollmentEnrolled 1).ClassID ∧
    enrolledCount (droppedOnly store8 (mkEnrollment "e1" "s1" "c1" EnrollmentEnrolled 1) 7)
        (mkEnrollment "e1" "s1" "c1" EnrollmentEnrolled 1).ClassID + 1 =
      enrolledCount (DropEnrollmentAndPromote store8 7 8 "e1").1
        (mkEnrollment "e1" "s1" "c1" EnrollmentEnrolled 1).ClassID :=
  (drop_promotion_capacity store8 7 8 "e1" (mkEnrollment "e1" "s1" "c1" EnrollmentEnrolled 1)
    (by decide) (by decide) (by decide)).2.2
    ((mkEnrollment "e1" "s1" "c1" EnrollmentEnrolled 1).withStatus EnrollmentDropped 7)
    ((mkEnrollment "e3" "s3" "c1" EnrollmentWaitlisted 3).withStatus EnrollmentEnrolled 8)
    (by decide)

/-- Replay on `store8`: the drop promotes the waiting entry and leaves two
enrolled entries in a class of capacity 1. -/
theorem store8_overshoot :
    enrolledCount (DropEnrollmentAndPromote store8 7 8 "e1").1 "c1" = 2 ∧
      classCapacity store8 "c1" = 1 := by
  decide

/-! ### C12 -/

theorem mapGet_perm {m l : List Enrollment} (hp : l.Perm m)
    (hnd : (m.map Enrollment.ID).Nodup) (id : String) :
    mapGet Enrollment.ID l id = mapGet Enrollment.ID m id := by
  have hndl : (l.map Enrollment.ID).Nodup := (hp.map Enrollment.ID).nodup_iff.mpr hnd
  cases hm : mapGet Enrollment.ID m id with
  | some e =>
    have hkey := mapGet_some_key Enrollment.ID hm
    have hmem : e ∈ l := hp.mem_iff.mpr (mapGet_some_mem Enrollment.ID hm)
    rw [← hkey]
    exact mapGet_of_mem_nodup Enrollment.ID hndl hmem
  | none =>
    cases hl : mapGet Enrollment.ID l id with
    | none => rfl
    | some e =>
      have hkey := mapGet_some_key Enrollment.ID hl
      have hmem : e ∈ m := hp.mem_iff.mp (mapGet_some_mem Enrollment.ID hl)
      have := mapGet_of_mem_nodup Enrollment.ID hnd hmem
      rw [hkey, hm] at this
      cases this

theorem waitlist_head_perm {m l : List Enrollment} (hp : l.Perm m) (c : String)
    (huniq : earliestWaitingUnique m c) :
    (waitlistOf l c).head? = (waitlistOf m c).head? := by
  cases hl : waitlistOf l c with
  | nil =>
    cases hm : waitlistOf m c with
    | nil => rfl
    | cons b t =>
      have hb := mem_waitlistOf (hm ▸ List.mem_cons_self b t)
      have : b ∈ waitlistOf l c := by
        unfold waitlistOf
        rw [mem_sortSlice, List.mem_filter]
        exact ⟨hp.mem_iff.mpr hb.1, by simp [isWaitlistedIn, hb.2.1, hb.2.2]⟩
      rw [hl] at this
      cases this
  | cons a t =>
    have ha := mem_waitlistOf (hl ▸ List.mem_cons_self a t)
    cases hm : waitlistOf m c with
    | nil =>
      have : a ∈ waitlistOf m c := by
        unfold waitlistOf
        rw [mem_sortSlice, List.mem_filter]
        exact ⟨hp.mem_iff.mp ha.1, by simp [isWaitlistedIn, ha.2.1, ha.2.2]⟩
      rw [hm] at this
      cases this
    | cons b t2 =>
      have hb := mem_waitlistOf (hm ▸ List.mem_cons_self b t2)
      have hmina := sortSlice_head_le Enrollment.CreatedAt _ a t hl
      have hminb := sortSlice_head_le Enrollment.CreatedAt _ b t2 hm
      have hea : isEarliestWaiting m c a := by
        refine ⟨ha.2.1, ha.2.2, ?_⟩
        intro z hz hzc hzs
        apply hmina
        rw [List.mem_filter]
        exact ⟨hp.mem_iff.mpr hz, by simp [isWaitlistedIn, hzc, hzs]⟩
      have heb : isEarliestWaiting m c b := by
        refine ⟨hb.2.1, hb.2.2, ?_⟩
        intro z hz hzc hzs
        apply hminb
        rw [List.mem_filter]
        exact ⟨hz, by simp [isWaitlistedIn, hzc, hzs]⟩
      have hab : a = b := huniq a (hp.mem_iff.mp ha.1) b hb.1 hea heb
      simp [hab]

/-- An earliest waiting entry that is enumerated first is the head of the
sorted waitlist. -/
theorem waitlistOf_cons_earliest (x : Enrollment) (rest : List Enrollment) (c : String)
    (hx : isWaitlistedIn c x = true)
    (hmin : ∀ z ∈ rest, isWaitlistedIn c z = true → x.CreatedAt ≤ z.CreatedAt) :
    (waitlistOf (x :: rest) c).head? = some x := by
  unfold waitlistOf
  rw [List.filter_cons, if_pos hx]
  show (insertSorted _ x (sortSlice _ (rest.filter (isWaitlistedIn c)))).head? = some x
  cases hs : sortSlice (fun a b : Enrollment => decide (a.CreatedAt < b.CreatedAt))
      (rest.filter (isWaitlistedIn c)) with
  | nil => rfl
  | cons y ys =>
    have hy : y ∈ rest.filter (isWaitlistedIn c) :=
      (mem_sortSlice _ y _).mp (hs ▸ List.mem_cons_self y ys)
    have hle := hmin y (List.mem_filter.mp hy).1 (List.mem_filter.mp hy).2
    simp [insertSorted, not_lt.mpr hle]

/-- C12, as stated, fails: with two waiting entries of equal CreatedAt the
promoted record depends on the enumeration order of the map. -/
theorem promotion_order_counterexample :
    ¬ (∀ (s : Store) (l : List Enrollment) (now1 now2 : Time) (id : String) (e : Enrollment),
        s.WF → mapGet Enrollment.ID s.enrollments id = some e →
        e.Status = EnrollmentEnrolled → l.Perm s.enrollments →
        (DropEnrollmentAndPromote { s with enrollments := l } now1 now2 id).2 =
          (DropEnrollmentAndPromote s now1 now2 id).2) := by
  intro h
  have h2 := h store9 store9Reordered 7 8 "e1"
    (mkEnrollment "e1" "s1" "c1" EnrollmentEnrolled 1)
    (by decide) (by decide) (by decide) (List.Perm.cons _ (List.Perm.swap _ _ _))
  revert h2
  decide

/-- The drop of an enrolled entry in two enumeration orders of a map in which
at most one waiting entry of the class holds the earliest CreatedAt: the same
result, and the same lookups afterwards. -/
theorem drop_order_independent (s : Store) (l : List Enrollment) (now1 now2 : Time)
    (id : String) (e : Enrollment)
    (hnodup : (s.enrollments.map Enrollment.ID).Nodup)
    (hg : mapGet Enrollment.ID s.enrollments id = some e)
    (hen : e.Status = EnrollmentEnrolled)
    (hp : l.Perm s.enrollments)
    (huniq : earliestWaitingUnique s.enrollments e.ClassID) :
    (DropEnrollmentAndPromote { s with enrollments := l } now1 now2 id).2 =
      (DropEnrollmentAndPromote s now1 now2 id).2 ∧
    ∀ id2 : String,
      mapGet Enrollment.ID
          (DropEnrollmentAndPromote { s with enrollments := l } now1 now2 id).1.enrollments id2 =
        mapGet Enrollment.ID (DropEnrollmentAndPromote s now1 now2 id).1.enrollments id2 := by
  have hgl : mapGet Enrollment.ID l id = some e := by
    rw [mapGet_perm hp hnodup]; exact hg
  have hhead := waitlist_head_perm hp e.ClassID huniq
  have hnw : e.Status ≠ EnrollmentWaitlisted := by rw [hen]; decide
  have hnd : ¬ e.Status = EnrollmentDropped := by rw [hen]; decide
  constructor
  · rw [drop_enrolled_result s now1 now2 id e hg hen,
      drop_enrolled_result { s with enrollments := l } now1 now2 id e hgl hen]
    show Except.ok (_, (waitlistOf l e.ClassID).head?.map _) = _
    rw [hhead]
  · intro id2
    have hw1 := waitlistOf_after_drop hg hnw now1 e.ClassID
    have hw2 := waitlistOf_after_drop hgl hnw now1 e.ClassID
    have hE : (e.withStatus EnrollmentDropped now1).ClassID = e.ClassID := rfl
    have hkey : (e.withStatus EnrollmentDropped now1).ID = id :=
      (withStatus_ID e EnrollmentDropped now1).trans (mapGet_some_key Enrollment.ID hg)
    have hbase : ∀ k : String,
        mapGet Enrollment.ID
            (mapSet Enrollment.ID l (e.withStatus EnrollmentDropped now1)) k =
          mapGet Enrollment.ID
            (mapSet Enrollment.ID s.enrollments (e.withStatus EnrollmentDropped now1)) k := by
      intro k
      by_cases hk : k = id
      · rw [hk, ← hkey, mapGet_mapSet_self, mapGet_mapSet_self]
      · rw [mapGet_mapSet_ne Enrollment.ID _ _ k (by rw [hkey]; exact hk),
          mapGet_mapSet_ne Enrollment.ID _ _ k (by rw [hkey]; exact hk)]
        exact mapGet_perm hp hnodup k
    cases hm : waitlistOf s.enrollments e.ClassID with
    | nil =>
      have hl : waitlistOf l e.ClassID = [] := by
        cases hl2 : waitlistOf l e.ClassID with
        | nil => rfl
        | cons a t => rw [hl2, hm] at hhead; cases hhead
      simp only [DropEnrollmentAndPromote, hg, hgl, hen, hE, hw1, hw2, hm, hl]
      simpa [hnd, hen] using hbase id2
    | cons n t =>
      have hl : ∃ t2, waitlistOf l e.ClassID = n :: t2 := by
        cases hl2 : waitlistOf l e.ClassID with
        | nil => rw [hl2, hm] at hhead; cases hhead
        | cons a t2 =>
          rw [hl2, hm] at hhead
          simp only [List.head?_cons, Option.some.injEq] at hhead
          exact ⟨t2, by rw [hhead]⟩
      obtain ⟨t2, hl⟩ := hl
      simp only [DropEnrollmentAndPromote, hg, hgl, hen, hE, hw1, hw2, hm, hl]
      have hgoal : mapGet Enrollment.ID
            (mapSet Enrollment.ID (mapSet Enrollment.ID l (e.withStatus EnrollmentDropped now1))
              (n.withStatus EnrollmentEnrolled now2)) id2 =
          mapGet Enrollment.ID
            (mapSet Enrollment.ID
              (mapSet Enrollment.ID s.enrollments (e.withStatus EnrollmentDropped now1))
              (n.withStatus EnrollmentEnrolled now2)) id2 := by
        by_cases hk : id2 = (n.withStatus EnrollmentEnrolled now2).ID
        · rw [hk, mapGet_mapSet_self, mapGet_mapSet_self]
        · rw [mapGet_mapSet_ne Enrollment.ID _ _ id2 hk,
            mapGet_mapSet_ne Enrollment.ID _ _ id2 hk]
          exact hbase id2
      simpa [hnd, hen] using hgoal

/-- C12, amended. When at most one waitlisted entry of the class holds the
earliest CreatedAt (later entries may share theirs), the records returned by
`DropEnrollmentAndPromote` on an enrolled entry (the dropped one and the
promoted one) are the same for every enumeration order of the enrollment map,
and so is every lookup in the map left behind.  When several waitlisted entries
share the earliest CreatedAt, each of them is the promoted record in some
enumeration order. -/
theorem promotion_order_independent (s : Store) (now1 now2 : Time) (id : String)
    (e : Enrollment)
    (hwf : s.WF)
    (hg : mapGet Enrollment.ID s.enrollments id = some e)
    (hen : e.Status = EnrollmentEnrolled) :
    (earliestWaitingUnique s.enrollments e.ClassID →
      ∀ l : List Enrollment, l.Perm s.enrollments →
        (DropEnrollmentAndPromote { s with enrollments := l } now1 now2 id).2 =
          (DropEnrollmentAndPromote s now1 now2 id).2 ∧
        ∀ id2 : String,
          mapGet Enrollment.ID
              (DropEnrollmentAndPromote { s with enrollments := l }
                now1 now2 id).1.enrollments id2 =
            mapGet Enrollment.ID (DropEnrollmentAndPromote s now1 now2 id).1.enrollments id2) ∧
    (∀ x ∈ s.enrollments, isEarliestWaiting s.enrollments e.ClassID x →
      ∃ l : List Enrollment, l.Perm s.enrollments ∧
        (DropEnrollmentAndPromote { s with enrollments := l } now1 now2 id).2 =
          .ok (e.withStatus EnrollmentDropped now1,
            some (x.withStatus EnrollmentEnrolled now2))) := by
  constructor
  · intro huniq l hp
    exact drop_order_independent s l now1 now2 id e hwf.1 hg hen hp huniq
  · intro x hx hex
    have hp : (x :: s.enrollments.erase x).Perm s.enrollments := (List.perm_cons_erase hx).symm
    refine ⟨x :: s.enrollments.erase x, hp, ?_⟩
    have hgl : mapGet Enrollment.ID (x :: s.enrollments.erase x) id = some e := by
      rw [mapGet_perm hp hwf.1]; exact hg
    rw [drop_enrolled_result { s with enrollments := x :: s.enrollments.erase x } now1 now2 id e
      hgl hen]
    show Except.ok (_, (waitlistOf (x :: s.enrollments.erase x) e.ClassID).head?.map _) = _
    rw [waitlistOf_cons_earliest x _ e.ClassID (by simp [isWaitlistedIn, hex.1, hex.2.1])]
    · rfl
    · intro z hz hzw
      have hzm : z ∈ s.enrollments := List.mem_of_mem_erase hz
      simp only [isWaitlistedIn, Bool.and_eq_true, beq_iff_eq] at hzw
      exact hex.2.2 z hzm hzw.1 hzw.2

theorem promotion_order_independent_witness :
    (DropEnrollmentAndPromote { store11 with enrollments := store11Reordered } 7 8 "e1").2 =
      (DropEnrollmentAndPromote store11 7 8 "e1").2 ∧
    ∀ id2 : String,
      mapGet Enrollment.ID
          (DropEnrollmentAndPromote { store11 with enrollments := store11Reordered }
            7 8 "e1").1.enrollments id2 =
        mapGet Enrollment.ID (DropEnrollmentAndPromote store11 7 8 "e1").1.enrollments id2 :=
  (promotion_order_independent store11 7 8 "e1"
    (mkEnrollment "e1" "s1" "c1" EnrollmentEnrolled 1)
    (by decide) (by decide) (by decide)).1 (by decide) store11Reordered (by decide)

/-- Replay on `store11`, where the two later waiting entries share their
CreatedAt: both enumeration orders promote e3. -/
theorem store11_promotes_e3 :
    (DropEnrollmentAndPromote store11 7 8 "e1").2 =
      .ok ((mkEnrollment "e1" "s1" "c1" EnrollmentEnrolled 1).withStatus EnrollmentDropped 7,
        some ((mkEnrollment "e3" "s3" "c1" EnrollmentWaitlisted 3).withStatus
          EnrollmentEnrolled 8)) ∧
    (DropEnrollmentAndPromote { store11 with enrollments := store11Reordered } 7 8 "e1").2 =
      .ok ((mkEnrollment "e1" "s1" "c1" EnrollmentEnrolled 1).withStatus EnrollmentDropped 7,
        some ((mkEnrollment "e3" "s3" "c1" EnrollmentWaitlisted 3).withStatus
          EnrollmentEnrolled 8)) := by
  decide

/-- Replay on `store3` in two enumeration orders: the same result. -/
theorem store3_reordered_same_result :
    (DropEnrollmentAndPromote { store3 with enrollments := store3Reordered } 7 8 "e1").2 =
      (DropEnrollmentAndPromote store3 7 8 "e1").2 := by
  decide

/-- Replay on `store9`: in one enumeration order e2 is promoted, in the other
e3. -/
theorem store9_tie_by_enumeration :
    (DropEnrollmentAndPromote store9 7 8 "e1").2 =
      .ok ((mkEnrollment "e1" "s1" "c1" EnrollmentEnrolled 1).withStatus EnrollmentDropped 7,
        some ((mkEnrollment "e2" "s2" "c1" EnrollmentWaitlisted 5).withStatus
          EnrollmentEnrolled 8)) ∧
    (DropEnrollmentAndPromote { store9 with enrollments := store9Reordered } 7 8 "e1").2 =
      .ok ((mkEnrollment "e1" "s1" "c1" EnrollmentEnrolled 1).withStatus EnrollmentDropped 7,
        some ((mkEnrollment "e3" "s3" "c1" EnrollmentWaitlisted 5).withStatus
          EnrollmentEnrolled 8)) := by
  decide

/-! ### C13 -/

theorem mapGet_none_of_not_mem_keys {α : Type} (key : α → String) {m : List α} {id : String}
    (h : id ∉ m.map key) : mapGet key m id = none := by
  cases hg : mapGet key m id with
  | none => rfl
  | some x =>
    have h1 := mapGet_some_key key hg
    have h2 := mapGet_some_mem key hg
    exact absurd (h1 ▸ List.mem_map_of_mem key h2) h

theorem mapSet_of_none {α : Type} (key : α → String) {m : List α} {v : α}
    (h : mapGet key m (key v) = none) : mapSet key m v = m ++ [v] := by
  induction m with
  | nil => rfl
  | cons y ys ih =>
    by_cases hy : key y = key v
    · simp [mapGet, hy] at h
    · have h2 : mapGet key ys (key v) = none := by simpa [mapGet, hy] using h
      simp [mapSet, hy, ih h2]

/-- C13. Re-application after a terminal record: when the class and the student
exist, every entry of the pair is dropped or rejected and the generated ID is
not a key of the map, `ApplyEnrollment` succeeds and the map afterwards is the
old map with exactly the new record added under the new ID; every lookup of an
old key returns the old record. -/
theorem reapply_adds_one_record (s : Store) (now : Time) (id studentID classID : String)
    (hclass : classID ∈ s.classes.map Class.ID)
    (hstudent : studentID ∈ s.students.map Student.ID)
    (hterm : ∀ e ∈ s.enrollments, e.StudentID = studentID → e.ClassID = classID →
      e.Status = EnrollmentDropped ∨ e.Status = EnrollmentRejected)
    (hfresh : id ∉ s.enrollments.map Enrollment.ID) :
    ∃ en : Enrollment,
      (ApplyEnrollment s now id studentID classID).2 = .ok en ∧
      en.ID = id ∧ en.StudentID = studentID ∧ en.ClassID = classID ∧
      (ApplyEnrollment s now id studentID classID).1.enrollments = s.enrollments ++ [en] ∧
      (∀ id2 : String, id2 ∈ s.enrollments.map Enrollment.ID →
        mapGet Enrollment.ID (ApplyEnrollment s now id studentID classID).1.enrollments id2 =
          mapGet Enrollment.ID s.enrollments id2) ∧
      mapGet Enrollment.ID (ApplyEnrollment s now id studentID classID).1.enrollments id =
        some en := by
  have h1 := mapGet_isSome_of_mem_keys Class.ID hclass
  have h2 := mapGet_isSome_of_mem_keys Student.ID hstudent
  have h3 := (hasActiveEnrollment_false_iff s studentID classID).mpr hterm
  have hrun : ApplyEnrollment s now id studentID classID =
      ({ s with enrollments := mapSet Enrollment.ID s.enrollments
                                { toMeta := { ID := id, CreatedAt := now, UpdatedAt := now },
                                  StudentID := studentID, ClassID := classID,
                                  Status := admissionStatus s classID } },
        .ok { toMeta := { ID := id, CreatedAt := now, UpdatedAt := now },
              StudentID := studentID, ClassID := classID,
              Status := admissionStatus s classID }) := by
    simp [ApplyEnrollment, h1, h2, h3]
  rw [hrun]
  refine ⟨_, rfl, rfl, rfl, rfl, ?_, ?_, ?_⟩
  · exact mapSet_of_none Enrollment.ID (mapGet_none_of_not_mem_keys Enrollment.ID hfresh)
  · intro id2 hid2
    refine mapGet_mapSet_ne Enrollment.ID _ _ id2 ?_
    intro hc
    have hc2 : id2 = id := hc
    rw [hc2] at hid2
    exact hfresh hid2
  · exact mapGet_mapSet_self Enrollment.ID _ _

theorem reapply_adds_one_record_witness :
    ∃ en : Enrollment,
      (ApplyEnrollment store7 4 "e2" "s1" "c1").2 = .ok en ∧
      en.ID = "e2" ∧ en.StudentID = "s1" ∧ en.ClassID = "c1" ∧
      (ApplyEnrollment store7 4 "e2" "s1" "c1").1.enrollments = store7.enrollments ++ [en] ∧
      (∀ id2 : String, id2 ∈ store7.enrollments.map Enrollment.ID →
        mapGet Enrollment.ID (ApplyEnrollment store7 4 "e2" "s1" "c1").1.enrollments id2 =
          mapGet Enrollment.ID store7.enrollments id2) ∧
      mapGet Enrollment.ID (ApplyEnrollment store7 4 "e2" "s1" "c1").1.enrollments "e2" =
        some en :=
  reapply_adds_one_record store7 4 "e2" "s1" "c1" (by decide) (by decide) (by decide)
    (by decide)

/-! ### C14 -/

/-- C14. A missing resource or subject is a validation error: `ApplyEnrollment`
with a class ID that is not a key returns ValidationError classId "not found",
with an existing class and a student ID that is not a key ValidationError
studentId "not found"; `applyEventRegistration` does the same with eventId and
studentId.  Each call returns, with the store as it was. -/
theorem missing_resource_validation (s : Store) (now : Time)
    (id studentID classID eventID : String) :
    (classID ∉ s.classes.map Class.ID →
      ApplyEnrollment s now id studentID classID =
        (s, .error (.ValidationError "classId" "not found"))) ∧
    (classID ∈ s.classes.map Class.ID → studentID ∉ s.students.map Student.ID →
      ApplyEnrollment s now id studentID classID =
        (s, .error (.ValidationError "studentId" "not found"))) ∧
    (eventID ∉ s.events.map Event.ID →
      applyEventRegistration s now id eventID studentID =
        (s, .error (.ValidationError "eventId" "not found"))) ∧
    (eventID ∈ s.events.map Event.ID → studentID ∉ s.students.map Student.ID →
      applyEventRegistration s now id eventID studentID =
        (s, .error (.ValidationError "studentId" "not found"))) := by
  refine ⟨?_, ?_, ?_, ?_⟩
  · intro hc
    have h1 := mapGet_none_of_not_mem_keys Class.ID hc
    simp [ApplyEnrollment, h1]
  · intro hc hs
    have h1 := mapGet_isSome_of_mem_keys Class.ID hc
    have h2 := mapGet_none_of_not_mem_keys Student.ID hs
    simp [ApplyEnrollment, h1, h2]
  · intro he
    have h1 := mapGet_none_of_not_mem_keys Event.ID he
    simp [applyEventRegistration, h1]
  · intro he hs
    obtain ⟨evt, h1⟩ := exists_mapGet_of_mem_keys Event.ID he
    have h2 := mapGet_none_of_not_mem_keys Student.ID hs
    simp [applyEventRegistration, h1, h2]

theorem missing_resource_validation_witness :
    ApplyEnrollment store5 9 "e9" "s9" "c1" =
      (store5, .error (.ValidationError "studentId" "not found")) :=
  (missing_resource_validation store5 9 "e9" "s9" "c1" "v1").2.1 (by decide) (by decide)

/-! ### C15 -/

/-- C15, as stated, fails: an application to a class that does not exist fails
with a ValidationError, not with a NotFoundError. -/
theorem apply_not_found_counterexample :
    ¬ (∀ (s : Store) (now : Time) (id studentID classID : String),
        (classID ∉ s.classes.map Class.ID ∨ studentID ∉ s.students.map Student.ID) →
        ∃ resource key : String,
          (ApplyEnrollment s now id studentID classID).2 =
            .error (.NotFoundError resource key)) := by
  intro h
  obtain ⟨resource, key, h2⟩ := h store0 1 "e1" "s1" "c9" (Or.inl (by decide))
  have h3 : (ApplyEnrollment store0 1 "e1" "s1" "c9").2 =
      .error (.ValidationError "classId" "not found") := by decide
  rw [h3] at h2
  cases h2

/-- C15, amended. `ApplyEnrollment` with a class ID or a student ID that does
not resolve fails with a ValidationError whose reason is "not found" and whose
field is classId or studentId; it never fails with a NotFoundError. -/
theorem apply_unresolved_is_validation (s : Store) (now : Time)
    (id studentID classID : String)
    (h : classID ∉ s.classes.map Class.ID ∨ studentID ∉ s.students.map Student.ID) :
    (∃ field : String, (field = "classId" ∨ field = "studentId") ∧
      (ApplyEnrollment s now id studentID classID).2 =
        .error (.ValidationError field "not found")) ∧
    ∀ resource key : String,
      (ApplyEnrollment s now id studentID classID).2 ≠ .error (.NotFoundError resource key) := by
  have hex : ∃ field : String, (field = "classId" ∨ field = "studentId") ∧
      (ApplyEnrollment s now id studentID classID).2 =
        .error (.ValidationError field "not found") := by
    by_cases hc : classID ∈ s.classes.map Class.ID
    · rcases h with h | h
      · exact absurd hc h
      · have h1 := mapGet_isSome_of_mem_keys Class.ID hc
        have h2 := mapGet_none_of_not_mem_keys Student.ID h
        exact ⟨"studentId", Or.inr rfl, by simp [ApplyEnrollment, h1, h2]⟩
    · have h1 := mapGet_none_of_not_mem_keys Class.ID hc
      exact ⟨"classId", Or.inl rfl, by simp [ApplyEnrollment, h1]⟩
  refine ⟨hex, ?_⟩
  intro resource key hc
  obtain ⟨field, -, hf⟩ := hex
  rw [hf] at hc
  cases hc

theorem apply_unresolved_is_validation_witness :
    (∃ field : String, (field = "classId" ∨ field = "studentId") ∧
      (ApplyEnrollment store0 1 "e1" "s1" "c9").2 =
        .error (.ValidationError field "not found")) ∧
    ∀ resource key : String,
      (ApplyEnrollment store0 1 "e1" "s1" "c9").2 ≠ .error (.NotFoundError resource key) :=
  apply_unresolved_is_validation store0 1 "e1" "s1" "c9" (Or.inl (by decide))

/-! ### C16 -/

/-- C16. Unknown registration id is NotFound: for an id that is not a key of the
enrollment map, `DropEnrollmentAndPromote`, `SetEnrollmentStatus` (any status)
and `GetEnrollment` return NotFoundError enrollment id, with the store as it
was; for an id that is a key, `GetEnrollment` returns the record stored under
it. -/
theorem unknown_id_not_found (s : Store) (now1 now2 : Time) (id : String)
    (status : EnrollmentStatus) :
    (id ∉ s.enrollments.map Enrollment.ID →
      DropEnrollmentAndPromote s now1 now2 id =
        (s, .error (.NotFoundError "enrollment" id)) ∧
      SetEnrollmentStatus s now1 id status = (s, .error (.NotFoundError "enrollment" id)) ∧
      GetEnrollment s id = .error (.NotFoundError "enrollment" id)) ∧
    (id ∈ s.enrollments.map Enrollment.ID →
      ∃ e : Enrollment, e ∈ s.enrollments ∧ e.ID = id ∧
        mapGet Enrollment.ID s.enrollments id = some e ∧ GetEnrollment s id = .ok e) := by
  constructor
  · intro h
    have hg := mapGet_none_of_not_mem_keys Enrollment.ID h
    refine ⟨?_, ?_, ?_⟩
    · simp [DropEnrollmentAndPromote, hg]
    · simp [SetEnrollmentStatus, hg]
    · simp [GetEnrollment, hg]
  · intro h
    obtain ⟨e, hg⟩ := exists_mapGet_of_mem_keys Enrollment.ID h
    exact ⟨e, mapGet_some_mem Enrollment.ID hg, mapGet_some_key Enrollment.ID hg, hg,
      by simp [GetEnrollment, hg]⟩

theorem unknown_id_not_found_witness :
    DropEnrollmentAndPromote store5 7 8 "e9" =
        (store5, .error (.NotFoundError "enrollment" "e9")) ∧
      SetEnrollmentStatus store5 7 "e9" EnrollmentRejected =
        (store5, .error (.NotFoundError "enrollment" "e9")) ∧
      GetEnrollment store5 "e9" = .error (.NotFoundError "enrollment" "e9") :=
  (unknown_id_not_found store5 7 8 "e9" EnrollmentRejected).1 (by decide)

/-! ### C17 -/

/-- C17, as stated, fails: setting an enrolled entry to enrolled changes the
store, because UpdatedAt is overwritten with the clock reading. -/
theorem setStatus_enrolled_noop_counterexample :
    ¬ (∀ (s : Store) (now : Time) (id : String) (e : Enrollment),
        mapGet Enrollment.ID s.enrollments id = some e →
        e.Status = EnrollmentEnrolled →
        SetEnrollmentStatus s now id EnrollmentEnrolled = (s, .ok e)) := by
  intro h
  have h2 := h store5 9 "e1" (mkEnrollment "e1" "s1" "c1" EnrollmentEnrolled 1)
    (by decide) (by decide)
  revert h2
  decide

/-- C17, amended. Forced admit of an already enrolled entry succeeds whatever
the capacity and the enrolled count of its class are; the entry keeps status
enrolled and all its other fields except UpdatedAt, which is set to the clock
reading; every other entry, the key set and every enrolled count are as
before. -/
theorem setStatus_enrolled_again (s : Store) (now : Time) (id : String) (e : Enrollment)
    (hg : mapGet Enrollment.ID s.enrollments id = some e)
    (hen : e.Status = EnrollmentEnrolled) :
    (SetEnrollmentStatus s now id EnrollmentEnrolled).2 =
      .ok { e with toMeta := { e.toMeta with UpdatedAt := now } } ∧
    mapGet Enrollment.ID (SetEnrollmentStatus s now id EnrollmentEnrolled).1.enrollments id =
      some { e with toMeta := { e.toMeta with UpdatedAt := now } } ∧
    (∀ id2 : String, id2 ≠ id →
      mapGet Enrollment.ID (SetEnrollmentStatus s now id EnrollmentEnrolled).1.enrollments id2 =
        mapGet Enrollment.ID s.enrollments id2) ∧
    (SetEnrollmentStatus s now id EnrollmentEnrolled).1.enrollments.map Enrollment.ID =
      s.enrollments.map Enrollment.ID ∧
    ∀ c : String, enrolledCount (SetEnrollmentStatus s now id EnrollmentEnrolled).1 c =
      enrolledCount s c := by
  have hsame : e.withStatus EnrollmentEnrolled now =
      { e with toMeta := { e.toMeta with UpdatedAt := now } } := by
    cases e with
    | mk m st cl status =>
      have : status = EnrollmentEnrolled := hen
      subst this
      rfl
  have hkey : (e.withStatus EnrollmentEnrolled now).ID = id :=
    (withStatus_ID e EnrollmentEnrolled now).trans (mapGet_some_key Enrollment.ID hg)
  have hrun : SetEnrollmentStatus s now id EnrollmentEnrolled =
      ({ s with enrollments := mapSet Enrollment.ID s.enrollments
                                (e.withStatus EnrollmentEnrolled now) },
        .ok (e.withStatus EnrollmentEnrolled now)) := by
    simp [SetEnrollmentStatus, hg, hen]
  rw [hrun, ← hsame]
  refine ⟨rfl, mapGet_dropped_after_set hg _ now, ?_, ?_, ?_⟩
  · intro id2 hid2
    exact mapGet_mapSet_ne Enrollment.ID _ _ id2 (by rw [hkey]; exact hid2)
  · exact mapSet_keys_of_get Enrollment.ID (mapGet_withStatus hg EnrollmentEnrolled now)
  · intro c
    have heq := countP_mapSet_of_get Enrollment.ID (isEnrolledIn c)
      (mapGet_withStatus hg EnrollmentEnrolled now)
    have h1 : isEnrolledIn c (e.withStatus EnrollmentEnrolled now) = isEnrolledIn c e := by
      simp [isEnrolledIn, Enrollment.withStatus, hen]
    rw [h1] at heq
    simp only [enrolledCount]
    omega

theorem setStatus_enrolled_again_witness :
    (SetEnrollmentStatus store8 9 "e1" EnrollmentEnrolled).2 =
      .ok { mkEnrollment "e1" "s1" "c1" EnrollmentEnrolled 1 with
            toMeta := { (mkEnrollment "e1" "s1" "c1" EnrollmentEnrolled 1).toMeta with
              UpdatedAt := 9 } } ∧
    mapGet Enrollment.ID (SetEnrollmentStatus store8 9 "e1" EnrollmentEnrolled).1.enrollments
        "e1" =
      some { mkEnrollment "e1" "s1" "c1" EnrollmentEnrolled 1 with
             toMeta := { (mkEnrollment "e1" "s1" "c1" EnrollmentEnrolled 1).toMeta with
               UpdatedAt := 9 } } ∧
    (∀ id2 : String, id2 ≠ "e1" →
      mapGet Enrollment.ID (SetEnrollmentStatus store8 9 "e1" EnrollmentEnrolled).1.enrollments
          id2 =
        mapGet Enrollment.ID store8.enrollments id2) ∧
    (SetEnrollmentStatus store8 9 "e1" EnrollmentEnrolled).1.enrollments.map Enrollment.ID =
      store8.enrollments.map Enrollment.ID ∧
    ∀ c : String, enrolledCount (SetEnrollmentStatus store8 9 "e1" EnrollmentEnrolled).1 c =
      enrolledCount store8 c :=
  setStatus_enrolled_again store8 9 "e1" (mkEnrollment "e1" "s1" "c1" EnrollmentEnrolled 1)
    (by decide) (by decide)

/-! ### C18 -/

/-- C18. Every other administrative transition is accepted unconditionally: for
an existing entry of any status and any new status other than enrolled (a
defined status or not), `SetEnrollmentStatus` succeeds, returns and stores the
entry with exactly that status and UpdatedAt set to the clock reading, every
other field as before; every other entry and the key set are as before. -/
theorem setStatus_other_unconditional (s : Store) (now : Time) (id : String) (e : Enrollment)
    (status : EnrollmentStatus)
    (hg : mapGet Enrollment.ID s.enrollments id = some e)
    (hst : status ≠ EnrollmentEnrolled) :
    (SetEnrollmentStatus s now id status).2 =
      .ok { e with Status := status, toMeta := { e.toMeta with UpdatedAt := now } } ∧
    mapGet Enrollment.ID (SetEnrollmentStatus s now id status).1.enrollments id =
      some { e with Status := status, toMeta := { e.toMeta with UpdatedAt := now } } ∧
    (∀ id2 : String, id2 ≠ id →
      mapGet Enrollment.ID (SetEnrollmentStatus s now id status).1.enrollments id2 =
        mapGet Enrollment.ID s.enrollments id2) ∧
    (SetEnrollmentStatus s now id status).1.enrollments.map Enrollment.ID =
      s.enrollments.map Enrollment.ID := by
  have hkey : (e.withStatus status now).ID = id :=
    (withStatus_ID e status now).trans (mapGet_some_key Enrollment.ID hg)
  have hrun : SetEnrollmentStatus s now id status =
      ({ s with enrollments := mapSet Enrollment.ID s.enrollments (e.withStatus status now) },
        .ok (e.withStatus status now)) := by
    simp [SetEnrollmentStatus, hg, hst]
  rw [hrun]
  refine ⟨rfl, mapGet_dropped_after_set hg _ now, ?_, ?_⟩
  · intro id2 hid2
    exact mapGet_mapSet_ne Enrollment.ID _ _ id2 (by rw [hkey]; exact hid2)
  · exact mapSet_keys_of_get Enrollment.ID (mapGet_withStatus hg status now)

theorem setStatus_other_unconditional_witness :
    (SetEnrollmentStatus store4 9 "e1" "on-hold").2 =
      .ok { mkEnrollment "e1" "s1" "c1" EnrollmentRejected 1 with
            Status := "on-hold",
            toMeta := { (mkEnrollment "e1" "s1" "c1" EnrollmentRejected 1).toMeta with
              UpdatedAt := 9 } } ∧
    mapGet Enrollment.ID (SetEnrollmentStatus store4 9 "e1" "on-hold").1.enrollments "e1" =
      some { mkEnrollment "e1" "s1" "c1" EnrollmentRejected 1 with
             Status := "on-hold",
             toMeta := { (mkEnrollment "e1" "s1" "c1" EnrollmentRejected 1).toMeta with
               UpdatedAt := 9 } } ∧
    (∀ id2 : String, id2 ≠ "e1" →
      mapGet Enrollment.ID (SetEnrollmentStatus store4 9 "e1" "on-hold").1.enrollments id2 =
        mapGet Enrollment.ID store4.enrollments id2) ∧
    (SetEnrollmentStatus store4 9 "e1" "on-hold").1.enrollments.map Enrollment.ID =
      store4.enrollments.map Enrollment.ID :=
  setStatus_other_unconditional store4 9 "e1"
    (mkEnrollment "e1" "s1" "c1" EnrollmentRejected 1) "on-hold" (by decide) (by decide)

/-! ### Effect of one call on the lookups -/

theorem admissionStatus_cases (s : Store) (classID : String) :
    admissionStatus s classID = EnrollmentEnrolled ∨
      admissionStatus s classID = EnrollmentWaitlisted := by
  unfold admissionStatus
  dsimp only
  split
  · exact Or.inr rfl
  · exact Or.inl rfl

/-- The outcomes of `ApplyEnrollment` with the ID and status of the new entry. -/
theorem ApplyEnrollment_result (s : Store) (now : Time) (id studentID classID : String) :
    (∃ err, ApplyEnrollment s now id studentID classID = (s, .error err)) ∨
    (∃ en : Enrollment, en.ID = id ∧
      (en.Status = EnrollmentEnrolled ∨ en.Status = EnrollmentWaitlisted) ∧
      ApplyEnrollment s now id studentID classID =
        ({ s with enrollments := mapSet Enrollment.ID s.enrollments en }, .ok en)) := by
  unfold ApplyEnrollment
  split_ifs with h1 h2 h3
  · exact Or.inl ⟨_, rfl⟩
  · exact Or.inl ⟨_, rfl⟩
  · exact Or.inl ⟨_, rfl⟩
  · exact Or.inr ⟨{ toMeta := { ID := id, CreatedAt := now, UpdatedAt := now },
                    StudentID := studentID, ClassID := classID,
                    Status := admissionStatus s classID },
      rfl, admissionStatus_cases s classID, rfl⟩

/-- What `ApplyEnrollment` does to the entry stored under a key: nothing, or
(when the generated ID is that key) it is overwritten by the new entry. -/
theorem apply_effect (s : Store) (now : Time) (id studentID classID : String)
    (id2 : String) :
    mapGet Enrollment.ID (ApplyEnrollment s now id studentID classID).1.enrollments id2 =
        mapGet Enrollment.ID s.enrollments id2 ∨
    (id2 = id ∧ ∃ en : Enrollment,
      (en.Status = EnrollmentEnrolled ∨ en.Status = EnrollmentWaitlisted) ∧
      mapGet Enrollment.ID (ApplyEnrollment s now id studentID classID).1.enrollments id2 =
        some en) := by
  rcases ApplyEnrollment_result s now id studentID classID with ⟨err, he⟩ | ⟨en, hid, hst, he⟩
  · rw [he]; exact Or.inl rfl
  · rw [he]
    by_cases hk : id2 = id
    · right
      refine ⟨hk, en, hst, ?_⟩
      rw [hk, ← hid]
      exact mapGet_mapSet_self Enrollment.ID _ _
    · left
      exact mapGet_mapSet_ne Enrollment.ID _ _ id2 (by rw [hid]; exact hk)

/-- What `SetEnrollmentStatus` does to the entry stored under a key: nothing,
or (for the addressed key) status and UpdatedAt are overwritten. -/
theorem setStatus_effect (s : Store) (now : Time) (id : String) (status : EnrollmentStatus)
    (id2 : String) (a : Enrollment)
    (ha : mapGet Enrollment.ID s.enrollments id2 = some a) :
    mapGet Enrollment.ID (SetEnrollmentStatus s now id status).1.enrollments id2 = some a ∨
    (id2 = id ∧
      mapGet Enrollment.ID (SetEnrollmentStatus s now id status).1.enrollments id2 =
        some (a.withStatus status now) ∧
      (SetEnrollmentStatus s now id status).2 = .ok (a.withStatus status now) ∧
      (status = EnrollmentEnrolled → a.Status = EnrollmentEnrolled ∨
        (enrolledCount s a.ClassID : Int) < classCapacity s a.ClassID)) := by
  rcases SetEnrollmentStatus_cases s now id status with
    ⟨-, he⟩ | ⟨e, -, -, -, -, he⟩ | ⟨e, hg, hok, he⟩
  · rw [he]; exact Or.inl ha
  · rw [he]; exact Or.inl ha
  · rw [he]
    by_cases hk : id2 = id
    · right
      subst hk
      rw [ha] at hg
      cases hg
      exact ⟨rfl, mapGet_dropped_after_set ha _ now, rfl, hok⟩
    · left
      have hkey : (e.withStatus status now).ID = id :=
        (withStatus_ID e status now).trans (mapGet_some_key Enrollment.ID hg)
      show mapGet Enrollment.ID (mapSet Enrollment.ID _ _) id2 = _
      rw [mapGet_mapSet_ne Enrollment.ID _ _ id2 (by rw [hkey]; exact hk)]
      exact ha

/-- What `DropEnrollmentAndPromote` does to the entry stored under a key:
nothing; or (addressed key, entry not yet dropped) it is stored as dropped; or
(another key, entry waitlisted) it is stored as enrolled and returned as the
promoted record. -/
theorem drop_effect (s : Store) (now1 now2 : Time) (id : String)
    (hnd : (s.enrollments.map Enrollment.ID).Nodup)
    (id2 : String) (a : Enrollment)
    (ha : mapGet Enrollment.ID s.enrollments id2 = some a) :
    mapGet Enrollment.ID (DropEnrollmentAndPromote s now1 now2 id).1.enrollments id2 = some a ∨
    (id2 = id ∧ a.Status ≠ EnrollmentDropped ∧
      mapGet Enrollment.ID (DropEnrollmentAndPromote s now1 now2 id).1.enrollments id2 =
        some (a.withStatus EnrollmentDropped now1)) ∨
    (id2 ≠ id ∧ a.Status = EnrollmentWaitlisted ∧
      mapGet Enrollment.ID (DropEnrollmentAndPromote s now1 now2 id).1.enrollments id2 =
        some (a.withStatus EnrollmentEnrolled now2) ∧
      ∃ d : Enrollment, (DropEnrollmentAndPromote s now1 now2 id).2 =
        .ok (d, some (a.withStatus EnrollmentEnrolled now2))) := by
  rcases DropEnrollmentAndPromote_cases s now1 now2 id with
    ⟨-, he⟩ | ⟨e, -, -, he⟩ | ⟨e, hg, hd, -, he⟩ | ⟨e, n, t, hg, hen, hw, he⟩
  · rw [he]; exact Or.inl ha
  · rw [he]; exact Or.inl ha
  · rw [he]
    have hkey : (e.withStatus EnrollmentDropped now1).ID = id :=
      (withStatus_ID e EnrollmentDropped now1).trans (mapGet_some_key Enrollment.ID hg)
    by_cases hk : id2 = id
    · right; left
      subst hk
      rw [ha] at hg
      cases hg
      exact ⟨rfl, hd, mapGet_dropped_after_set ha _ now1⟩
    · left
      show mapGet Enrollment.ID (mapSet Enrollment.ID _ _) id2 = _
      rw [mapGet_mapSet_ne Enrollment.ID _ _ id2 (by rw [hkey]; exact hk)]
      exact ha
  · rw [he]
    have hkey : (e.withStatus EnrollmentDropped now1).ID = id :=
      (withStatus_ID e EnrollmentDropped now1).trans (mapGet_some_key Enrollment.ID hg)
    have hg1 := mapGet_dropped_after_set hg EnrollmentDropped now1
    have hnd1 := nodup_mapSet Enrollment.ID (e.withStatus EnrollmentDropped now1) hnd
    have hn := mem_waitlistOf (hw ▸ List.mem_cons_self n t)
    have hne : n ≠ e.withStatus EnrollmentDropped now1 := by
      intro hc
      have h2 := hn.2.2
      rw [hc] at h2
      have h3 : EnrollmentDropped = EnrollmentWaitlisted := h2
      exact absurd h3 (by decide)
    have hid : n.ID ≠ id := ne_id_of_ne hnd1 hg1 hn.1 hne
    have hnmem : n ∈ s.enrollments := by
      rcases mem_mapSet Enrollment.ID hn.1 with h | h
      · exact absurd h hne
      · exact h
    have hgn : mapGet Enrollment.ID s.enrollments n.ID = some n :=
      mapGet_of_mem_nodup Enrollment.ID hnd hnmem
    by_cases hk : id2 = n.ID
    · right; right
      subst hk
      rw [ha] at hgn
      cases hgn
      refine ⟨hid, hn.2.2, ?_, _, rfl⟩
      show mapGet Enrollment.ID (mapSet Enrollment.ID _ _) a.ID = _
      rw [← withStatus_ID a EnrollmentEnrolled now2]
      exact mapGet_mapSet_self Enrollment.ID _ _
    · have hstep : mapGet Enrollment.ID
          (mapSet Enrollment.ID
            (mapSet Enrollment.ID s.enrollments (e.withStatus EnrollmentDropped now1))
            (n.withStatus EnrollmentEnrolled now2)) id2 =
          mapGet Enrollment.ID
            (mapSet Enrollment.ID s.enrollments (e.withStatus EnrollmentDropped now1)) id2 :=
        mapGet_mapSet_ne Enrollment.ID _ _ id2 (by rw [withStatus_ID]; exact hk)
      by_cases hk2 : id2 = id
      · right; left
        subst hk2
        rw [ha] at hg
        cases hg
        have hd : a.Status ≠ EnrollmentDropped := by rw [hen]; decide
        refine ⟨rfl, hd, ?_⟩
        show mapGet Enrollment.ID (mapSet Enrollment.ID _ _) id2 = _
        rw [hstep]
        exact hg1
      · left
        show mapGet Enrollment.ID (mapSet Enrollment.ID _ _) id2 = _
        rw [hstep, mapGet_mapSet_ne Enrollment.ID _ _ id2 (by rw [hkey]; exact hk2)]
        exact ha

theorem drop_keys (s : Store) (now1 now2 : Time) (id : String) :
    (DropEnrollmentAndPromote s now1 now2 id).1.enrollments.map Enrollment.ID =
      s.enrollments.map Enrollment.ID := by
  rcases DropEnrollmentAndPromote_cases s now1 now2 id with
    ⟨-, he⟩ | ⟨e, -, -, he⟩ | ⟨e, hg, -, -, he⟩ | ⟨e, n, t, hg, -, hw, he⟩
  · rw [he]
  · rw [he]
  · rw [he]
    exact mapSet_keys_of_get Enrollment.ID (mapGet_withStatus hg EnrollmentDropped now1)
  · rw [he]
    have hn := mem_waitlistOf (hw ▸ List.mem_cons_self n t)
    obtain ⟨x, hx⟩ := exists_mapGet_of_mem_keys Enrollment.ID
      (List.mem_map_of_mem Enrollment.ID hn.1)
    have hx2 : mapGet Enrollment.ID
        (mapSet Enrollment.ID s.enrollments (e.withStatus EnrollmentDropped now1))
        (n.withStatus EnrollmentEnrolled now2).ID = some x := by
      rw [withStatus_ID]; exact hx
    show (mapSet Enrollment.ID _ _).map Enrollment.ID = _
    rw [mapSet_keys_of_get Enrollment.ID hx2]
    exact mapSet_keys_of_get Enrollment.ID (mapGet_withStatus hg EnrollmentDropped now1)

/-! ### C19 -/

/-- C19, as stated, fails: `SetEnrollmentStatus` moves a rejected entry back to
waitlisted, a change that is not among the five listed ones. -/
theorem status_machine_counterexample :
    ¬ (∀ (s : Store) (now : Time) (id : String) (status : EnrollmentStatus) (id2 : String)
        (a b : Enrollment),
        mapGet Enrollment.ID s.enrollments id2 = some a →
        mapGet Enrollment.ID (SetEnrollmentStatus s now id status).1.enrollments id2 = some b →
        a.Status ≠ b.Status → specTransition a.Status b.Status = true) := by
  intro h
  have h2 := h store4 9 "e1" EnrollmentWaitlisted "e1"
    (mkEnrollment "e1" "s1" "c1" EnrollmentRejected 1)
    ((mkEnrollment "e1" "s1" "c1" EnrollmentRejected 1).withStatus EnrollmentWaitlisted 9)
    (by decide) (by decide) (by decide)
  revert h2
  decide

/-- C19, amended. In every store: `ApplyEnrollment` creates its record as
enrolled or waitlisted and changes the status stored under a key only when the
generated ID is that key; `DropEnrollmentAndPromote` changes a stored status
only from waitlisted to enrolled (the promoted entry) or, for the addressed
entry, from any status to dropped; `SetEnrollmentStatus` changes only the
status of the addressed entry, to the requested status whatever the old one
was.  Neither `ApplyEnrollment` nor `DropEnrollmentAndPromote` stores an entry
with status applied that was not stored before the call. -/
theorem status_changes_by_call (s : Store) (hwf : s.WF) :
    (∀ (now : Time) (id studentID classID : String) (en : Enrollment),
      (ApplyEnrollment s now id studentID classID).2 = .ok en →
      en.Status = EnrollmentEnrolled ∨ en.Status = EnrollmentWaitlisted) ∧
    (∀ (now : Time) (id studentID classID id2 : String) (a b : Enrollment),
      mapGet Enrollment.ID s.enrollments id2 = some a →
      mapGet Enrollment.ID (ApplyEnrollment s now id studentID classID).1.enrollments id2 =
        some b →
      a.Status ≠ b.Status → id2 = id) ∧
    (∀ (now1 now2 : Time) (id id2 : String) (a b : Enrollment),
      mapGet Enrollment.ID s.enrollments id2 = some a →
      mapGet Enrollment.ID (DropEnrollmentAndPromote s now1 now2 id).1.enrollments id2 =
        some b →
      a.Status ≠ b.Status →
      (a.Status = EnrollmentWaitlisted ∧ b.Status = EnrollmentEnrolled) ∨
        (id2 = id ∧ b.Status = EnrollmentDropped)) ∧
    (∀ (now : Time) (id : String) (status : EnrollmentStatus) (id2 : String) (a b : Enrollment),
      mapGet Enrollment.ID s.enrollments id2 = some a →
      mapGet Enrollment.ID (SetEnrollmentStatus s now id status).1.enrollments id2 = some b →
      a.Status ≠ b.Status → id2 = id ∧ b.Status = status) ∧
    (∀ (now : Time) (id studentID classID id2 : String) (b : Enrollment),
      mapGet Enrollment.ID (ApplyEnrollment s now id studentID classID).1.enrollments id2 =
        some b →
      b.Status = EnrollmentApplied → mapGet Enrollment.ID s.enrollments id2 = some b) ∧
    (∀ (now1 now2 : Time) (id id2 : String) (b : Enrollment),
      mapGet Enrollment.ID (DropEnrollmentAndPromote s now1 now2 id).1.enrollments id2 =
        some b →
      b.Status = EnrollmentApplied → mapGet Enrollment.ID s.enrollments id2 = some b) := by
  refine ⟨?_, ?_, ?_, ?_, ?_, ?_⟩
  · intro now id studentID classID en hok
    rcases ApplyEnrollment_result s now id studentID classID with ⟨err, he⟩ | ⟨en2, -, hst, he⟩
    · rw [he] at hok; cases hok
    · rw [he] at hok
      cases hok
      exact hst
  · intro now id studentID classID id2 a b ha hb hne
    rcases apply_effect s now id studentID classID id2 with h | ⟨hk, -⟩
    · rw [h, ha] at hb
      cases hb
      exact absurd rfl hne
    · exact hk
  · intro now1 now2 id id2 a b ha hb hne
    rcases drop_effect s now1 now2 id hwf.1 id2 a ha with h | ⟨hk, -, h⟩ | ⟨-, hw, h, -⟩
    · rw [h] at hb
      cases hb
      exact absurd rfl hne
    · rw [h] at hb
      cases hb
      exact Or.inr ⟨hk, rfl⟩
    · rw [h] at hb
      cases hb
      exact Or.inl ⟨hw, rfl⟩
  · intro now id status id2 a b ha hb hne
    rcases setStatus_effect s now id status id2 a ha with h | ⟨hk, h, -, -⟩
    · rw [h] at hb
      cases hb
      exact absurd rfl hne
    · rw [h] at hb
      cases hb
      exact ⟨hk, rfl⟩
  · intro now id studentID classID id2 b hb happ
    rcases apply_effect s now id studentID classID id2 with h | ⟨-, en, hst, h⟩
    · rw [← h]; exact hb
    · rw [h] at hb
      cases hb
      rcases hst with h1 | h1
      · rw [h1] at happ; exact absurd happ (by decide)
      · rw [h1] at happ; exact absurd happ (by decide)
  · intro now1 now2 id id2 b hb happ
    have hmem : id2 ∈ s.enrollments.map Enrollment.ID := by
      rw [← drop_keys s now1 now2 id, ← mapGet_some_key Enrollment.ID hb]
      exact List.mem_map_of_mem Enrollment.ID (mapGet_some_mem Enrollment.ID hb)
    obtain ⟨a, ha⟩ := exists_mapGet_of_mem_keys Enrollment.ID hmem
    rcases drop_effect s now1 now2 id hwf.1 id2 a ha with h | ⟨-, -, h⟩ | ⟨-, -, h, -⟩
    · rw [h] at hb
      cases hb
      exact ha
    · rw [h] at hb
      cases hb
      have h3 : EnrollmentDropped = EnrollmentApplied := happ
      exact absurd h3 (by decide)
    · rw [h] at hb
      cases hb
      have h3 : EnrollmentEnrolled = EnrollmentApplied := happ
      exact absurd h3 (by decide)

theorem status_changes_by_call_witness :
    ((mkEnrollment "e1" "s1" "c1" EnrollmentRejected 1).Status = EnrollmentWaitlisted ∧
        ((mkEnrollment "e1" "s1" "c1" EnrollmentRejected 1).withStatus
          EnrollmentDropped 7).Status = EnrollmentEnrolled) ∨
      ("e1" = "e1" ∧
        ((mkEnrollment "e1" "s1" "c1" EnrollmentRejected 1).withStatus
          EnrollmentDropped 7).Status = EnrollmentDropped) :=
  (status_changes_by_call store4 (by decide)).2.2.1 7 8 "e1" "e1"
    (mkEnrollment "e1" "s1" "c1" EnrollmentRejected 1)
    ((mkEnrollment "e1" "s1" "c1" EnrollmentRejected 1).withStatus EnrollmentDropped 7)
    (by decide) (by decide) (by decide)

/-- Replay on `store4` and `store5`: dropping a rejected entry stores it as
dropped, and an administrator can store the status applied. -/
theorem status_machine_replays :
    mapGet Enrollment.ID (DropEnrollmentAndPromote store4 7 8 "e1").1.enrollments "e1" =
      some ((mkEnrollment "e1" "s1" "c1" EnrollmentRejected 1).withStatus EnrollmentDropped 7) ∧
    mapGet Enrollment.ID (SetEnrollmentStatus store5 9 "e2" EnrollmentApplied).1.enrollments "e2" =
      some ((mkEnrollment "e2" "s2" "c1" EnrollmentWaitlisted 2).withStatus
        EnrollmentApplied 9) := by
  decide

/-! ### C20 -/

/-- C20. Records are never deleted and their identity is immutable: the entry
stored under a key before a call of `ApplyEnrollment` (with an ID that is not
yet a key), `DropEnrollmentAndPromote` or `SetEnrollmentStatus` is stored under
that key afterwards with the same ID, ClassID, StudentID and CreatedAt.
`ApplyEnrollment` leaves it unchanged, `SetEnrollmentStatus` changes it only if
it is the addressed entry, `DropEnrollmentAndPromote` only if it is the
addressed entry or the promoted record. -/
theorem records_persist (s : Store) (hwf : s.WF) (id2 : String) (a : Enrollment)
    (ha : mapGet Enrollment.ID s.enrollments id2 = some a) :
    (∀ (now : Time) (id studentID classID : String),
      id ∉ s.enrollments.map Enrollment.ID →
      mapGet Enrollment.ID (ApplyEnrollment s now id studentID classID).1.enrollments id2 =
        some a) ∧
    (∀ (now1 now2 : Time) (id : String), ∃ b : Enrollment,
      mapGet Enrollment.ID (DropEnrollmentAndPromote s now1 now2 id).1.enrollments id2 =
        some b ∧
      b.ID = a.ID ∧ b.ClassID = a.ClassID ∧ b.StudentID = a.StudentID ∧
      b.CreatedAt = a.CreatedAt ∧
      (b ≠ a → id2 = id ∨
        ∃ d : Enrollment, (DropEnrollmentAndPromote s now1 now2 id).2 = .ok (d, some b))) ∧
    (∀ (now : Time) (id : String) (status : EnrollmentStatus), ∃ b : Enrollment,
      mapGet Enrollment.ID (SetEnrollmentStatus s now id status).1.enrollments id2 = some b ∧
      b.ID = a.ID ∧ b.ClassID = a.ClassID ∧ b.StudentID = a.StudentID ∧
      b.CreatedAt = a.CreatedAt ∧
      (b ≠ a → id2 = id)) := by
  refine ⟨?_, ?_, ?_⟩
  · intro now id studentID classID hfresh
    rcases apply_effect s now id studentID classID id2 with h | ⟨hk, -⟩
    · rw [h]; exact ha
    · exfalso
      apply hfresh
      rw [← hk, ← mapGet_some_key Enrollment.ID ha]
      exact List.mem_map_of_mem Enrollment.ID (mapGet_some_mem Enrollment.ID ha)
  · intro now1 now2 id
    rcases drop_effect s now1 now2 id hwf.1 id2 a ha with h | ⟨hk, -, h⟩ | ⟨-, -, h, d, hd⟩
    · exact ⟨a, h, rfl, rfl, rfl, rfl, fun hne => absurd rfl hne⟩
    · exact ⟨_, h, rfl, rfl, rfl, rfl, fun _ => Or.inl hk⟩
    · exact ⟨_, h, rfl, rfl, rfl, rfl, fun _ => Or.inr ⟨d, hd⟩⟩
  · intro now id status
    rcases setStatus_effect s now id status id2 a ha with h | ⟨hk, h, -, -⟩
    · exact ⟨a, h, rfl, rfl, rfl, rfl, fun hne => absurd rfl hne⟩
    · exact ⟨_, h, rfl, rfl, rfl, rfl, fun _ => hk⟩

theorem records_persist_witness :
    ∃ b : Enrollment,
      mapGet Enrollment.ID (DropEnrollmentAndPromote store3 7 8 "e1").1.enrollments "e3" =
        some b ∧
      b.ID = (mkEnrollment "e3" "s3" "c1" EnrollmentWaitlisted 3).ID ∧
      b.ClassID = (mkEnrollment "e3" "s3" "c1" EnrollmentWaitlisted 3).ClassID ∧
      b.StudentID = (mkEnrollment "e3" "s3" "c1" EnrollmentWaitlisted 3).StudentID ∧
      b.CreatedAt = (mkEnrollment "e3" "s3" "c1" EnrollmentWaitlisted 3).CreatedAt ∧
      (b ≠ mkEnrollment "e3" "s3" "c1" EnrollmentWaitlisted 3 → "e3" = "e1" ∨
        ∃ d : Enrollment, (DropEnrollmentAndPromote store3 7 8 "e1").2 = .ok (d, some b)) :=
  (records_persist store3 (by decide) "e3" (mkEnrollment "e3" "s3" "c1" EnrollmentWaitlisted 3)
    (by decide)).2.1 7 8 "e1"

/-! ### C30 -/

/-- C30. An event with non-positive capacity is unlimited: when the event exists
with Capacity <= 0, the student exists and the dedupe loop finds no duplicate,
`applyEventRegistration` succeeds with status registered whatever the number of
registered entries; `ApplyEnrollment` on an existing class with Capacity <= 0,
for an existing student without active entry, succeeds with status waitlisted. -/
theorem nonpositive_capacity (s : Store) (now : Time) (id studentID : String) :
    (∀ (eventID : String) (evt : Event),
      mapGet Event.ID s.events eventID = some evt → evt.Capacity ≤ 0 →
      studentID ∈ s.students.map Student.ID →
      dedupeConflict eventID studentID s.registrations = false →
      ∃ r : EventRegistration,
        (applyEventRegistration s now id eventID studentID).2 = .ok r ∧
        r.Status = "registered" ∧ r.EventID = eventID ∧ r.StudentID = studentID) ∧
    (∀ (classID : String) (c : Class),
      mapGet Class.ID s.classes classID = some c → c.Capacity ≤ 0 →
      studentID ∈ s.students.map Student.ID →
      (∀ e ∈ s.enrollments, e.StudentID = studentID → e.ClassID = classID →
        e.Status = EnrollmentDropped ∨ e.Status = EnrollmentRejected) →
      ∃ en : Enrollment,
        (ApplyEnrollment s now id studentID classID).2 = .ok en ∧
        en.Status = EnrollmentWaitlisted ∧ en.ClassID = classID ∧
        en.StudentID = studentID) := by
  constructor
  · intro eventID evt hev hcap hst hdup
    have h2 := mapGet_isSome_of_mem_keys Student.ID hst
    have hnot : ¬ (evt.Capacity > 0 ∧ (registeredCount s eventID : Int) ≥ evt.Capacity) := by
      intro hc
      omega
    refine ⟨{ toMeta := { ID := id, CreatedAt := now, UpdatedAt := now },
              EventID := eventID, StudentID := studentID, Status := "registered" }, ?_,
      rfl, rfl, rfl⟩
    simp [applyEventRegistration, hev, h2, hdup, hnot]
  · intro classID c hc hcap hst hnone
    have h1 : (mapGet Class.ID s.classes classID).isNone = false := by rw [hc]; rfl
    have h2 := mapGet_isSome_of_mem_keys Student.ID hst
    have h3 := (hasActiveEnrollment_false_iff s studentID classID).mpr hnone
    have hcapc : classCapacity s classID = c.Capacity := by simp [classCapacity, hc]
    have hstat : admissionStatus s classID = EnrollmentWaitlisted := by
      unfold admissionStatus
      dsimp only
      rw [hcapc]
      have : (enrolledCount s classID : Int) ≥ c.Capacity := by omega
      simp [this]
    refine ⟨{ toMeta := { ID := id, CreatedAt := now, UpdatedAt := now },
              StudentID := studentID, ClassID := classID,
              Status := EnrollmentWaitlisted }, ?_, rfl, rfl, rfl⟩
    simp [ApplyEnrollment, h1, h2, h3, hstat]

theorem nonpositive_capacity_witness :
    ∃ r : EventRegistration,
      (applyEventRegistration storeE0 1 "r1" "v0" "s1").2 = .ok r ∧
      r.Status = "registered" ∧ r.EventID = "v0" ∧ r.StudentID = "s1" :=
  (nonpositive_capacity storeE0 1 "r1" "s1").1 "v0" (mkEvent "v0" 0)
    (by decide) (by decide) (by decide) (by decide)

/-- Replay on `storeE0`: the class c0 of capacity 0 waitlists its first
applicant, the event v0 of capacity 0 registers its third one. -/
theorem storeE0_zero_capacity :
    (ApplyEnrollment storeE0 1 "e1" "s1" "c0").2 =
      .ok (mkEnrollment "e1" "s1" "c0" EnrollmentWaitlisted 1) ∧
    (applyEventRegistration
      (applyEventRegistration (applyEventRegistration storeE0 1 "r1" "v0" "s1").1
        2 "r2" "v0" "s2").1 3 "r3" "v0" "s3").2 =
      .ok (mkRegistration "r3" "v0" "s3" "registered" 3) := by
  decide

/-! ### C24 -/

/-- C24, the code at the failing input.  After s1 registers for v1, cancels and
registers again, the map holds a cancelled and an active registration of the
pair.  When the cancelled one is enumerated first the dedupe loop leaves at it
(`break`), a third registration of s1 succeeds and the pair has two active
registrations; when the active one is enumerated first the call is refused. -/
theorem event_duplicate_accepted :
    storeE1.registrations =
      [(mkRegistration "r1" "v1" "s1" "registered" 1).withStatus "cancelled" 2,
       mkRegistration "r2" "v1" "s1" "registered" 4] ∧
    (applyEventRegistration storeE1 5 "r3" "v1" "s1").2 =
      .ok (mkRegistration "r3" "v1" "s1" "registered" 5) ∧
    activeRegistrations (applyEventRegistration storeE1 5 "r3" "v1" "s1").1 "v1" "s1" = 2 ∧
    applyEventRegistration { storeE1 with registrations := storeE1Reordered } 5 "r3" "v1" "s1" =
      ({ storeE1 with registrations := storeE1Reordered },
        .error (.ConflictError "already registered")) := by
  decide

/-! ### C21 -/

theorem ApplyEnrollment_ok (s : Store) (now : Time) (id studentID classID : String)
    (h1 : (mapGet Class.ID s.classes classID).isNone = false)
    (h2 : (mapGet Student.ID s.students studentID).isNone = false)
    (h3 : hasActiveEnrollment s studentID classID = false) :
    ApplyEnrollment s now id studentID classID =
      ({ s with enrollments := mapSet Enrollment.ID s.enrollments
                                { toMeta := { ID := id, CreatedAt := now, UpdatedAt := now },
                                  StudentID := studentID, ClassID := classID,
                                  Status := admissionStatus s classID } },
        .ok { toMeta := { ID := id, CreatedAt := now, UpdatedAt := now },
              StudentID := studentID, ClassID := classID,
              Status := admissionStatus s classID }) := by
  simp [ApplyEnrollment, h1, h2, h3]

theorem admissionStatus_eq (s : Store) (classID : String) :
    admissionStatus s classID =
      if (enrolledCount s classID : Int) < classCapacity s classID
      then EnrollmentEnrolled else EnrollmentWaitlisted := by
  unfold admissionStatus
  by_cases hlt : (enrolledCount s classID : Int) < classCapacity s classID
  · simp [hlt, not_le.mpr hlt]
  · simp [hlt, not_lt.mp hlt]

/-- Sequential filling from a store where the class already holds `k` enrolled
entries and none of the applicants has an active entry. -/
theorem applyAll_statuses (classID : String) (apps : List Application) :
    ∀ (s : Store),
      (mapGet Class.ID s.classes classID).isNone = false →
      (∀ a ∈ apps, (mapGet Student.ID s.students a.studentID).isNone = false) →
      (∀ a ∈ apps, hasActiveEnrollment s a.studentID classID = false) →
      (apps.map Application.studentID).Nodup →
      (apps.map Application.id).Nodup →
      (∀ a ∈ apps, a.id ∉ s.enrollments.map Enrollment.ID) →
      ∀ (j : Nat) (a : Application), apps[j]? = some a →
        ∃ en : Enrollment, (applyAll s classID apps).2[j]? = some (.ok en) ∧
          en.ID = a.id ∧ en.StudentID = a.studentID ∧ en.ClassID = classID ∧
          en.Status = if ((enrolledCount s classID + j : Nat) : Int) < classCapacity s classID
            then EnrollmentEnrolled else EnrollmentWaitlisted := by
  induction apps with
  | nil => intro s _ _ _ _ _ _ j a h; simp at h
  | cons a0 rest ih =>
    intro s hc hst hact hnds hndi hfresh j a hj
    have h2 := hst a0 (List.mem_cons_self _ _)
    have h3 := hact a0 (List.mem_cons_self _ _)
    have hrun := ApplyEnrollment_ok s a0.now a0.id a0.studentID classID hc h2 h3
    have hfr0 := hfresh a0 (List.mem_cons_self _ _)
    have happ := mapSet_of_none Enrollment.ID
      (v := ({ toMeta := { ID := a0.id, CreatedAt := a0.now, UpdatedAt := a0.now },
               StudentID := a0.studentID, ClassID := classID,
               Status := admissionStatus s classID } : Enrollment))
      (mapGet_none_of_not_mem_keys Enrollment.ID hfr0)
    cases j with
    | zero =>
      simp only [List.getElem?_cons_zero, Option.some.injEq] at hj
      subst hj
      refine ⟨{ toMeta := { ID := a0.id, CreatedAt := a0.now, UpdatedAt := a0.now },
                StudentID := a0.studentID, ClassID := classID,
                Status := admissionStatus s classID }, ?_, rfl, rfl, rfl, ?_⟩
      · simp only [applyAll, hrun, List.getElem?_cons_zero]
      · simp only [Nat.add_zero]
        exact admissionStatus_eq s classID
    | succ j =>
      simp only [List.getElem?_cons_succ] at hj
      rw [List.map_cons, List.nodup_cons] at hnds hndi
      -- the store after the first call
      have hs1 : (ApplyEnrollment s a0.now a0.id a0.studentID classID).1 =
          { s with enrollments := s.enrollments ++
              [{ toMeta := { ID := a0.id, CreatedAt := a0.now, UpdatedAt := a0.now },
                 StudentID := a0.studentID, ClassID := classID,
                 Status := admissionStatus s classID }] } := by
        rw [hrun, happ]
      have hcount : enrolledCount (ApplyEnrollment s a0.now a0.id a0.studentID classID).1 classID =
          enrolledCount s classID +
            (if (enrolledCount s classID : Int) < classCapacity s classID then 1 else 0) := by
        rw [hs1]
        have hnew : isEnrolledIn classID
            { toMeta := { ID := a0.id, CreatedAt := a0.now, UpdatedAt := a0.now },
              StudentID := a0.studentID, ClassID := classID,
              Status := admissionStatus s classID } =
            decide ((enrolledCount s classID : Int) < classCapacity s classID) := by
          have hne : (EnrollmentWaitlisted == EnrollmentEnrolled) = false := by decide
          have hee : (EnrollmentEnrolled == EnrollmentEnrolled) = true := by decide
          simp only [isEnrolledIn, beq_self_eq_true, Bool.true_and]
          rw [admissionStatus_eq]
          by_cases hlt : (enrolledCount s classID : Int) < classCapacity s classID
          · simp only [hlt, if_true, hee, decide_True]
          · simp only [hlt, if_false, hne, decide_False]
        have hcnt : enrolledCount
            { s with enrollments := s.enrollments ++
                [{ toMeta := { ID := a0.id, CreatedAt := a0.now, UpdatedAt := a0.now },
                   StudentID := a0.studentID, ClassID := classID,
                   Status := admissionStatus s classID }] } classID =
            s.enrollments.countP (isEnrolledIn classID) +
              (if decide ((enrolledCount s classID : Int) < classCapacity s classID) = true
                then 1 else 0) := by
          simp only [enrolledCount, List.countP_append, List.countP_cons, List.countP_nil,
            hnew, Nat.zero_add]
        rw [hcnt]
        by_cases hlt : (enrolledCount s classID : Int) < classCapacity s classID
        · simp [hlt, enrolledCount]
        · simp [hlt, enrolledCount]
      have hcap : classCapacity (ApplyEnrollment s a0.now a0.id a0.studentID classID).1 classID =
          classCapacity s classID :=
        classCapacity_congr (ApplyEnrollment_classes s a0.now a0.id a0.studentID classID) classID
      have hih := ih (ApplyEnrollment s a0.now a0.id a0.studentID classID).1
        (by rw [ApplyEnrollment_classes]; exact hc)
        (by
          intro b hb
          rw [hs1]
          exact hst b (List.mem_cons_of_mem _ hb))
        (by
          intro b hb
          rw [hs1]
          have hold := hact b (List.mem_cons_of_mem _ hb)
          have hneq : ¬ a0.studentID = b.studentID := by
            intro hc2
            exact hnds.1 (hc2 ▸ List.mem_map_of_mem Application.studentID hb)
          simp only [hasActiveEnrollment, List.any_append, List.any_cons, List.any_nil,
            Bool.or_false] at hold ⊢
          rw [hold]
          simp [isActiveFor, hneq])
        hnds.2 hndi.2
        (by
          intro b hb
          rw [hs1]
          have hold := hfresh b (List.mem_cons_of_mem _ hb)
          have hneq : ¬ b.id = a0.id := by
            intro hc2
            exact hndi.1 (hc2 ▸ List.mem_map_of_mem Application.id hb)
          simp only [List.map_append, List.mem_append, List.map_cons, List.map_nil,
            List.mem_singleton, not_or]
          exact ⟨hold, hneq⟩)
        j a hj
      obtain ⟨en, hget, hid, hstu, hcl, hstat⟩ := hih
      refine ⟨en, ?_, hid, hstu, hcl, ?_⟩
      · simp only [applyAll, List.getElem?_cons_succ]
        exact hget
      · rw [hstat, hcount, hcap]
        by_cases hlt : (enrolledCount s classID : Int) < classCapacity s classID
        · simp only [hlt, if_true]
          have : ((enrolledCount s classID + 1 + j : Nat) : Int) =
              ((enrolledCount s classID + (j + 1) : Nat) : Int) := by push_cast; ring
          rw [this]
        · simp only [hlt, if_false, Nat.add_zero]
          have h1 : ¬ ((enrolledCount s classID + j : Nat) : Int) < classCapacity s classID := by
            push_cast; omega
          have h2 : ¬ ((enrolledCount s classID + (j + 1) : Nat) : Int) <
              classCapacity s classID := by
            push_cast; omega
          simp only [h1, h2, if_false]

theorem applyAll_length (classID : String) (apps : List Application) :
    ∀ s : Store, (applyAll s classID apps).2.length = apps.length := by
  induction apps with
  | nil => intro s; rfl
  | cons a rest ih => intro s; simp [applyAll, ih]

/-- C21. Sequential filling of a class: when pairwise distinct existing students
apply one after another (with fresh generated IDs) to an existing class of
capacity C >= 0 that has no enrollments, every call succeeds, the first
min(n, C) calls return status enrolled and all later calls waitlisted. -/
theorem sequential_filling (s : Store) (classID : String) (apps : List Application)
    (hclass : classID ∈ s.classes.map Class.ID)
    (hC : 0 ≤ classCapacity s classID)
    (hnone : ∀ e ∈ s.enrollments, e.ClassID ≠ classID)
    (hstud : ∀ a ∈ apps, a.studentID ∈ s.students.map Student.ID)
    (hdist : (apps.map Application.studentID).Nodup)
    (hids : (apps.map Application.id).Nodup)
    (hfresh : ∀ a ∈ apps, a.id ∉ s.enrollments.map Enrollment.ID) :
    (applyAll s classID apps).2.length = apps.length ∧
    ∀ (j : Nat) (a : Application), apps[j]? = some a →
      ∃ en : Enrollment, (applyAll s classID apps).2[j]? = some (.ok en) ∧
        en.ID = a.id ∧ en.StudentID = a.studentID ∧ en.ClassID = classID ∧
        en.Status = if j < min apps.length (classCapacity s classID).toNat
          then EnrollmentEnrolled else EnrollmentWaitlisted := by
  refine ⟨applyAll_length classID apps s, ?_⟩
  intro j a hj
  have hzero : enrolledCount s classID = 0 := by
    unfold enrolledCount
    rw [List.countP_eq_zero]
    intro e he
    have := hnone e he
    simp [isEnrolledIn, this]
  have hact : ∀ b ∈ apps, hasActiveEnrollment s b.studentID classID = false := by
    intro b _
    rw [hasActiveEnrollment_false_iff]
    intro e he _ hcl
    exact absurd hcl (hnone e he)
  obtain ⟨en, hget, hid, hstu, hcl, hstat⟩ :=
    applyAll_statuses classID apps s (mapGet_isSome_of_mem_keys Class.ID hclass)
      (fun b hb => mapGet_isSome_of_mem_keys Student.ID (hstud b hb)) hact hdist hids hfresh
      j a hj
  refine ⟨en, hget, hid, hstu, hcl, ?_⟩
  rw [hstat, hzero]
  have hjn : j < apps.length := by
    by_contra hge
    rw [List.getElem?_eq_none (not_lt.mp hge)] at hj
    cases hj
  by_cases hlt : ((0 + j : Nat) : Int) < classCapacity s classID
  · have : j < min apps.length (classCapacity s classID).toNat := by
      rw [lt_min_iff]
      refine ⟨hjn, ?_⟩
      omega
    simp only [hlt, this, if_true]
  · have : ¬ j < min apps.length (classCapacity s classID).toNat := by
      rw [lt_min_iff]
      intro hc
      omega
    simp only [hlt, this, if_false]

theorem sequential_filling_witness :
    (applyAll store0 "c1" threeApplications).2.length = threeApplications.length ∧
    ∀ (j : Nat) (a : Application), threeApplications[j]? = some a →
      ∃ en : Enrollment, (applyAll store0 "c1" threeApplications).2[j]? = some (.ok en) ∧
        en.ID = a.id ∧ en.StudentID = a.studentID ∧ en.ClassID = "c1" ∧
        en.Status = if j < min threeApplications.length (classCapacity store0 "c1").toNat
          then EnrollmentEnrolled else EnrollmentWaitlisted :=
  sequential_filling store0 "c1" threeApplications (by decide) (by decide) (by decide)
    (by decide) (by decide) (by decide) (by decide)

/-- Replay on `store0` (capacity 1): the first applicant is enrolled, the next
two are waitlisted. -/
theorem store0_three_applications :
    (applyAll store0 "c1" threeApplications).2 =
      [.ok (mkEnrollment "e1" "s1" "c1" EnrollmentEnrolled 1),
       .ok (mkEnrollment "e2" "s2" "c1" EnrollmentWaitlisted 2),
       .ok (mkEnrollment "e3" "s3" "c1" EnrollmentWaitlisted 3)] := by
  decide

/-! ### C29 -/

/-- The outcomes of `ApplyEnrollment` with the new entry written out. -/
theorem ApplyEnrollment_shape (s : Store) (now : Time) (id studentID classID : String) :
    (∃ err, ApplyEnrollment s now id studentID classID = (s, .error err)) ∨
    ApplyEnrollment s now id studentID classID =
      ({ s with enrollments := mapSet Enrollment.ID s.enrollments
                                { toMeta := { ID := id, CreatedAt := now, UpdatedAt := now },
                                  StudentID := studentID, ClassID := classID,
                                  Status := admissionStatus s classID } },
        .ok { toMeta := { ID := id, CreatedAt := now, UpdatedAt := now },
              StudentID := studentID, ClassID := classID,
              Status := admissionStatus s classID }) := by
  unfold ApplyEnrollment
  split_ifs with h1 h2 h3
  · exact Or.inl ⟨_, rfl⟩
  · exact Or.inl ⟨_, rfl⟩
  · exact Or.inl ⟨_, rfl⟩
  · exact Or.inr rfl

theorem isWaitlistedIn_true {c : String} {e : Enrollment} (h : isWaitlistedIn c e = true) :
    e.ClassID = c ∧ e.Status = EnrollmentWaitlisted := by
  simpa [isWaitlistedIn] using h

theorem fullInv_apply (s : Store) (now : Time) (id studentID classID : String)
    (hfresh : id ∉ s.enrollments.map Enrollment.ID)
    (h : FullInv s) : FullInv (ApplyEnrollment s now id studentID classID).1 := by
  refine ⟨?_, capInv_apply s now id studentID classID h.2.1, ?_⟩
  · rcases ApplyEnrollment_shape s now id studentID classID with ⟨err, he⟩ | he
    · rw [he]; exact h.1
    · rw [he]; exact nodup_mapSet Enrollment.ID _ h.1
  · intro c hc hw
    rw [classCapacity_congr (ApplyEnrollment_classes s now id studentID classID)] at hc ⊢
    rcases ApplyEnrollment_shape s now id studentID classID with ⟨err, he⟩ | he
    · rw [he] at hw ⊢; exact h.2.2 c hc hw
    · have happ := mapSet_of_none Enrollment.ID
        (v := ({ toMeta := { ID := id, CreatedAt := now, UpdatedAt := now },
                 StudentID := studentID, ClassID := classID,
                 Status := admissionStatus s classID } : Enrollment))
        (mapGet_none_of_not_mem_keys Enrollment.ID hfresh)
      rw [he] at hw ⊢
      simp only [waitlistedCount, enrolledCount, happ, List.countP_append, List.countP_cons,
        List.countP_nil, Nat.zero_add] at hw ⊢
      have hcapc := h.2.1 c hc
      have hfull := h.2.2 c hc
      simp only [waitlistedCount, enrolledCount] at hcapc hfull
      by_cases hcc : classID = c
      · subst hcc
        by_cases hlt : (enrolledCount s classID : Int) < classCapacity s classID
        · -- the new entry is enrolled: nobody can have been waiting
          have hst : admissionStatus s classID = EnrollmentEnrolled := by
            rw [admissionStatus_eq]; simp [hlt]
          have hne : (EnrollmentEnrolled == EnrollmentWaitlisted) = false := by decide
          simp only [enrolledCount] at hlt
          simp only [isWaitlistedIn, isEnrolledIn, hst, hne, beq_self_eq_true, Bool.and_false,
            Bool.and_true, Bool.false_eq_true, if_false, if_true, Nat.add_zero] at hw ⊢
          have := hfull hw
          omega
        · -- the class is full: the new entry waits
          have hst : admissionStatus s classID = EnrollmentWaitlisted := by
            rw [admissionStatus_eq]; simp [hlt]
          have hne : (EnrollmentWaitlisted == EnrollmentEnrolled) = false := by decide
          simp only [enrolledCount] at hlt
          simp only [isEnrolledIn, hst, hne, beq_self_eq_true, Bool.and_false,
            Bool.false_eq_true, if_false, Nat.add_zero]
          omega
      · have hcc2 : (classID == c) = false := by simpa using hcc
        simp only [isWaitlistedIn, isEnrolledIn, hcc2, Bool.false_and, Bool.false_eq_true,
          if_false, Nat.add_zero] at hw ⊢
        exact hfull hw

theorem fullInv_drop (s : Store) (now1 now2 : Time) (id : String)
    (h : FullInv s) : FullInv (DropEnrollmentAndPromote s now1 now2 id).1 := by
  refine ⟨by rw [drop_keys]; exact h.1, capInv_drop s now1 now2 id h.2.1, ?_⟩
  intro c hc hw
  rw [classCapacity_congr (DropEnrollmentAndPromote_classes s now1 now2 id)] at hc ⊢
  have hfull := h.2.2 c hc
  have hdropE : ∀ e : Enrollment, isEnrolledIn c (e.withStatus EnrollmentDropped now1) = false := by
    intro e
    have : ¬ EnrollmentDropped = EnrollmentEnrolled := by decide
    simp [isEnrolledIn, Enrollment.withStatus, this]
  have hdropW : ∀ e : Enrollment,
      isWaitlistedIn c (e.withStatus EnrollmentDropped now1) = false := by
    intro e
    have : ¬ EnrollmentDropped = EnrollmentWaitlisted := by decide
    simp [isWaitlistedIn, Enrollment.withStatus, this]
  rcases DropEnrollmentAndPromote_cases s now1 now2 id with
    ⟨-, he⟩ | ⟨e, -, -, he⟩ | ⟨e, hg, -, hor, he⟩ | ⟨e, n, t, hg, hen, hwl, he⟩
  · rw [he] at hw ⊢; exact hfull hw
  · rw [he] at hw ⊢; exact hfull hw
  · rw [he] at hw ⊢
    have heqE := countP_mapSet_of_get Enrollment.ID (isEnrolledIn c)
      (mapGet_withStatus hg EnrollmentDropped now1)
    have heqW := countP_mapSet_of_get Enrollment.ID (isWaitlistedIn c)
      (mapGet_withStatus hg EnrollmentDropped now1)
    rw [hdropE e] at heqE
    rw [hdropW e] at heqW
    simp only [Bool.false_eq_true, if_false, Nat.add_zero] at heqE heqW
    simp only [waitlistedCount, enrolledCount] at hw hfull ⊢
    rcases hor with hne | hempty
    · have hpe : isEnrolledIn c e = false := by simp [isEnrolledIn, hne]
      rw [hpe] at heqE
      simp only [Bool.false_eq_true, if_false, Nat.add_zero] at heqE
      rw [heqE]
      apply hfull
      omega
    · by_cases hcc : e.ClassID = c
      · -- the waitlist of the class is empty after the drop
        exfalso
        unfold waitlistOf at hempty
        have hnil := sortSlice_eq_nil _ _ hempty
        rw [← hcc] at hw
        have : (mapSet Enrollment.ID s.enrollments
            (e.withStatus EnrollmentDropped now1)).countP (isWaitlistedIn e.ClassID) = 0 := by
          rw [List.countP_eq_length_filter, hnil]; rfl
        omega
      · have hpe : isEnrolledIn c e = false := by simp [isEnrolledIn, hcc]
        rw [hpe] at heqE
        simp only [Bool.false_eq_true, if_false, Nat.add_zero] at heqE
        rw [heqE]
        apply hfull
        omega
  · rw [he] at hw ⊢
    have hnd1 := nodup_mapSet Enrollment.ID (e.withStatus EnrollmentDropped now1) h.1
    have hn := mem_waitlistOf (hwl ▸ List.mem_cons_self n t)
    have hgn : mapGet Enrollment.ID
        (mapSet Enrollment.ID s.enrollments (e.withStatus EnrollmentDropped now1))
        (n.withStatus EnrollmentEnrolled now2).ID = some n := by
      rw [withStatus_ID]; exact mapGet_of_mem_nodup Enrollment.ID hnd1 hn.1
    have heqE := countP_mapSet_of_get Enrollment.ID (isEnrolledIn c)
      (mapGet_withStatus hg EnrollmentDropped now1)
    have heqW := countP_mapSet_of_get Enrollment.ID (isWaitlistedIn c)
      (mapGet_withStatus hg EnrollmentDropped now1)
    rw [hdropE e] at heqE
    rw [hdropW e] at heqW
    have heqE2 := countP_mapSet_of_get Enrollment.ID (isEnrolledIn c) hgn
    have heqW2 := countP_mapSet_of_get Enrollment.ID (isWaitlistedIn c) hgn
    have hnE : isEnrolledIn c n = false := by
      have : ¬ EnrollmentWaitlisted = EnrollmentEnrolled := by decide
      simp [isEnrolledIn, hn.2.2, this]
    have hn1W : isWaitlistedIn c (n.withStatus EnrollmentEnrolled now2) = false := by
      have : ¬ EnrollmentEnrolled = EnrollmentWaitlisted := by decide
      simp [isWaitlistedIn, Enrollment.withStatus, this]
    have heW : isWaitlistedIn c e = false := by
      have : ¬ EnrollmentEnrolled = EnrollmentWaitlisted := by decide
      simp [isWaitlistedIn, hen, this]
    rw [hnE] at heqE2
    rw [hn1W] at heqW2
    rw [heW] at heqW
    simp only [Bool.false_eq_true, if_false, Nat.add_zero] at heqE heqW heqE2 heqW2
    simp only [waitlistedCount, enrolledCount] at hw hfull ⊢
    have hwold : 0 < s.enrollments.countP (isWaitlistedIn c) := by omega
    have hold := hfull hwold
    by_cases hcc : e.ClassID = c
    · have hpe : isEnrolledIn c e = true := by simp [isEnrolledIn, hcc, hen]
      have hpn : isEnrolledIn c (n.withStatus EnrollmentEnrolled now2) = true := by
        have : n.ClassID = c := hn.2.1.trans hcc
        simp [isEnrolledIn, Enrollment.withStatus, this]
      rw [hpe] at heqE
      rw [hpn] at heqE2
      simp only [if_true] at heqE heqE2
      omega
    · have hpe : isEnrolledIn c e = false := by simp [isEnrolledIn, hcc]
      have hpn : isEnrolledIn c (n.withStatus EnrollmentEnrolled now2) = false := by
        have : ¬ n.ClassID = c := fun hc2 => hcc (hn.2.1 ▸ hc2)
        simp [isEnrolledIn, Enrollment.withStatus, this]
      rw [hpe] at heqE
      rw [hpn] at heqE2
      simp only [Bool.false_eq_true, if_false, Nat.add_zero] at heqE heqE2
      omega

theorem ReachableApplyDrop.classes_kept {s0 s : Store} (h : ReachableApplyDrop s0 s) :
    s.classes = s0.classes := by
  induction h with
  | init => rfl
  | reorder s l _ _ ih => exact ih
  | apply s now id studentID classID _ _ ih => rw [ApplyEnrollment_classes]; exact ih
  | drop s now1 now2 id _ ih => rw [DropEnrollmentAndPromote_classes]; exact ih

theorem ReachableApplyDrop.fullInv {s0 s : Store} (h : ReachableApplyDrop s0 s)
    (h0 : FullInv s0) : FullInv s := by
  induction h with
  | init => exact h0
  | reorder s l _ hp ih =>
    refine ⟨(hp.map Enrollment.ID).nodup_iff.mpr ih.1, ?_, ?_⟩
    · intro c hc
      have := ih.2.1 c hc
      simpa [enrolledCount, classCapacity, hp.countP_eq] using this
    · intro c hc hw
      have := ih.2.2 c hc (by simpa [waitlistedCount, hp.countP_eq] using hw)
      simpa [enrolledCount, classCapacity, hp.countP_eq] using this
  | apply s now id studentID classID _ hfresh ih =>
    exact fullInv_apply s now id studentID classID hfresh ih
  | drop s now1 now2 id _ ih => exact fullInv_drop s now1 now2 id ih

/-- C29. No seat stays empty while someone waits: starting from a store with no
enrollments, after every finite sequence of `ApplyEnrollment` calls (each with
a fresh generated ID) and `DropEnrollmentAndPromote` calls, a class of capacity
C >= 0 that has a waitlisted entry has exactly C enrolled entries.  One further
`SetEnrollmentStatus` call that moves an enrolled entry to another status can
break this: it frees the seat and promotes nobody. -/
theorem no_empty_seat_while_waiting :
    (∀ (s0 s : Store) (classID : String), s0.enrollments = [] →
      ReachableApplyDrop s0 s → 0 ≤ classCapacity s0 classID →
      0 < waitlistedCount s classID →
      (enrolledCount s classID : Int) = classCapacity s0 classID) ∧
    (∃ (s0 s : Store) (classID : String) (now : Time) (id : String)
        (status : EnrollmentStatus) (e : Enrollment),
      s0.enrollments = [] ∧ ReachableApplyDrop s0 s ∧ 0 ≤ classCapacity s0 classID ∧
      mapGet Enrollment.ID s.enrollments id = some e ∧ e.Status = EnrollmentEnrolled ∧
      status ≠ EnrollmentEnrolled ∧
      0 < waitlistedCount (SetEnrollmentStatus s now id status).1 classID ∧
      (enrolledCount (SetEnrollmentStatus s now id status).1 classID : Int) <
        classCapacity s0 classID) := by
  constructor
  · intro s0 s classID h0 hr hC hw
    have hinit : FullInv s0 := by
      refine ⟨by simp [h0], capInv_of_no_enrollments s0 h0, ?_⟩
      intro c _ hwc
      simp [waitlistedCount, h0] at hwc
    have hcap := classCapacity_congr hr.classes_kept classID
    have := (hr.fullInv hinit).2.2 classID (hcap ▸ hC) hw
    rw [hcap] at this
    exact this
  · refine ⟨store0, store10, "c1", 3, "e1", EnrollmentRejected,
      mkEnrollment "e1" "s1" "c1" EnrollmentEnrolled 1, rfl, ?_, by decide, by decide,
      by decide, by decide, by decide, by decide⟩
    exact ReachableApplyDrop.apply _ 2 "e2" "s2" "c1"
      (ReachableApplyDrop.apply _ 1 "e1" "s1" "c1" ReachableApplyDrop.init (by decide))
      (by decide)

theorem no_empty_seat_while_waiting_witness :
    (enrolledCount store10 "c1" : Int) = classCapacity store0 "c1" :=
  no_empty_seat_while_waiting.1 store0 store10 "c1" rfl
    (ReachableApplyDrop.apply _ 2 "e2" "s2" "c1"
      (ReachableApplyDrop.apply _ 1 "e1" "s1" "c1" ReachableApplyDrop.init (by decide))
      (by decide))
    (by decide) (by decide)

/-! ## Lemmas on the event registration helpers -/

theorem registeredCount_eq (s : Store) (eventID : String) :
    registeredCount s eventID = s.registrations.countP (isRegisteredIn eventID) := rfl

theorem eventWaitlistOf_eq (m : List EventRegistration) (eventID : String) :
    eventWaitlistOf m eventID =
      sortSlice (fun a b => decide (a.CreatedAt < b.CreatedAt))
        (m.filter (isEventWaitlistedIn eventID)) := rfl

theorem regWithStatus_ID (r : EventRegistration) (status : String) (now : Time) :
    (r.withStatus status now).ID = r.ID := rfl

theorem mapGet_regWithStatus {m : List EventRegistration} {id : String} {r : EventRegistration}
    (h : mapGet EventRegistration.ID m id = some r) (status : String) (now : Time) :
    mapGet EventRegistration.ID m (r.withStatus status now).ID = some r := by
  rw [regWithStatus_ID, mapGet_some_key EventRegistration.ID h]; exact h

theorem mem_eventWaitlistOf {m : List EventRegistration} {c : String} {n : EventRegistration}
    (h : n ∈ eventWaitlistOf m c) :
    n ∈ m ∧ n.EventID = c ∧ n.Status = "waitlisted" := by
  rw [eventWaitlistOf_eq, mem_sortSlice, List.mem_filter] at h
  refine ⟨h.1, ?_⟩
  simpa [isEventWaitlistedIn] using h.2

/-- The outcomes of `applyEventRegistration` with the new entry written out. -/
theorem applyEventRegistration_shape (s : Store) (now : Time) (id eventID studentID : String) :
    (∃ err, applyEventRegistration s now id eventID studentID = (s, .error err)) ∨
    (∃ evt : Event, mapGet Event.ID s.events eventID = some evt ∧
      (mapGet Student.ID s.students studentID).isNone = false ∧
      dedupeConflict eventID studentID s.registrations = false ∧
      applyEventRegistration s now id eventID studentID =
        ({ s with registrations := mapSet EventRegistration.ID s.registrations
                                    { toMeta := { ID := id, CreatedAt := now, UpdatedAt := now },
                                      EventID := eventID, StudentID := studentID,
                                      Status := registrationStatus s evt eventID } },
          .ok { toMeta := { ID := id, CreatedAt := now, UpdatedAt := now },
                EventID := eventID, StudentID := studentID,
                Status := registrationStatus s evt eventID })) := by
  unfold applyEventRegistration
  cases hm : mapGet Event.ID s.events eventID with
  | none => exact Or.inl ⟨_, rfl⟩
  | some evt =>
    dsimp only
    by_cases h1 : (mapGet Student.ID s.students studentID).isNone = true
    · left
      exact ⟨.ValidationError "studentId" "not found", by simp only [h1, if_true]⟩
    · have h1f : (mapGet Student.ID s.students studentID).isNone = false :=
        (Bool.not_eq_true _).mp h1
      by_cases h2 : dedupeConflict eventID studentID s.registrations = true
      · left
        exact ⟨.ConflictError "already registered",
          by simp only [h1f, h2, if_true, Bool.false_eq_true, if_false]⟩
      · have h2f : dedupeConflict eventID studentID s.registrations = false :=
          (Bool.not_eq_true _).mp h2
        right
        refine ⟨evt, rfl, h1f, h2f, ?_⟩
        simp only [h1f, h2f, Bool.false_eq_true, if_false, registrationStatus]

/-- The outcomes of `cancelEventRegistrationAndPromote`: unknown id; already
cancelled; cancelled without promotion; cancelled with the head of the waitlist
promoted. -/
theorem cancelEventRegistrationAndPromote_cases (s : Store) (now1 now2 : Time) (id : String) :
    (mapGet EventRegistration.ID s.registrations id = none ∧
      cancelEventRegistrationAndPromote s now1 now2 id =
        (s, .error (.NotFoundError "eventRegistration" id))) ∨
    (∃ r, mapGet EventRegistration.ID s.registrations id = some r ∧ r.Status = "cancelled" ∧
      cancelEventRegistrationAndPromote s now1 now2 id = (s, .ok (r, none))) ∨
    (∃ r, mapGet EventRegistration.ID s.registrations id = some r ∧ r.Status ≠ "cancelled" ∧
      (r.Status ≠ "registered" ∨
        eventWaitlistOf (mapSet EventRegistration.ID s.registrations
          (r.withStatus "cancelled" now1)) r.EventID = []) ∧
      cancelEventRegistrationAndPromote s now1 now2 id =
        ({ s with registrations := mapSet EventRegistration.ID s.registrations
                                    (r.withStatus "cancelled" now1) },
          .ok (r.withStatus "cancelled" now1, none))) ∨
    (∃ r n t, mapGet EventRegistration.ID s.registrations id = some r ∧
      r.Status = "registered" ∧
      eventWaitlistOf (mapSet EventRegistration.ID s.registrations
        (r.withStatus "cancelled" now1)) r.EventID = n :: t ∧
      cancelEventRegistrationAndPromote s now1 now2 id =
        ({ s with registrations := mapSet EventRegistration.ID
                                    (mapSet EventRegistration.ID s.registrations
                                      (r.withStatus "cancelled" now1))
                                    (n.withStatus "registered" now2) },
          .ok (r.withStatus "cancelled" now1, some (n.withStatus "registered" now2)))) := by
  unfold cancelEventRegistrationAndPromote
  cases hg : mapGet EventRegistration.ID s.registrations id with
  | none => exact Or.inl ⟨rfl, rfl⟩
  | some r =>
    right
    dsimp only
    by_cases hd : r.Status = "cancelled"
    · left
      exact ⟨r, rfl, hd, by simp [hd]⟩
    · right
      by_cases hen : r.Status = "registered"
      · cases hw : eventWaitlistOf
            (mapSet EventRegistration.ID s.registrations (r.withStatus "cancelled" now1))
            r.EventID with
        | nil =>
          left
          refine ⟨r, rfl, hd, Or.inr hw, ?_⟩
          have hw2 : eventWaitlistOf
            (mapSet EventRegistration.ID s.registrations (r.withStatus "cancelled" now1))
            (r.withStatus "cancelled" now1).EventID = [] := hw
          simp [hen, hw2]
        | cons n t =>
          right
          refine ⟨r, n, t, rfl, hen, hw, ?_⟩
          have hw2 : eventWaitlistOf
            (mapSet EventRegistration.ID s.registrations (r.withStatus "cancelled" now1))
            (r.withStatus "cancelled" now1).EventID = n :: t := hw
          simp [hen, hw2]
      · left
        exact ⟨r, rfl, hd, Or.inl hen, by simp [hd, hen]⟩

theorem ne_key_of_ne {α : Type} (key : α → String) {m : List α}
    (hnd : (m.map key).Nodup) {id : String} {e n : α}
    (hg : mapGet key m id = some e) (hn : n ∈ m) (hne : n ≠ e) : key n ≠ id := by
  intro hc
  have := mapGet_of_mem_nodup key hnd hn
  rw [hc, hg] at this
  exact hne (Option.some.inj this).symm

theorem eventWaitlistOf_after_cancel {m : List EventRegistration} {id : String}
    {r : EventRegistration}
    (hg : mapGet EventRegistration.ID m id = some r) (hnw : r.Status ≠ "waitlisted")
    (now1 : Time) (c : String) :
    eventWaitlistOf (mapSet EventRegistration.ID m (r.withStatus "cancelled" now1)) c =
      eventWaitlistOf m c := by
  rw [eventWaitlistOf_eq, eventWaitlistOf_eq,
    filter_mapSet_of_get EventRegistration.ID (isEventWaitlistedIn c)
      (mapGet_regWithStatus hg "cancelled" now1)]
  · simp [isEventWaitlistedIn, EventRegistration.withStatus]
  · simp [isEventWaitlistedIn, hnw]

/-! ### C22 -/

/-- C22. Event cancellation hands the freed seat to the waitlist head: on a
registered entry, when the event has a waitlisted entry,
`cancelEventRegistrationAndPromote` returns the entry with status cancelled and,
as promoted, a waitlisted entry of the event than which none was created
strictly earlier, now with status registered; the registered count of the
event is as before and its waitlisted count is smaller by one.  When the event
has no waitlisted entry, nobody is promoted and the registered count drops by
one. -/
theorem cancel_promotes_head (s : Store) (now1 now2 : Time) (id : String)
    (r : EventRegistration)
    (hwf : s.WF)
    (hg : mapGet EventRegistration.ID s.registrations id = some r)
    (hreg : r.Status = "registered") :
    ((∃ w ∈ s.registrations, w.EventID = r.EventID ∧ w.Status = "waitlisted") →
      ∃ n : EventRegistration,
        n ∈ s.registrations ∧ n.EventID = r.EventID ∧ n.Status = "waitlisted" ∧
        (∀ x ∈ s.registrations, x.EventID = r.EventID → x.Status = "waitlisted" →
          ¬ x.CreatedAt < n.CreatedAt) ∧
        (cancelEventRegistrationAndPromote s now1 now2 id).2 =
          .ok ({ r with Status := "cancelled", toMeta := { r.toMeta with UpdatedAt := now1 } },
            some { n with Status := "registered",
                          toMeta := { n.toMeta with UpdatedAt := now2 } }) ∧
        registeredCount (cancelEventRegistrationAndPromote s now1 now2 id).1 r.EventID =
          registeredCount s r.EventID ∧
        eventWaitlistedCount (cancelEventRegistrationAndPromote s now1 now2 id).1 r.EventID + 1 =
          eventWaitlistedCount s r.EventID) ∧
    ((¬ ∃ w ∈ s.registrations, w.EventID = r.EventID ∧ w.Status = "waitlisted") →
      (cancelEventRegistrationAndPromote s now1 now2 id).2 =
        .ok ({ r with Status := "cancelled", toMeta := { r.toMeta with UpdatedAt := now1 } },
          none) ∧
      registeredCount (cancelEventRegistrationAndPromote s now1 now2 id).1 r.EventID + 1 =
        registeredCount s r.EventID) := by
  have hnw : r.Status ≠ "waitlisted" := by rw [hreg]; decide
  have hnc : r.Status ≠ "cancelled" := by rw [hreg]; decide
  have hcR : isRegisteredIn r.EventID (r.withStatus "cancelled" now1) = false := by
    simp [isRegisteredIn, EventRegistration.withStatus]
  have hcW : isEventWaitlistedIn r.EventID (r.withStatus "cancelled" now1) = false := by
    simp [isEventWaitlistedIn, EventRegistration.withStatus]
  have hrR : isRegisteredIn r.EventID r = true := by simp [isRegisteredIn, hreg]
  have hrW : isEventWaitlistedIn r.EventID r = false := by simp [isEventWaitlistedIn, hreg]
  have heqR := countP_mapSet_of_get EventRegistration.ID (isRegisteredIn r.EventID)
    (mapGet_regWithStatus hg "cancelled" now1)
  have heqW := countP_mapSet_of_get EventRegistration.ID (isEventWaitlistedIn r.EventID)
    (mapGet_regWithStatus hg "cancelled" now1)
  rw [hcR, hrR] at heqR
  rw [hcW, hrW] at heqW
  simp only [Bool.false_eq_true, if_false, if_true, Nat.add_zero] at heqR heqW
  rcases cancelEventRegistrationAndPromote_cases s now1 now2 id with
    ⟨hg2, -⟩ | ⟨r2, hg2, hd2, -⟩ | ⟨r2, hg2, -, hor, he⟩ | ⟨r2, n, t, hg2, -, hwl, he⟩
  · rw [hg] at hg2; cases hg2
  · rw [hg] at hg2; cases hg2; exact absurd hd2 hnc
  · rw [hg] at hg2; cases hg2
    have hempty : eventWaitlistOf s.registrations r.EventID = [] := by
      rcases hor with h | h
      · exact absurd hreg h
      · rw [eventWaitlistOf_after_cancel hg hnw] at h; exact h
    have hno : ¬ ∃ w ∈ s.registrations, w.EventID = r.EventID ∧ w.Status = "waitlisted" := by
      rintro ⟨w, hwm, hwc, hws⟩
      have hmem : w ∈ eventWaitlistOf s.registrations r.EventID := by
        rw [eventWaitlistOf_eq, mem_sortSlice, List.mem_filter]
        exact ⟨hwm, by simp [isEventWaitlistedIn, hwc, hws]⟩
      rw [hempty] at hmem
      cases hmem
    refine ⟨fun hex => absurd hex hno, fun _ => ?_⟩
    rw [he]
    refine ⟨rfl, ?_⟩
    simp only [registeredCount_eq]
    exact heqR
  · rw [hg] at hg2; cases hg2
    rw [eventWaitlistOf_after_cancel hg hnw] at hwl
    have hn := mem_eventWaitlistOf (hwl ▸ List.mem_cons_self n t)
    have hmin := sortSlice_head_le EventRegistration.CreatedAt _ n t hwl
    have hex : ∃ w ∈ s.registrations, w.EventID = r.EventID ∧ w.Status = "waitlisted" :=
      ⟨n, hn.1, hn.2.1, hn.2.2⟩
    refine ⟨fun _ => ?_, fun hno => absurd hex hno⟩
    have hne : n ≠ r := by
      intro hc
      rw [hc, hreg] at hn
      exact absurd hn.2.2 (by decide)
    have hnd1 := nodup_mapSet EventRegistration.ID (r.withStatus "cancelled" now1) hwf.2
    have hnmem1 : n ∈ mapSet EventRegistration.ID s.registrations
        (r.withStatus "cancelled" now1) := by
      have : n ∈ eventWaitlistOf (mapSet EventRegistration.ID s.registrations
          (r.withStatus "cancelled" now1)) r.EventID := by
        rw [eventWaitlistOf_after_cancel hg hnw, hwl]; exact List.mem_cons_self n t
      exact (mem_eventWaitlistOf this).1
    have hgn : mapGet EventRegistration.ID
        (mapSet EventRegistration.ID s.registrations (r.withStatus "cancelled" now1))
        (n.withStatus "registered" now2).ID = some n := by
      rw [regWithStatus_ID]; exact mapGet_of_mem_nodup EventRegistration.ID hnd1 hnmem1
    have heqR2 := countP_mapSet_of_get EventRegistration.ID (isRegisteredIn r.EventID) hgn
    have heqW2 := countP_mapSet_of_get EventRegistration.ID (isEventWaitlistedIn r.EventID) hgn
    have h1 : isRegisteredIn r.EventID n = false := by simp [isRegisteredIn, hn.2.2]
    have h2 : isRegisteredIn r.EventID (n.withStatus "registered" now2) = true := by
      simp [isRegisteredIn, EventRegistration.withStatus, hn.2.1]
    have h3 : isEventWaitlistedIn r.EventID n = true := by
      simp [isEventWaitlistedIn, hn.2.1, hn.2.2]
    have h4 : isEventWaitlistedIn r.EventID (n.withStatus "registered" now2) = false := by
      simp [isEventWaitlistedIn, EventRegistration.withStatus]
    rw [h1, h2] at heqR2
    rw [h3, h4] at heqW2
    simp only [Bool.false_eq_true, if_false, if_true, Nat.add_zero] at heqR2 heqW2
    refine ⟨n, hn.1, hn.2.1, hn.2.2, ?_, ?_, ?_, ?_⟩
    · intro x hx hxc hxs
      have : x ∈ s.registrations.filter (isEventWaitlistedIn r.EventID) := by
        rw [List.mem_filter]
        exact ⟨hx, by simp [isEventWaitlistedIn, hxc, hxs]⟩
      exact not_lt.mpr (hmin x this)
    · rw [he]; rfl
    · rw [he]
      simp only [registeredCount_eq]
      omega
    · rw [he]
      simp only [eventWaitlistedCount]
      omega

theorem cancel_promotes_head_witness :
    ∃ n : EventRegistration,
      n ∈ storeE2.registrations ∧
      n.EventID = (mkRegistration "r1" "v1" "s1" "registered" 1).EventID ∧
      n.Status = "waitlisted" ∧
      (∀ x ∈ storeE2.registrations,
        x.EventID = (mkRegistration "r1" "v1" "s1" "registered" 1).EventID →
        x.Status = "waitlisted" → ¬ x.CreatedAt < n.CreatedAt) ∧
      (cancelEventRegistrationAndPromote storeE2 7 8 "r1").2 =
        .ok ({ mkRegistration "r1" "v1" "s1" "registered" 1 with
                Status := "cancelled",
                toMeta := { (mkRegistration "r1" "v1" "s1" "registered" 1).toMeta with
                  UpdatedAt := 7 } },
          some { n with Status := "registered",
                        toMeta := { n.toMeta with UpdatedAt := 8 } }) ∧
      registeredCount (cancelEventRegistrationAndPromote storeE2 7 8 "r1").1
          (mkRegistration "r1" "v1" "s1" "registered" 1).EventID =
        registeredCount storeE2 (mkRegistration "r1" "v1" "s1" "registered" 1).EventID ∧
      eventWaitlistedCount (cancelEventRegistrationAndPromote storeE2 7 8 "r1").1
          (mkRegistration "r1" "v1" "s1" "registered" 1).EventID + 1 =
        eventWaitlistedCount storeE2 (mkRegistration "r1" "v1" "s1" "registered" 1).EventID :=
  (cancel_promotes_head storeE2 7 8 "r1" (mkRegistration "r1" "v1" "s1" "registered" 1)
    (by decide) (by decide) (by decide)).1
    ⟨mkRegistration "r2" "v1" "s2" "waitlisted" 5, by decide, by decide, by decide⟩

/-- Replay on `storeE2`: the registration created at time 3 is promoted. -/
theorem storeE2_promotes_r3 :
    (cancelEventRegistrationAndPromote storeE2 7 8 "r1").2 =
      .ok ((mkRegistration "r1" "v1" "s1" "registered" 1).withStatus "cancelled" 7,
        some ((mkRegistration "r3" "v1" "s3" "waitlisted" 3).withStatus "registered" 8)) := by
  decide

/-! ### C23 -/

theorem applyEventRegistration_events (s : Store) (now : Time) (id eventID studentID : String) :
    (applyEventRegistration s now id eventID studentID).1.events = s.events := by
  rcases applyEventRegistration_shape s now id eventID studentID with
    ⟨err, he⟩ | ⟨evt, -, -, -, he⟩
  · rw [he]
  · rw [he]

theorem cancelEventRegistrationAndPromote_events (s : Store) (now1 now2 : Time) (id : String) :
    (cancelEventRegistrationAndPromote s now1 now2 id).1.events = s.events := by
  rcases cancelEventRegistrationAndPromote_cases s now1 now2 id with
    ⟨-, he⟩ | ⟨r, -, -, he⟩ | ⟨r, -, -, -, he⟩ | ⟨r, n, t, -, -, -, he⟩ <;> rw [he]

theorem eventCapacity_congr {s t : Store} (h : t.events = s.events) (v : String) :
    eventCapacity t v = eventCapacity s v := by
  unfold eventCapacity; rw [h]

theorem isRegisteredIn_true {v : String} {r : EventRegistration}
    (h : isRegisteredIn v r = true) : r.EventID = v ∧ r.Status = "registered" := by
  simpa [isRegisteredIn] using h

theorem registrationStatus_eq (s : Store) (evt : Event) (eventID : String)
    (hpos : 0 < evt.Capacity) :
    registrationStatus s evt eventID =
      if (registeredCount s eventID : Int) < evt.Capacity then "registered" else "waitlisted" := by
  unfold registrationStatus
  by_cases hlt : (registeredCount s eventID : Int) < evt.Capacity
  · have : ¬ (evt.Capacity > 0 ∧ (registeredCount s eventID : Int) ≥ evt.Capacity) := by
      intro hc; omega
    simp only [this, hlt, if_true, if_false]
  · have : evt.Capacity > 0 ∧ (registeredCount s eventID : Int) ≥ evt.Capacity :=
      ⟨hpos, by omega⟩
    simp only [this, hlt, if_true, if_false, and_self]

theorem eventCapInv_apply (s : Store) (now : Time) (id eventID studentID : String)
    (h : EventCapInv s) : EventCapInv (applyEventRegistration s now id eventID studentID).1 := by
  intro v hv
  rw [eventCapacity_congr (applyEventRegistration_events s now id eventID studentID)] at hv ⊢
  have hs := h v hv
  rcases applyEventRegistration_shape s now id eventID studentID with
    ⟨err, he⟩ | ⟨evt, hev, -, -, he⟩
  · rw [he]; exact hs
  · rw [he]
    simp only [registeredCount_eq] at hs ⊢
    have hle := countP_mapSet_le EventRegistration.ID (isRegisteredIn v) s.registrations
      { toMeta := { ID := id, CreatedAt := now, UpdatedAt := now },
        EventID := eventID, StudentID := studentID,
        Status := registrationStatus s evt eventID }
    by_cases hp : isRegisteredIn v
        { toMeta := { ID := id, CreatedAt := now, UpdatedAt := now },
          EventID := eventID, StudentID := studentID,
          Status := registrationStatus s evt eventID } = true
    · obtain ⟨h1, h2⟩ := isRegisteredIn_true hp
      have h1 : eventID = v := h1
      have h2 : registrationStatus s evt eventID = "registered" := h2
      subst h1
      have hcap : eventCapacity s eventID = evt.Capacity := by simp [eventCapacity, hev]
      rw [hcap] at hv hs ⊢
      have hlt : (registeredCount s eventID : Int) < evt.Capacity := by
        by_contra hge
        rw [registrationStatus_eq s evt eventID hv] at h2
        simp only [hge, if_false] at h2
        exact absurd h2 (by decide)
      simp only [registeredCount_eq] at hlt
      simp only [hp, if_true] at hle
      omega
    · simp only [hp, Bool.false_eq_true, if_false, Nat.add_zero] at hle
      omega

theorem eventCapInv_cancel (s : Store) (now1 now2 : Time) (id : String)
    (h : EventCapInv s) : EventCapInv (cancelEventRegistrationAndPromote s now1 now2 id).1 := by
  intro v hv
  rw [eventCapacity_congr (cancelEventRegistrationAndPromote_events s now1 now2 id)] at hv ⊢
  have hs := h v hv
  have hcan : ∀ r : EventRegistration,
      isRegisteredIn v (r.withStatus "cancelled" now1) = false := by
    intro r
    simp [isRegisteredIn, EventRegistration.withStatus]
  rcases cancelEventRegistrationAndPromote_cases s now1 now2 id with
    ⟨-, he⟩ | ⟨r, -, -, he⟩ | ⟨r, hg, -, -, he⟩ | ⟨r, n, t, hg, hen, hw, he⟩
  · rw [he]; exact hs
  · rw [he]; exact hs
  · rw [he]
    simp only [registeredCount_eq] at hs ⊢
    have heq := countP_mapSet_of_get EventRegistration.ID (isRegisteredIn v)
      (mapGet_regWithStatus hg "cancelled" now1)
    rw [hcan r] at heq
    simp only [Bool.false_eq_true, if_false] at heq
    omega
  · rw [he]
    simp only [registeredCount_eq] at hs ⊢
    have heq := countP_mapSet_of_get EventRegistration.ID (isRegisteredIn v)
      (mapGet_regWithStatus hg "cancelled" now1)
    rw [hcan r] at heq
    simp only [Bool.false_eq_true, if_false] at heq
    have hle := countP_mapSet_le EventRegistration.ID (isRegisteredIn v)
      (mapSet EventRegistration.ID s.registrations (r.withStatus "cancelled" now1))
      (n.withStatus "registered" now2)
    have hn := mem_eventWaitlistOf (hw ▸ List.mem_cons_self n t)
    by_cases hcc : r.EventID = v
    · have hpe : isRegisteredIn v r = true := by simp [isRegisteredIn, hcc, hen]
      rw [hpe] at heq
      simp only [if_true] at heq
      split at hle <;> omega
    · have hpn : isRegisteredIn v (n.withStatus "registered" now2) = false := by
        have : ¬ n.EventID = v := fun hc2 => hcc (hn.2.1 ▸ hc2)
        simp [isRegisteredIn, EventRegistration.withStatus, this]
      rw [hpn] at hle
      simp only [Bool.false_eq_true, if_false] at hle
      omega

theorem EventReachable.events_eq {s0 s : Store} (h : EventReachable s0 s) :
    s.events = s0.events := by
  induction h with
  | init => rfl
  | reorder s l _ _ ih => exact ih
  | apply s now id eventID studentID _ ih => rw [applyEventRegistration_events]; exact ih
  | cancel s now1 now2 id _ ih => rw [cancelEventRegistrationAndPromote_events]; exact ih

theorem EventReachable.eventCapInv {s0 s : Store} (h : EventReachable s0 s)
    (h0 : EventCapInv s0) : EventCapInv s := by
  induction h with
  | init => exact h0
  | reorder s l _ hp ih =>
    intro v hv
    have := ih v hv
    simpa [registeredCount, eventCapacity, hp.countP_eq] using this
  | apply s now id eventID studentID _ ih => exact eventCapInv_apply s now id eventID studentID ih
  | cancel s now1 now2 id _ ih => exact eventCapInv_cancel s now1 now2 id ih

theorem dedupeConflict_of_no_entry (eventID studentID : String) (l : List EventRegistration)
    (h : ∀ r ∈ l, ¬ (r.EventID = eventID ∧ r.StudentID = studentID)) :
    dedupeConflict eventID studentID l = false := by
  induction l with
  | nil => rfl
  | cons r rs ih =>
    have hr := h r (List.mem_cons_self _ _)
    have hcond : (r.EventID == eventID && r.StudentID == studentID) = false := by
      by_cases h1 : r.EventID = eventID
      · by_cases h2 : r.StudentID = studentID
        · exact absurd ⟨h1, h2⟩ hr
        · simp [h2]
      · simp [h1]
    simp only [dedupeConflict, hcond, Bool.false_eq_true, if_false]
    exact ih (fun x hx => h x (List.mem_cons_of_mem _ hx))

theorem applyEventRegistration_ok (s : Store) (now : Time) (id eventID studentID : String)
    (evt : Event)
    (h1 : mapGet Event.ID s.events eventID = some evt)
    (h2 : (mapGet Student.ID s.students studentID).isNone = false)
    (h3 : dedupeConflict eventID studentID s.registrations = false) :
    applyEventRegistration s now id eventID studentID =
      ({ s with registrations := mapSet EventRegistration.ID s.registrations
                                  { toMeta := { ID := id, CreatedAt := now, UpdatedAt := now },
                                    EventID := eventID, StudentID := studentID,
                                    Status := registrationStatus s evt eventID } },
        .ok { toMeta := { ID := id, CreatedAt := now, UpdatedAt := now },
              EventID := eventID, StudentID := studentID,
              Status := registrationStatus s evt eventID }) := by
  simp only [applyEventRegistration, h1, h2, h3, Bool.false_eq_true, if_false,
    registrationStatus]

/-- Sequential registration from a store where the event already holds `k`
registered entries and none of the students has an entry for the event. -/
theorem registerAll_statuses (eventID : String) (evt : Event) (hpos : 0 < evt.Capacity)
    (apps : List Application) :
    ∀ (s : Store),
      mapGet Event.ID s.events eventID = some evt →
      (∀ a ∈ apps, (mapGet Student.ID s.students a.studentID).isNone = false) →
      (∀ a ∈ apps, ∀ r ∈ s.registrations,
        ¬ (r.EventID = eventID ∧ r.StudentID = a.studentID)) →
      (apps.map Application.studentID).Nodup →
      (apps.map Application.id).Nodup →
      (∀ a ∈ apps, a.id ∉ s.registrations.map EventRegistration.ID) →
      ∀ (j : Nat) (a : Application), apps[j]? = some a →
        ∃ r : EventRegistration, (registerAll s eventID apps).2[j]? = some (.ok r) ∧
          r.ID = a.id ∧ r.StudentID = a.studentID ∧ r.EventID = eventID ∧
          r.Status = if ((registeredCount s eventID + j : Nat) : Int) < evt.Capacity
            then "registered" else "waitlisted" := by
  induction apps with
  | nil => intro s _ _ _ _ _ _ j a h; simp at h
  | cons a0 rest ih =>
    intro s hev hst hact hnds hndi hfresh j a hj
    have h2 := hst a0 (List.mem_cons_self _ _)
    have h3 := dedupeConflict_of_no_entry eventID a0.studentID s.registrations
      (hact a0 (List.mem_cons_self _ _))
    have hrun := applyEventRegistration_ok s a0.now a0.id eventID a0.studentID evt hev h2 h3
    have hfr0 := hfresh a0 (List.mem_cons_self _ _)
    have happ := mapSet_of_none EventRegistration.ID
      (v := ({ toMeta := { ID := a0.id, CreatedAt := a0.now, UpdatedAt := a0.now },
               EventID := eventID, StudentID := a0.studentID,
               Status := registrationStatus s evt eventID } : EventRegistration))
      (mapGet_none_of_not_mem_keys EventRegistration.ID hfr0)
    cases j with
    | zero =>
      simp only [List.getElem?_cons_zero, Option.some.injEq] at hj
      subst hj
      refine ⟨{ toMeta := { ID := a0.id, CreatedAt := a0.now, UpdatedAt := a0.now },
                EventID := eventID, StudentID := a0.studentID,
                Status := registrationStatus s evt eventID }, ?_, rfl, rfl, rfl, ?_⟩
      · simp only [registerAll, hrun, List.getElem?_cons_zero]
      · simp only [Nat.add_zero]
        exact registrationStatus_eq s evt eventID hpos
    | succ j =>
      simp only [List.getElem?_cons_succ] at hj
      rw [List.map_cons, List.nodup_cons] at hnds hndi
      have hs1 : (applyEventRegistration s a0.now a0.id eventID a0.studentID).1 =
          { s with registrations := s.registrations ++
              [{ toMeta := { ID := a0.id, CreatedAt := a0.now, UpdatedAt := a0.now },
                 EventID := eventID, StudentID := a0.studentID,
                 Status := registrationStatus s evt eventID }] } := by
        rw [hrun, happ]
      have hnew : isRegisteredIn eventID
          { toMeta := { ID := a0.id, CreatedAt := a0.now, UpdatedAt := a0.now },
            EventID := eventID, StudentID := a0.studentID,
            Status := registrationStatus s evt eventID } =
          decide ((registeredCount s eventID : Int) < evt.Capacity) := by
        simp only [isRegisteredIn, beq_self_eq_true, Bool.true_and]
        rw [registrationStatus_eq s evt eventID hpos]
        by_cases hlt : (registeredCount s eventID : Int) < evt.Capacity
        · simp only [hlt, if_true, decide_True]; decide
        · simp only [hlt, if_false, decide_False]; decide
      have hcount : registeredCount
          (applyEventRegistration s a0.now a0.id eventID a0.studentID).1 eventID =
          registeredCount s eventID +
            (if (registeredCount s eventID : Int) < evt.Capacity then 1 else 0) := by
        rw [hs1]
        have hcnt : registeredCount
            { s with registrations := s.registrations ++
                [{ toMeta := { ID := a0.id, CreatedAt := a0.now, UpdatedAt := a0.now },
                   EventID := eventID, StudentID := a0.studentID,
                   Status := registrationStatus s evt eventID }] } eventID =
            s.registrations.countP (isRegisteredIn eventID) +
              (if decide ((registeredCount s eventID : Int) < evt.Capacity) = true
                then 1 else 0) := by
          simp only [registeredCount_eq, List.countP_append, List.countP_cons, List.countP_nil,
            hnew, Nat.zero_add]
        rw [hcnt]
        by_cases hlt : (registeredCount s eventID : Int) < evt.Capacity
        · simp [hlt, registeredCount_eq]
        · simp [hlt, registeredCount_eq]
      have hih := ih (applyEventRegistration s a0.now a0.id eventID a0.studentID).1
        (by rw [applyEventRegistration_events]; exact hev)
        (by
          intro b hb
          rw [hs1]
          exact hst b (List.mem_cons_of_mem _ hb))
        (by
          intro b hb r hr
          rw [hs1] at hr
          rcases List.mem_append.mp hr with hr | hr
          · exact hact b (List.mem_cons_of_mem _ hb) r hr
          · have hr2 : r = _ := List.mem_singleton.mp hr
            rw [hr2]
            intro hc
            have hc2 : a0.studentID = b.studentID := hc.2
            exact hnds.1 (hc2 ▸ List.mem_map_of_mem Application.studentID hb))
        hnds.2 hndi.2
        (by
          intro b hb
          rw [hs1]
          have hold := hfresh b (List.mem_cons_of_mem _ hb)
          have hneq : ¬ b.id = a0.id := by
            intro hc2
            exact hndi.1 (hc2 ▸ List.mem_map_of_mem Application.id hb)
          simp only [List.map_append, List.mem_append, List.map_cons, List.map_nil,
            List.mem_singleton, not_or]
          exact ⟨hold, hneq⟩)
        j a hj
      obtain ⟨r, hget, hid, hstu, hcl, hstat⟩ := hih
      refine ⟨r, ?_, hid, hstu, hcl, ?_⟩
      · simp only [registerAll, List.getElem?_cons_succ]
        exact hget
      · rw [hstat, hcount]
        by_cases hlt : (registeredCount s eventID : Int) < evt.Capacity
        · simp only [hlt, if_true]
          have : ((registeredCount s eventID + 1 + j : Nat) : Int) =
              ((registeredCount s eventID + (j + 1) : Nat) : Int) := by push_cast; ring
          rw [this]
        · simp only [hlt, if_false, Nat.add_zero]
          have h1 : ¬ ((registeredCount s eventID + j : Nat) : Int) < evt.Capacity := by
            push_cast; omega
          have h2 : ¬ ((registeredCount s eventID + (j + 1) : Nat) : Int) < evt.Capacity := by
            push_cast; omega
          simp only [h1, h2, if_false]

/-- C23. Capacity invariant for event registration: starting from a store with
no registrations, after every finite sequence of `applyEventRegistration` and
`cancelEventRegistrationAndPromote` calls the number of registered entries of
an event of positive capacity C is at most C; and when n pairwise distinct
existing students register one after another (with pairwise distinct generated
IDs) for such an event in a store with no registrations, every call succeeds,
the first min(n, C) are registered and the rest waitlisted. -/
theorem event_capacity_invariant :
    (∀ (s0 s : Store) (eventID : String), s0.registrations = [] →
      EventReachable s0 s → 0 < eventCapacity s0 eventID →
      (registeredCount s eventID : Int) ≤ eventCapacity s0 eventID) ∧
    (∀ (s : Store) (eventID : String) (apps : List Application),
      s.registrations = [] → 0 < eventCapacity s eventID →
      (∀ a ∈ apps, a.studentID ∈ s.students.map Student.ID) →
      (apps.map Application.studentID).Nodup → (apps.map Application.id).Nodup →
      ∀ (j : Nat) (a : Application), apps[j]? = some a →
        ∃ r : EventRegistration, (registerAll s eventID apps).2[j]? = some (.ok r) ∧
          r.ID = a.id ∧ r.StudentID = a.studentID ∧ r.EventID = eventID ∧
          r.Status = if j < min apps.length (eventCapacity s eventID).toNat
            then "registered" else "waitlisted") := by
  constructor
  · intro s0 s eventID h0 hr hC
    have hinit : EventCapInv s0 := by
      intro v hv
      simp only [registeredCount, h0, List.countP_nil]
      exact_mod_cast le_of_lt hv
    have hcap := eventCapacity_congr hr.events_eq eventID
    have := hr.eventCapInv hinit eventID (hcap ▸ hC)
    rw [hcap] at this
    exact this
  · intro s eventID apps h0 hC hstud hdist hids j a hj
    cases hev : mapGet Event.ID s.events eventID with
    | none => simp [eventCapacity, hev] at hC
    | some evt =>
      have hcap : eventCapacity s eventID = evt.Capacity := by simp [eventCapacity, hev]
      rw [hcap] at hC ⊢
      have hzero : registeredCount s eventID = 0 := by simp [registeredCount, h0]
      obtain ⟨r, hget, hid, hstu, hcl, hstat⟩ :=
        registerAll_statuses eventID evt hC apps s hev
          (fun b hb => mapGet_isSome_of_mem_keys Student.ID (hstud b hb))
          (by intro b _ r hr; rw [h0] at hr; cases hr)
          hdist hids
          (by intro b _; simp [h0])
          j a hj
      refine ⟨r, hget, hid, hstu, hcl, ?_⟩
      rw [hstat, hzero]
      have hjn : j < apps.length := by
        by_contra hge
        rw [List.getElem?_eq_none (not_lt.mp hge)] at hj
        cases hj
      by_cases hlt : ((0 + j : Nat) : Int) < evt.Capacity
      · have : j < min apps.length evt.Capacity.toNat := by
          rw [lt_min_iff]
          refine ⟨hjn, ?_⟩
          omega
        simp only [hlt, this, if_true]
      · have : ¬ j < min apps.length evt.Capacity.toNat := by
          rw [lt_min_iff]
          intro hc
          omega
        simp only [hlt, this, if_false]

theorem event_capacity_invariant_witness :
    (registeredCount storeE3 "v1" : Int) ≤ eventCapacity storeE0 "v1" :=
  event_capacity_invariant.1 storeE0 storeE3 "v1" rfl
    (EventReachable.cancel _ 7 8 "e1"
      (EventReachable.apply _ 3 "e3" "v1" "s3"
        (EventReachable.apply _ 2 "e2" "v1" "s2"
          (EventReachable.apply _ 1 "e1" "v1" "s1" EventReachable.init))))
    (by decide)

/-- Replay of the registration test on `storeE0` (capacity 2): two registered,
the third waitlisted; cancelling the first promotes the third. -/
theorem storeE0_three_registrations :
    (registerAll storeE0 "v1" threeApplications).2 =
      [.ok (mkRegistration "e1" "v1" "s1" "registered" 1),
       .ok (mkRegistration "e2" "v1" "s2" "registered" 2),
       .ok (mkRegistration "e3" "v1" "s3" "waitlisted" 3)] ∧
    registeredCount storeE3 "v1" = 2 ∧ eventWaitlistedCount storeE3 "v1" = 0 := by
  decide

/-! ### C27 -/

theorem strLe_false_iff (a b : String) : strLe a b = false ↔ b < a := by
  have h : strLe a b = true ↔ a ≤ b := by
    unfold strLe
    rw [decide_eq_true_iff, ← not_lt, String.lt_iff_toList_lt]
    rfl
  rw [← not_iff_not, Bool.not_eq_false, h, not_lt]

theorem validateClass_cases (st : Accessor) (input : Class) :
    (∃ field reason : String, validateClass st input = some (.ValidationError field reason)) ∨
    (validateClass st input = none ∧
      isBlank input.TermID = false ∧ isBlank input.CampusID = false ∧
      isBlank input.RoomID = false ∧ 0 ≤ input.Weekday ∧ input.Weekday ≤ 6 ∧
      isBlank input.StartHHMM = false ∧ isBlank input.EndHHMM = false ∧
      0 < input.Capacity ∧ strLe input.EndHHMM input.StartHHMM = false) := by
  unfold validateClass
  by_cases h1 : (isBlank input.TermID || isBlank input.CampusID || isBlank input.RoomID) = true
  · rw [if_pos h1]; exact Or.inl ⟨_, _, rfl⟩
  rw [if_neg h1]
  by_cases h2 : (decide (input.Weekday < 0) || decide (input.Weekday > 6)) = true
  · rw [if_pos h2]; exact Or.inl ⟨_, _, rfl⟩
  rw [if_neg h2]
  by_cases h3 : (isBlank input.StartHHMM || isBlank input.EndHHMM) = true
  · rw [if_pos h3]; exact Or.inl ⟨_, _, rfl⟩
  rw [if_neg h3]
  by_cases h4 : input.Capacity ≤ 0
  · rw [if_pos h4]; exact Or.inl ⟨_, _, rfl⟩
  rw [if_neg h4]
  simp only [Bool.or_eq_true, not_or, Bool.not_eq_true, decide_eq_true_eq, not_lt,
    not_le] at h1 h2 h3 h4
  cases st.termsGet input.TermID with
  | error e => exact Or.inl ⟨_, _, rfl⟩
  | ok t =>
    cases st.campusesGet input.CampusID with
    | error e => exact Or.inl ⟨_, _, rfl⟩
    | ok campus =>
      cases st.roomsGet input.RoomID with
      | error e => exact Or.inl ⟨_, _, rfl⟩
      | ok rm =>
        dsimp only
        by_cases h5 : (rm.CampusID != campus.toMeta.ID) = true
        · rw [if_pos h5]; exact Or.inl ⟨_, _, rfl⟩
        rw [if_neg h5]
        by_cases h6 : strLe input.EndHHMM input.StartHHMM = true
        · rw [if_pos h6]; exact Or.inl ⟨_, _, rfl⟩
        rw [if_neg h6]
        right
        exact ⟨rfl, h1.1.1, h1.1.2, h1.2, h2.1, h2.2, h3.1, h3.2, h4,
          (Bool.not_eq_true _).mp h6⟩

theorem validateClass_none {st : Accessor} {input : Class}
    (h : validateClass st input = none) :
    isBlank input.TermID = false ∧ isBlank input.CampusID = false ∧
    isBlank input.RoomID = false ∧ 0 ≤ input.Weekday ∧ input.Weekday ≤ 6 ∧
    isBlank input.StartHHMM = false ∧ isBlank input.EndHHMM = false ∧
    0 < input.Capacity ∧ strLe input.EndHHMM input.StartHHMM = false := by
  rcases validateClass_cases st input with ⟨f, r, he⟩ | ⟨-, hrest⟩
  · rw [he] at h; cases h
  · exact hrest

theorem validateClass_error_kind (st : Accessor) (input : Class) (err : StoreError)
    (h : validateClass st input = some err) :
    ∃ field reason : String, err = .ValidationError field reason := by
  rcases validateClass_cases st input with ⟨f, r, he⟩ | ⟨hn, -⟩
  · rw [he] at h
    exact ⟨f, r, (Option.some.inj h).symm⟩
  · rw [hn] at h; cases h

/-- C27. Class validation guarantees a positive capacity: whenever
`validateClass` returns nil the input has Capacity > 0, Weekday in 0..6,
non-blank TermID, CampusID, RoomID, StartHHMM and EndHHMM, and EndHHMM strictly
greater than StartHHMM in string order; every input with Capacity <= 0 or
EndHHMM <= StartHHMM is rejected with a ValidationError; and the POST and PUT
handlers of the classes endpoint pass a class to the repository (and answer
with its result) only when its Capacity is positive. -/
theorem class_validation (st : Accessor) (input : Class) :
    (validateClass st input = none →
      0 < input.Capacity ∧ 0 ≤ input.Weekday ∧ input.Weekday ≤ 6 ∧
      isBlank input.TermID = false ∧ isBlank input.CampusID = false ∧
      isBlank input.RoomID = false ∧ isBlank input.StartHHMM = false ∧
      isBlank input.EndHHMM = false ∧ input.StartHHMM < input.EndHHMM) ∧
    (input.Capacity ≤ 0 ∨ input.EndHHMM ≤ input.StartHHMM →
      ∃ field reason : String,
        validateClass st input = some (.ValidationError field reason)) ∧
    (∀ out : Class, postClass st input = .json 201 out →
      0 < input.Capacity ∧ st.classesCreate input = .ok out) ∧
    (∀ (id : String) (code : Nat) (out : Class), putClass st id input = .json code out →
      0 < input.Capacity) := by
  refine ⟨?_, ?_, ?_, ?_⟩
  · intro h
    obtain ⟨h1, h2, h3, h4, h5, h6, h7, h8, h9⟩ := validateClass_none h
    exact ⟨h8, h4, h5, h1, h2, h3, h6, h7, (strLe_false_iff _ _).mp h9⟩
  · intro h
    cases hv : validateClass st input with
    | some err =>
      obtain ⟨f, r, he⟩ := validateClass_error_kind st input err hv
      exact ⟨f, r, by rw [he]⟩
    | none =>
      exfalso
      obtain ⟨-, -, -, -, -, -, -, h8, h9⟩ := validateClass_none hv
      rcases h with h | h
      · omega
      · exact absurd ((strLe_false_iff _ _).mp h9) (not_lt.mpr h)
  · intro out h
    unfold postClass at h
    cases hv : validateClass st input with
    | some err => rw [hv] at h; cases h
    | none =>
      rw [hv] at h
      refine ⟨(validateClass_none hv).2.2.2.2.2.2.2.1, ?_⟩
      cases hc : st.classesCreate input with
      | error e => rw [hc] at h; cases h
      | ok o =>
        rw [hc] at h
        cases h
        rfl
  · intro id code out h
    unfold putClass at h
    dsimp only at h
    cases hv : validateClass st { input with toMeta := { input.toMeta with ID := id } } with
    | some err => rw [hv] at h; cases h
    | none => exact (validateClass_none hv).2.2.2.2.2.2.2.1

theorem class_validation_witness :
    0 < (mkClass "c7" 12).Capacity ∧ 0 ≤ (mkClass "c7" 12).Weekday ∧
      (mkClass "c7" 12).Weekday ≤ 6 ∧
      isBlank (mkClass "c7" 12).TermID = false ∧ isBlank (mkClass "c7" 12).CampusID = false ∧
      isBlank (mkClass "c7" 12).RoomID = false ∧ isBlank (mkClass "c7" 12).StartHHMM = false ∧
      isBlank (mkClass "c7" 12).EndHHMM = false ∧
      (mkClass "c7" 12).StartHHMM < (mkClass "c7" 12).EndHHMM :=
  (class_validation accessor0 (mkClass "c7" 12)).1 (by decide)

/-- Replay of the validation tests on `accessor0`: capacity 0 is refused with
400, and so is an end time not after the start time. -/
theorem class_validation_replays :
    postClass accessor0 (mkClass "c7" 0) =
      .error "validation failed: capacity must be > 0" 400 ∧
    postClass accessor0 { mkClass "c7" 10 with StartHHMM := "10:00", EndHHMM := "09:00" } =
      .error "validation failed: endHHMM must be after startHHMM" 400 ∧
    postClass accessor0 (mkClass "c7" 12) = .json 201 (mkClass "c7" 12) := by
  decide

/-! ### C28 -/

theorem postEnrollmentDrop_fallback_promoted (s : Store) (now1 now2 : Time) (id : String)
    (code : Nat) (resp : DropResp)
    (h : (postEnrollmentDrop false s now1 now2 id).2 = .json code resp) :
    resp.Promoted = none := by
  unfold postEnrollmentDrop at h
  simp only [Bool.false_eq_true, if_false] at h
  cases hg : enrollmentRepoGet s id with
  | error e => rw [hg] at h; cases h
  | ok en =>
    rw [hg] at h
    dsimp only at h
    cases hu : enrollmentRepoUpdate s now1 { en with Status := EnrollmentDropped } with
    | mk s1 res =>
      rw [hu] at h
      cases res with
      | error e => cases h
      | ok en1 =>
        dsimp only at h
        cases h
        rfl

/-- C28. The HTTP fallback path is weaker than the atomic store operation.  For
a student who already holds an enrolled entry of the class, and for a student
ID that does not exist, the fallback branch of the apply handler answers 201
and adds an entry, whereas `ApplyEnrollment` on the same store returns an error
and adds nothing.  The fallback branch of the drop handler never returns a
promoted entry, whereas `DropEnrollmentAndPromote` (the other branch) promotes
the waiting entry when an enrolled entry is dropped. -/
theorem fallback_is_weaker :
    ((∃ en : Enrollment,
        (postEnrollmentsApply false store5 9 "e9" { StudentID := "s1", ClassID := "c1" }).2 =
          .json 201 en ∧
        mapGet Enrollment.ID
          (postEnrollmentsApply false store5 9 "e9"
            { StudentID := "s1", ClassID := "c1" }).1.enrollments "e9" = some en) ∧
      ApplyEnrollment store5 9 "e9" "s1" "c1" =
        (store5, .error (.ConflictError "already applied"))) ∧
    ((∃ en : Enrollment,
        (postEnrollmentsApply false store5 9 "e9" { StudentID := "nobody", ClassID := "c1" }).2 =
          .json 201 en ∧
        mapGet Enrollment.ID
          (postEnrollmentsApply false store5 9 "e9"
            { StudentID := "nobody", ClassID := "c1" }).1.enrollments "e9" = some en) ∧
      ApplyEnrollment store5 9 "e9" "nobody" "c1" =
        (store5, .error (.ValidationError "studentId" "not found"))) ∧
    (∀ (s : Store) (now1 now2 : Time) (id : String) (code : Nat) (resp : DropResp),
      (postEnrollmentDrop false s now1 now2 id).2 = .json code resp → resp.Promoted = none) ∧
    ((postEnrollmentDrop true store5 7 8 "e1").2 =
        .json 200
          { Dropped := (mkEnrollment "e1" "s1" "c1" EnrollmentEnrolled 1).withStatus
              EnrollmentDropped 7,
            Promoted := some ((mkEnrollment "e2" "s2" "c1" EnrollmentWaitlisted 2).withStatus
              EnrollmentEnrolled 8) } ∧
      (postEnrollmentDrop false store5 7 8 "e1").2 =
        .json 200
          { Dropped := (mkEnrollment "e1" "s1" "c1" EnrollmentEnrolled 1).withStatus
              EnrollmentDropped 7,
            Promoted := none } ∧
      mapGet Enrollment.ID (postEnrollmentDrop false store5 7 8 "e1").1.enrollments "e2" =
        some (mkEnrollment "e2" "s2" "c1" EnrollmentWaitlisted 2)) := by
  refine ⟨⟨⟨mkEnrollment "e9" "s1" "c1" EnrollmentWaitlisted 9, by decide, by decide⟩,
      by decide⟩,
    ⟨⟨mkEnrollment "e9" "nobody" "c1" EnrollmentWaitlisted 9, by decide, by decide⟩,
      by decide⟩,
    postEnrollmentDrop_fallback_promoted, by decide⟩

theorem fallback_is_weaker_witness :
    ({ Dropped := (mkEnrollment "e1" "s1" "c1" EnrollmentEnrolled 1).withStatus
          EnrollmentDropped 7,
       Promoted := none } : DropResp).Promoted = none :=
  fallback_is_weaker.2.2.1 store5 7 8 "e1" 200
    { Dropped := (mkEnrollment "e1" "s1" "c1" EnrollmentEnrolled 1).withStatus
        EnrollmentDropped 7,
      Promoted := none }
    (by decide)

/-! ### C25 -/

/-- Lookups of a class and of an event whose ID and capacity lists agree. -/
theorem lookup_class_event (cl : List Class) (ev : List Event) (id : String)
    (h : cl.map (fun c => (c.ID, c.Capacity)) = ev.map (fun e => (e.ID, e.Capacity))) :
    (mapGet Class.ID cl id).map Class.Capacity = (mapGet Event.ID ev id).map Event.Capacity := by
  induction cl generalizing ev with
  | nil =>
    cases ev with
    | nil => rfl
    | cons e es => simp at h
  | cons c cs ih =>
    cases ev with
    | nil => simp at h
    | cons e es =>
      simp only [List.map_cons, List.cons.injEq, Prod.mk.injEq] at h
      obtain ⟨⟨hid, hcap⟩, hrest⟩ := h
      by_cases hc : c.ID = id
      · have he : e.ID = id := hid ▸ hc
        simp [mapGet, hc, he, hcap]
      · have he : ¬ e.ID = id := fun h2 => hc (hid.trans h2)
        simpa [mapGet, hc, he] using ih es hrest

theorem corresponds_storeE0 : Corresponds storeE0 storeC0 :=
  ⟨fun _ => rfl, fun id => lookup_class_event _ _ id (by decide), by decide, by decide,
    by decide⟩

/-- C25, as stated, fails: for the event v0 of capacity 0 and the class of the
same ID and capacity, the event facade registers the applicant and the class
facade waitlists the applicant. -/
theorem facades_counterexample :
    ¬ (∀ (se sc : Store) (now : Time) (id eventID studentID : String),
        Corresponds se sc →
        applyResultsCorrespond (applyEventRegistration se now id eventID studentID).2
          (ApplyEnrollment sc now id studentID eventID).2) := by
  intro h
  have h2 := h storeE0 storeC0 1 "r1" "v0" "s1" corresponds_storeE0
  have h3 : (applyEventRegistration storeE0 1 "r1" "v0" "s1").2 =
      .ok (mkRegistration "r1" "v0" "s1" "registered" 1) := by decide
  have h4 : (ApplyEnrollment storeC0 1 "r1" "s1" "v0").2 =
      .ok (mkEnrollment "r1" "s1" "v0" EnrollmentWaitlisted 1) := by decide
  rw [h3, h4] at h2
  revert h2
  simp only [applyResultsCorrespond]
  decide

/-! #### Lookups, counts and waitlists of corresponding stores -/

theorem toEnrollment_ID (r : EventRegistration) : r.toEnrollment.ID = r.ID := rfl

theorem mapGet_map_toEnrollment (l : List EventRegistration) (id : String) :
    mapGet Enrollment.ID (l.map EventRegistration.toEnrollment) id =
      (mapGet EventRegistration.ID l id).map EventRegistration.toEnrollment := by
  induction l with
  | nil => rfl
  | cons r rs ih =>
    by_cases h : r.ID = id
    · have h2 : r.toEnrollment.ID = id := h
      simp [mapGet, h, h2]
    · have h2 : ¬ r.toEnrollment.ID = id := h
      simpa [mapGet, h, h2] using ih

theorem mapSet_map_toEnrollment (l : List EventRegistration) (v : EventRegistration) :
    mapSet Enrollment.ID (l.map EventRegistration.toEnrollment) v.toEnrollment =
      (mapSet EventRegistration.ID l v).map EventRegistration.toEnrollment := by
  induction l with
  | nil => rfl
  | cons r rs ih =>
    by_cases h : r.ID = v.ID
    · have h2 : r.toEnrollment.ID = v.toEnrollment.ID := h
      simp [mapSet, h, h2]
    · have h2 : ¬ r.toEnrollment.ID = v.toEnrollment.ID := h
      simp [mapSet, h, h2, ih]

theorem renameStatus_valid {status : String} (h : validRegistrationStatus status = true) :
    (status = "registered" ∧ renameStatus status = EnrollmentEnrolled) ∨
    (status = "waitlisted" ∧ renameStatus status = EnrollmentWaitlisted) ∨
    (status = "cancelled" ∧ renameStatus status = EnrollmentDropped) := by
  simp only [validRegistrationStatus, Bool.or_eq_true, beq_iff_eq] at h
  rcases h with (h | h) | h
  · subst h; exact Or.inl ⟨rfl, by decide⟩
  · subst h; exact Or.inr (Or.inl ⟨rfl, by decide⟩)
  · subst h; exact Or.inr (Or.inr ⟨rfl, by decide⟩)

theorem isEnrolledIn_toEnrollment (c : String) {r : EventRegistration}
    (h : validRegistrationStatus r.Status = true) :
    isEnrolledIn c r.toEnrollment = isRegisteredIn c r := by
  rcases renameStatus_valid h with ⟨h1, h2⟩ | ⟨h1, h2⟩ | ⟨h1, h2⟩
  · simp only [isEnrolledIn, isRegisteredIn, EventRegistration.toEnrollment, h2, h1]
    congr 1
  · simp only [isEnrolledIn, isRegisteredIn, EventRegistration.toEnrollment, h2, h1]
    congr 1
  · simp only [isEnrolledIn, isRegisteredIn, EventRegistration.toEnrollment, h2, h1]
    congr 1

theorem isWaitlistedIn_toEnrollment (c : String) {r : EventRegistration}
    (h : validRegistrationStatus r.Status = true) :
    isWaitlistedIn c r.toEnrollment = isEventWaitlistedIn c r := by
  rcases renameStatus_valid h with ⟨h1, h2⟩ | ⟨h1, h2⟩ | ⟨h1, h2⟩
  · simp only [isWaitlistedIn, isEventWaitlistedIn, EventRegistration.toEnrollment, h2, h1]
    congr 1
  · simp only [isWaitlistedIn, isEventWaitlistedIn, EventRegistration.toEnrollment, h2, h1]
    congr 1
  · simp only [isWaitlistedIn, isEventWaitlistedIn, EventRegistration.toEnrollment, h2, h1]
    congr 1

theorem countP_map_toEnrollment (c : String) (l : List EventRegistration)
    (hv : ∀ r ∈ l, validRegistrationStatus r.Status = true) :
    (l.map EventRegistration.toEnrollment).countP (isEnrolledIn c) =
      l.countP (isRegisteredIn c) := by
  induction l with
  | nil => rfl
  | cons r rs ih =>
    have h1 := isEnrolledIn_toEnrollment c (hv r (List.mem_cons_self _ _))
    have h2 := ih (fun x hx => hv x (List.mem_cons_of_mem _ hx))
    simp only [List.map_cons, List.countP_cons, h1, h2]

theorem filter_map_toEnrollment (c : String) (l : List EventRegistration)
    (hv : ∀ r ∈ l, validRegistrationStatus r.Status = true) :
    (l.map EventRegistration.toEnrollment).filter (isWaitlistedIn c) =
      (l.filter (isEventWaitlistedIn c)).map EventRegistration.toEnrollment := by
  induction l with
  | nil => rfl
  | cons r rs ih =>
    have h1 := isWaitlistedIn_toEnrollment c (hv r (List.mem_cons_self _ _))
    have h2 := ih (fun x hx => hv x (List.mem_cons_of_mem _ hx))
    simp only [List.map_cons, List.filter_cons, h1, h2]
    split <;> rfl

theorem insertSorted_map_toEnrollment (x : EventRegistration) (l : List EventRegistration) :
    insertSorted (fun a b : Enrollment => decide (a.CreatedAt < b.CreatedAt)) x.toEnrollment
        (l.map EventRegistration.toEnrollment) =
      (insertSorted (fun a b : EventRegistration => decide (a.CreatedAt < b.CreatedAt)) x l).map
        EventRegistration.toEnrollment := by
  induction l with
  | nil => rfl
  | cons y ys ih =>
    have hxy : (y.toEnrollment.CreatedAt < x.toEnrollment.CreatedAt) =
        (y.CreatedAt < x.CreatedAt) := rfl
    simp only [List.map_cons, insertSorted, hxy]
    split
    · simp only [List.map_cons, ih]
    · rfl

theorem sortSlice_map_toEnrollment (l : List EventRegistration) :
    sortSlice (fun a b : Enrollment => decide (a.CreatedAt < b.CreatedAt))
        (l.map EventRegistration.toEnrollment) =
      (sortSlice (fun a b : EventRegistration => decide (a.CreatedAt < b.CreatedAt)) l).map
        EventRegistration.toEnrollment := by
  induction l with
  | nil => rfl
  | cons y ys ih =>
    simp only [List.map_cons, sortSlice, ih, insertSorted_map_toEnrollment]

theorem waitlistOf_map_toEnrollment (c : String) (l : List EventRegistration)
    (hv : ∀ r ∈ l, validRegistrationStatus r.Status = true) :
    waitlistOf (l.map EventRegistration.toEnrollment) c =
      (eventWaitlistOf l c).map EventRegistration.toEnrollment := by
  unfold waitlistOf
  rw [filter_map_toEnrollment c l hv, sortSlice_map_toEnrollment, eventWaitlistOf_eq]

theorem dedupeConflict_all_cancelled (eventID studentID : String) (l : List EventRegistration)
    (h : ∀ r ∈ l, r.EventID = eventID → r.StudentID = studentID → r.Status = "cancelled") :
    dedupeConflict eventID studentID l = false := by
  induction l with
  | nil => rfl
  | cons r rs ih =>
    by_cases hm : (r.EventID == eventID && r.StudentID == studentID) = true
    · have hm2 := hm
      simp only [Bool.and_eq_true, beq_iff_eq] at hm2
      have hc := h r (List.mem_cons_self _ _) hm2.1 hm2.2
      simp [dedupeConflict, hm2.1, hm2.2, hc]
    · have hm3 : (r.EventID == eventID && r.StudentID == studentID) = false :=
        (Bool.not_eq_true _).mp hm
      simp only [dedupeConflict, hm3, Bool.false_eq_true, if_false]
      exact ih (fun x hx => h x (List.mem_cons_of_mem _ hx))

theorem dedupeConflict_none_cancelled (eventID studentID : String) (l : List EventRegistration)
    (h : ∀ r ∈ l, r.EventID = eventID → r.StudentID = studentID → r.Status ≠ "cancelled") :
    dedupeConflict eventID studentID l =
      l.any (fun r => r.EventID == eventID && r.StudentID == studentID) := by
  induction l with
  | nil => rfl
  | cons r rs ih =>
    by_cases hm : (r.EventID == eventID && r.StudentID == studentID) = true
    · have hm2 := hm
      simp only [Bool.and_eq_true, beq_iff_eq] at hm2
      have hc := h r (List.mem_cons_self _ _) hm2.1 hm2.2
      simp [dedupeConflict, hm2.1, hm2.2, hc]
    · have hm3 : (r.EventID == eventID && r.StudentID == studentID) = false :=
        (Bool.not_eq_true _).mp hm
      simp only [dedupeConflict, hm3, Bool.false_eq_true, if_false, List.any_cons,
        Bool.false_or]
      exact ih (fun x hx => h x (List.mem_cons_of_mem _ hx))

theorem any_map_congr {α β : Type} (f : α → β) (p : β → Bool) (q : α → Bool) (l : List α)
    (h : ∀ x ∈ l, p (f x) = q x) : (l.map f).any p = l.any q := by
  induction l with
  | nil => rfl
  | cons x xs ih =>
    simp only [List.map_cons, List.any_cons, h x (List.mem_cons_self _ _),
      ih (fun y hy => h y (List.mem_cons_of_mem _ hy))]

/-- The duplicate checks of the two facades agree when the registrations of
the pair are all cancelled or all not cancelled. -/
theorem duplicate_checks_agree_of_pair (eventID studentID : String)
    (l : List EventRegistration)
    (hv : ∀ r ∈ l, validRegistrationStatus r.Status = true)
    (hpair : (∀ r ∈ l, r.EventID = eventID → r.StudentID = studentID →
        r.Status = "cancelled") ∨
      (∀ r ∈ l, r.EventID = eventID → r.StudentID = studentID → r.Status ≠ "cancelled")) :
    (l.map EventRegistration.toEnrollment).any (isActiveFor studentID eventID) =
      dedupeConflict eventID studentID l := by
  rcases hpair with hall | hnone
  · rw [dedupeConflict_all_cancelled eventID studentID l hall, List.any_eq_false]
    intro e he
    rcases List.mem_map.mp he with ⟨r, hr, rfl⟩
    by_cases h1 : r.StudentID = studentID
    · by_cases h2 : r.EventID = eventID
      · have hc := hall r hr h2 h1
        have hd : renameStatus r.Status = EnrollmentDropped := by rw [hc]; decide
        simp [isActiveFor, EventRegistration.toEnrollment, hd]
      · simp [isActiveFor, EventRegistration.toEnrollment, h2]
    · simp [isActiveFor, EventRegistration.toEnrollment, h1]
  · rw [dedupeConflict_none_cancelled eventID studentID l hnone]
    apply any_map_congr
    intro r hr
    by_cases h1 : r.StudentID = studentID
    · by_cases h2 : r.EventID = eventID
      · have hc := hnone r hr h2 h1
        have hact : (renameStatus r.Status == EnrollmentDropped ||
            renameStatus r.Status == EnrollmentRejected) = false := by
          rcases renameStatus_valid (hv r hr) with ⟨-, h3⟩ | ⟨-, h3⟩ | ⟨h4, -⟩
          · rw [h3]; decide
          · rw [h3]; decide
          · exact absurd h4 hc
        simp [isActiveFor, EventRegistration.toEnrollment, h1, h2, hact]
      · have h2b : (r.EventID == eventID) = false := by simpa using h2
        simp [isActiveFor, EventRegistration.toEnrollment, h2b]
    · have h1b : (r.StudentID == studentID) = false := by simpa using h1
      simp [isActiveFor, EventRegistration.toEnrollment, h1b]

/-- The duplicate checks of the two facades agree when the dedupe loop is not
cut short: if the first registration of the pair in enumeration order is
cancelled, then all registrations of the pair are. -/
theorem duplicate_checks_agree (eventID studentID : String) (l : List EventRegistration)
    (hv : ∀ r ∈ l, validRegistrationStatus r.Status = true)
    (hfirst : ∀ c,
      l.find? (fun r => r.EventID == eventID && r.StudentID == studentID) = some c →
      c.Status = "cancelled" →
      ∀ r ∈ l, r.EventID = eventID → r.StudentID = studentID → r.Status = "cancelled") :
    (l.map EventRegistration.toEnrollment).any (isActiveFor studentID eventID) =
      dedupeConflict eventID studentID l := by
  induction l with
  | nil => rfl
  | cons r rs ih =>
    by_cases hm : (r.EventID == eventID && r.StudentID == studentID) = true
    · have hfind : (r :: rs).find? (fun r => r.EventID == eventID && r.StudentID == studentID) =
          some r := by
        simp only [List.find?_cons, hm]
      by_cases hc : r.Status = "cancelled"
      · exact duplicate_checks_agree_of_pair eventID studentID (r :: rs) hv
          (Or.inl (hfirst r hfind hc))
      · have hm2 := hm
        simp only [Bool.and_eq_true, beq_iff_eq] at hm2
        have hact : (renameStatus r.Status == EnrollmentDropped ||
            renameStatus r.Status == EnrollmentRejected) = false := by
          rcases renameStatus_valid (hv r (List.mem_cons_self _ _)) with
            ⟨-, h3⟩ | ⟨-, h3⟩ | ⟨h4, -⟩
          · rw [h3]; decide
          · rw [h3]; decide
          · exact absurd h4 hc
        have h1 : isActiveFor studentID eventID r.toEnrollment = true := by
          simp [isActiveFor, EventRegistration.toEnrollment, hm2.1, hm2.2, hact]
        have h2 : dedupeConflict eventID studentID (r :: rs) = true := by
          simp [dedupeConflict, hm2.1, hm2.2, hc]
        rw [h2, List.map_cons, List.any_cons, h1]
        rfl
    · have hm3 : (r.EventID == eventID && r.StudentID == studentID) = false :=
        (Bool.not_eq_true _).mp hm
      have h1 : isActiveFor studentID eventID r.toEnrollment = false := by
        have : (r.StudentID == studentID && r.EventID == eventID) = false := by
          rw [Bool.and_comm]; exact hm3
        simp only [isActiveFor, EventRegistration.toEnrollment, this, Bool.false_and]
      have h2 : dedupeConflict eventID studentID (r :: rs) =
          dedupeConflict eventID studentID rs := by
        simp only [dedupeConflict, hm3, Bool.false_eq_true, if_false]
      rw [h2, List.map_cons, List.any_cons, h1, Bool.false_or]
      apply ih (fun x hx => hv x (List.mem_cons_of_mem _ hx))
      intro c hfc hcc x hx hxe hxs
      have hfind : (r :: rs).find? (fun r => r.EventID == eventID && r.StudentID == studentID) =
          some c := by
        simp only [List.find?_cons, hm3]
        exact hfc
      exact hfirst c hfind hcc x (List.mem_cons_of_mem _ hx) hxe hxs

theorem renameStatus_registrationStatus (se sc : Store) (evt : Event) (eventID : String)
    (hpos : 0 < evt.Capacity)
    (hcount : enrolledCount sc eventID = registeredCount se eventID)
    (hcap : classCapacity sc eventID = evt.Capacity) :
    renameStatus (registrationStatus se evt eventID) = admissionStatus sc eventID := by
  rw [registrationStatus_eq se evt eventID hpos, admissionStatus_eq, hcount, hcap]
  by_cases hlt : (registeredCount se eventID : Int) < evt.Capacity
  · simp only [hlt, if_true]; decide
  · simp only [hlt, if_false]; decide

/-- The apply operations of the two facades on corresponding stores, for an
event of positive capacity and a pair whose registrations are all cancelled or
all not cancelled. -/
theorem apply_corresponds (se sc : Store) (now : Time) (id eventID studentID : String)
    (hcor : CorrespondsInOrder se sc)
    (hcap : ∀ evt, mapGet Event.ID se.events eventID = some evt → 0 < evt.Capacity)
    (hfirst : ∀ c,
      se.registrations.find? (fun r => r.EventID == eventID && r.StudentID == studentID) =
        some c →
      c.Status = "cancelled" →
      ∀ r ∈ se.registrations, r.EventID = eventID → r.StudentID = studentID →
        r.Status = "cancelled") :
    applyResultsCorrespond (applyEventRegistration se now id eventID studentID).2
        (ApplyEnrollment sc now id studentID eventID).2 ∧
      CorrespondsInOrder (applyEventRegistration se now id eventID studentID).1
        (ApplyEnrollment sc now id studentID eventID).1 := by
  obtain ⟨hst, hcl, hen, hnd, hv⟩ := hcor
  have hlook := hcl eventID
  have hdup : hasActiveEnrollment sc studentID eventID =
      dedupeConflict eventID studentID se.registrations := by
    unfold hasActiveEnrollment
    rw [hen]
    exact duplicate_checks_agree eventID studentID _ hv hfirst
  have hcount : enrolledCount sc eventID = registeredCount se eventID := by
    unfold enrolledCount
    rw [hen, countP_map_toEnrollment eventID _ hv]
    rfl
  cases hev : mapGet Event.ID se.events eventID with
  | none =>
    rw [hev] at hlook
    have hc : mapGet Class.ID sc.classes eventID = none := by
      cases h : mapGet Class.ID sc.classes eventID with
      | none => rfl
      | some c => rw [h] at hlook; cases hlook
    have h1 : ApplyEnrollment sc now id studentID eventID =
        (sc, .error (.ValidationError "classId" "not found")) := by
      simp [ApplyEnrollment, hc]
    have h2 : applyEventRegistration se now id eventID studentID =
        (se, .error (.ValidationError "eventId" "not found")) := by
      simp [applyEventRegistration, hev]
    rw [h1, h2]
    exact ⟨rfl, hst, hcl, hen, hnd, hv⟩
  | some evt =>
    rw [hev] at hlook
    have hex : ∃ c, mapGet Class.ID sc.classes eventID = some c ∧ c.Capacity = evt.Capacity := by
      cases h : mapGet Class.ID sc.classes eventID with
      | none => rw [h] at hlook; cases hlook
      | some c =>
        rw [h] at hlook
        exact ⟨c, rfl, Option.some.inj hlook⟩
    obtain ⟨c, hc, hcc⟩ := hex
    have hcn : (mapGet Class.ID sc.classes eventID).isNone = false := by rw [hc]; rfl
    have hcapc : classCapacity sc eventID = evt.Capacity := by simp [classCapacity, hc, hcc]
    have hpos := hcap evt hev
    by_cases hs : (mapGet Student.ID se.students studentID).isNone = true
    · have hs2 : (mapGet Student.ID sc.students studentID).isNone = true := by rw [hst studentID]; exact hs
      have h1 : ApplyEnrollment sc now id studentID eventID =
          (sc, .error (.ValidationError "studentId" "not found")) := by
        simp [ApplyEnrollment, hcn, hs2]
      have h2 : applyEventRegistration se now id eventID studentID =
          (se, .error (.ValidationError "studentId" "not found")) := by
        simp [applyEventRegistration, hev, hs]
      rw [h1, h2]
      exact ⟨rfl, hst, hcl, hen, hnd, hv⟩
    · have hsf : (mapGet Student.ID se.students studentID).isNone = false :=
        (Bool.not_eq_true _).mp hs
      have hsf2 : (mapGet Student.ID sc.students studentID).isNone = false := by
        rw [hst studentID]; exact hsf
      by_cases hd : dedupeConflict eventID studentID se.registrations = true
      · have hd2 : hasActiveEnrollment sc studentID eventID = true := by rw [hdup]; exact hd
        have h1 : ApplyEnrollment sc now id studentID eventID =
            (sc, .error (.ConflictError "already applied")) := by
          simp [ApplyEnrollment, hcn, hsf2, hd2]
        have h2 : applyEventRegistration se now id eventID studentID =
            (se, .error (.ConflictError "already registered")) := by
          simp [applyEventRegistration, hev, hsf, hd]
        rw [h1, h2]
        exact ⟨rfl, hst, hcl, hen, hnd, hv⟩
      · have hdf : dedupeConflict eventID studentID se.registrations = false :=
          (Bool.not_eq_true _).mp hd
        have hdf2 : hasActiveEnrollment sc studentID eventID = false := by rw [hdup]; exact hdf
        have h1 := ApplyEnrollment_ok sc now id studentID eventID hcn hsf2 hdf2
        have h2 := applyEventRegistration_ok se now id eventID studentID evt hev hsf hdf
        have hstat := renameStatus_registrationStatus se sc evt eventID hpos hcount hcapc
        have hrec : ({ toMeta := { ID := id, CreatedAt := now, UpdatedAt := now },
                       StudentID := studentID, ClassID := eventID,
                       Status := admissionStatus sc eventID } : Enrollment) =
            EventRegistration.toEnrollment
              { toMeta := { ID := id, CreatedAt := now, UpdatedAt := now },
                EventID := eventID, StudentID := studentID,
                Status := registrationStatus se evt eventID } := by
          simp only [EventRegistration.toEnrollment, hstat]
        rw [h1, h2, hrec]
        refine ⟨rfl, hst, hcl, ?_, nodup_mapSet EventRegistration.ID _ hnd, ?_⟩
        · show mapSet Enrollment.ID sc.enrollments _ = _
          rw [hen, mapSet_map_toEnrollment]
        · intro r hr
          rcases mem_mapSet EventRegistration.ID hr with h | h
          · rw [h]
            show validRegistrationStatus (registrationStatus se evt eventID) = true
            rw [registrationStatus_eq se evt eventID hpos]
            split <;> decide
          · exact hv r h

theorem toEnrollment_cancelled (r : EventRegistration) (now : Time) :
    (r.withStatus "cancelled" now).toEnrollment =
      r.toEnrollment.withStatus EnrollmentDropped now := by
  have h : renameStatus "cancelled" = EnrollmentDropped := by decide
  simp only [EventRegistration.toEnrollment, EventRegistration.withStatus,
    Enrollment.withStatus, h]

theorem toEnrollment_registered (r : EventRegistration) (now : Time) :
    (r.withStatus "registered" now).toEnrollment =
      r.toEnrollment.withStatus EnrollmentEnrolled now := by
  have h : renameStatus "registered" = EnrollmentEnrolled := by decide
  simp only [EventRegistration.toEnrollment, EventRegistration.withStatus,
    Enrollment.withStatus, h]

theorem valid_after_set {l : List EventRegistration} {v : EventRegistration}
    (hv : ∀ r ∈ l, validRegistrationStatus r.Status = true)
    (hnew : validRegistrationStatus v.Status = true) :
    ∀ r ∈ mapSet EventRegistration.ID l v, validRegistrationStatus r.Status = true := by
  intro r hr
  rcases mem_mapSet EventRegistration.ID hr with h | h
  · rw [h]; exact hnew
  · exact hv r h

/-- The cancel and drop operations of the two facades on corresponding
stores. -/
theorem cancel_corresponds (se sc : Store) (now1 now2 : Time) (id : String)
    (hcor : CorrespondsInOrder se sc) :
    cancelResultsCorrespond (cancelEventRegistrationAndPromote se now1 now2 id).2
        (DropEnrollmentAndPromote sc now1 now2 id).2 ∧
      CorrespondsInOrder (cancelEventRegistrationAndPromote se now1 now2 id).1
        (DropEnrollmentAndPromote sc now1 now2 id).1 := by
  obtain ⟨hst, hcl, hen, hkeys, hv⟩ := hcor
  have hget := mapGet_map_toEnrollment se.registrations id
  rw [← hen] at hget
  have hvc : ∀ r : EventRegistration,
      validRegistrationStatus (r.withStatus "cancelled" now1).Status = true := by
    intro r
    show validRegistrationStatus "cancelled" = true
    decide
  have hvr : ∀ r : EventRegistration,
      validRegistrationStatus (r.withStatus "registered" now2).Status = true := by
    intro r
    show validRegistrationStatus "registered" = true
    decide
  rcases cancelEventRegistrationAndPromote_cases se now1 now2 id with
    ⟨hg, he⟩ | ⟨r, hg, hd, he⟩ | ⟨r, hg, hd, hor, he⟩ | ⟨r, n, t, hg, hreg, hw, he⟩
  · rw [hg] at hget
    have h1 : DropEnrollmentAndPromote sc now1 now2 id =
        (sc, .error (.NotFoundError "enrollment" id)) := by
      simp [DropEnrollmentAndPromote, hget]
    rw [he, h1]
    exact ⟨rfl, hst, hcl, hen, hkeys, hv⟩
  · rw [hg] at hget
    have hds : r.toEnrollment.Status = EnrollmentDropped := by
      show renameStatus r.Status = _
      rw [hd]; decide
    rw [he, drop_of_dropped sc now1 now2 id r.toEnrollment hget hds]
    exact ⟨⟨rfl, rfl⟩, hst, hcl, hen, hkeys, hv⟩
  · rw [hg] at hget
    have hvr0 := hv r (mapGet_some_mem EventRegistration.ID hg)
    have hnd : r.toEnrollment.Status ≠ EnrollmentDropped := by
      show renameStatus r.Status ≠ _
      rcases renameStatus_valid hvr0 with ⟨-, h3⟩ | ⟨-, h3⟩ | ⟨h4, -⟩
      · rw [h3]; decide
      · rw [h3]; decide
      · exact absurd h4 hd
    have hm1 : mapSet Enrollment.ID sc.enrollments
        (r.toEnrollment.withStatus EnrollmentDropped now1) =
        (mapSet EventRegistration.ID se.registrations (r.withStatus "cancelled" now1)).map
          EventRegistration.toEnrollment := by
      rw [hen, ← toEnrollment_cancelled, mapSet_map_toEnrollment]
    have hrun : DropEnrollmentAndPromote sc now1 now2 id =
        ({ sc with enrollments := mapSet Enrollment.ID sc.enrollments
                                    (r.toEnrollment.withStatus EnrollmentDropped now1) },
          .ok (r.toEnrollment.withStatus EnrollmentDropped now1, none)) := by
      rcases hor with hnr | hempty
      · have hne : r.toEnrollment.Status ≠ EnrollmentEnrolled := by
          show renameStatus r.Status ≠ _
          rcases renameStatus_valid hvr0 with ⟨h4, -⟩ | ⟨-, h3⟩ | ⟨-, h3⟩
          · exact absurd h4 hnr
          · rw [h3]; decide
          · rw [h3]; decide
        exact drop_not_enrolled sc now1 now2 id r.toEnrollment hget hnd hne
      · by_cases hreg : r.Status = "registered"
        · have hen2 : r.toEnrollment.Status = EnrollmentEnrolled := by
            show renameStatus r.Status = _
            rw [hreg]; decide
          refine drop_enrolled_empty sc now1 now2 id r.toEnrollment hget hen2 ?_
          rw [hm1, waitlistOf_map_toEnrollment _ _ (valid_after_set hv (hvc r))]
          show (eventWaitlistOf _ r.EventID).map _ = []
          rw [hempty]
          rfl
        · have hne : r.toEnrollment.Status ≠ EnrollmentEnrolled := by
            show renameStatus r.Status ≠ _
            rcases renameStatus_valid hvr0 with ⟨h4, -⟩ | ⟨-, h3⟩ | ⟨-, h3⟩
            · exact absurd h4 hreg
            · rw [h3]; decide
            · rw [h3]; decide
          exact drop_not_enrolled sc now1 now2 id r.toEnrollment hget hnd hne
    rw [he, hrun]
    refine ⟨⟨(toEnrollment_cancelled r now1).symm, rfl⟩, hst, hcl, hm1,
      nodup_mapSet EventRegistration.ID _ hkeys, ?_⟩
    exact valid_after_set hv (hvc r)
  · rw [hg] at hget
    have hen2 : r.toEnrollment.Status = EnrollmentEnrolled := by
      show renameStatus r.Status = _
      rw [hreg]; decide
    have hm1 : mapSet Enrollment.ID sc.enrollments
        (r.toEnrollment.withStatus EnrollmentDropped now1) =
        (mapSet EventRegistration.ID se.registrations (r.withStatus "cancelled" now1)).map
          EventRegistration.toEnrollment := by
      rw [hen, ← toEnrollment_cancelled, mapSet_map_toEnrollment]
    have hwl : waitlistOf (mapSet Enrollment.ID sc.enrollments
        (r.toEnrollment.withStatus EnrollmentDropped now1)) r.toEnrollment.ClassID =
        n.toEnrollment :: t.map EventRegistration.toEnrollment := by
      rw [hm1, waitlistOf_map_toEnrollment _ _ (valid_after_set hv (hvc r))]
      show (eventWaitlistOf _ r.EventID).map _ = _
      rw [hw]
      rfl
    have hm2 : mapSet Enrollment.ID
        (mapSet Enrollment.ID sc.enrollments (r.toEnrollment.withStatus EnrollmentDropped now1))
        (n.toEnrollment.withStatus EnrollmentEnrolled now2) =
        (mapSet EventRegistration.ID
          (mapSet EventRegistration.ID se.registrations (r.withStatus "cancelled" now1))
          (n.withStatus "registered" now2)).map EventRegistration.toEnrollment := by
      rw [hm1, ← toEnrollment_registered, mapSet_map_toEnrollment]
    rw [he, drop_enrolled_cons sc now1 now2 id r.toEnrollment n.toEnrollment _ hget hen2 hwl]
    refine ⟨⟨(toEnrollment_cancelled r now1).symm, ?_⟩, hst, hcl, hm2,
      nodup_mapSet EventRegistration.ID _ (nodup_mapSet EventRegistration.ID _ hkeys), ?_⟩
    · show some _ = some _
      rw [toEnrollment_registered]
    · exact valid_after_set (valid_after_set hv (hvc r)) (hvr n)

/-! #### The class facade in another enumeration order -/

theorem mapSet_of_not_mem {α : Type} (key : α → String) (l : List α) (v : α)
    (h : key v ∉ l.map key) : mapSet key l v = l ++ [v] := by
  induction l with
  | nil => rfl
  | cons x xs ih =>
    simp only [List.map_cons, List.mem_cons, not_or] at h
    have hne : ¬ key x = key v := fun hc => h.1 hc.symm
    simp [mapSet, hne, ih h.2]

theorem mapSet_of_mem_nodup {α : Type} (key : α → String) (l : List α) (v : α)
    (hnd : (l.map key).Nodup) (h : key v ∈ l.map key) :
    mapSet key l v = l.map (fun x => if key x == key v then v else x) := by
  induction l with
  | nil => simp at h
  | cons x xs ih =>
    rw [List.map_cons, List.nodup_cons] at hnd
    by_cases hx : key x = key v
    · have hnot : key v ∉ xs.map key := hx ▸ hnd.1
      have hid : xs.map (fun y => if key y == key v then v else y) = xs := by
        conv_rhs => rw [← List.map_id xs]
        apply List.map_congr_left
        intro y hy
        have : ¬ key y = key v := fun hc => hnot (hc ▸ List.mem_map_of_mem key hy)
        simp [this]
      have hb : (key x == key v) = true := by simpa using hx
      simp only [mapSet, hb, if_true, List.map_cons, hid]
    · have hmem : key v ∈ xs.map key := by
        rw [List.map_cons] at h
        rcases List.mem_cons.mp h with h1 | h1
        · exact absurd h1.symm hx
        · exact h1
      have hb : (key x == key v) = false := by simpa using hx
      simp only [mapSet, hb, Bool.false_eq_true, if_false, List.map_cons, ih hnd.2 hmem]

/-- Writing an entry into two enumeration orders of a map gives two
enumeration orders of one map. -/
theorem mapSet_perm {α : Type} (key : α → String) {l m : List α} (v : α)
    (hp : l.Perm m) (hnd : (m.map key).Nodup) :
    (mapSet key l v).Perm (mapSet key m v) := by
  have hndl : (l.map key).Nodup := (hp.map key).nodup_iff.mpr hnd
  by_cases h : key v ∈ m.map key
  · have hl : key v ∈ l.map key := (hp.map key).mem_iff.mpr h
    rw [mapSet_of_mem_nodup key l v hndl hl, mapSet_of_mem_nodup key m v hnd h]
    exact hp.map _
  · have hl : key v ∉ l.map key := fun hc => h ((hp.map key).mem_iff.mp hc)
    rw [mapSet_of_not_mem key l v hl, mapSet_of_not_mem key m v h]
    exact hp.append_right _

theorem any_perm {α : Type} (p : α → Bool) {l m : List α} (hp : l.Perm m) :
    l.any p = m.any p := by
  rw [Bool.eq_iff_iff, List.any_eq_true, List.any_eq_true]
  constructor
  · rintro ⟨x, hx, hpx⟩; exact ⟨x, hp.mem_iff.mp hx, hpx⟩
  · rintro ⟨x, hx, hpx⟩; exact ⟨x, hp.mem_iff.mpr hx, hpx⟩

/-- `ApplyEnrollment` in two enumeration orders of the enrollment map: the same
result, and two enumeration orders of one map afterwards. -/
theorem apply_perm (s : Store) (l : List Enrollment) (now : Time)
    (id studentID classID : String)
    (hnodup : (s.enrollments.map Enrollment.ID).Nodup) (hp : l.Perm s.enrollments) :
    (ApplyEnrollment { s with enrollments := l } now id studentID classID).2 =
      (ApplyEnrollment s now id studentID classID).2 ∧
    (ApplyEnrollment { s with enrollments := l } now id studentID classID).1.students =
      (ApplyEnrollment s now id studentID classID).1.students ∧
    (ApplyEnrollment { s with enrollments := l } now id studentID classID).1.classes =
      (ApplyEnrollment s now id studentID classID).1.classes ∧
    (ApplyEnrollment { s with enrollments := l } now id studentID classID).1.enrollments.Perm
      (ApplyEnrollment s now id studentID classID).1.enrollments := by
  have hA : hasActiveEnrollment { s with enrollments := l } studentID classID =
      hasActiveEnrollment s studentID classID := any_perm _ hp
  have hS : admissionStatus { s with enrollments := l } classID =
      admissionStatus s classID := by
    unfold admissionStatus enrolledCount classCapacity
    simp only [hp.countP_eq]
  by_cases h1 : (mapGet Class.ID s.classes classID).isNone = true
  · have e1 : ApplyEnrollment s now id studentID classID =
        (s, .error (.ValidationError "classId" "not found")) := by
      simp [ApplyEnrollment, h1]
    have e2 : ApplyEnrollment { s with enrollments := l } now id studentID classID =
        ({ s with enrollments := l }, .error (.ValidationError "classId" "not found")) := by
      simp [ApplyEnrollment, h1]
    rw [e1, e2]
    exact ⟨rfl, rfl, rfl, hp⟩
  · have h1f : (mapGet Class.ID s.classes classID).isNone = false := (Bool.not_eq_true _).mp h1
    by_cases h2 : (mapGet Student.ID s.students studentID).isNone = true
    · have e1 : ApplyEnrollment s now id studentID classID =
          (s, .error (.ValidationError "studentId" "not found")) := by
        simp [ApplyEnrollment, h1f, h2]
      have e2 : ApplyEnrollment { s with enrollments := l } now id studentID classID =
          ({ s with enrollments := l }, .error (.ValidationError "studentId" "not found")) := by
        simp [ApplyEnrollment, h1f, h2]
      rw [e1, e2]
      exact ⟨rfl, rfl, rfl, hp⟩
    · have h2f : (mapGet Student.ID s.students studentID).isNone = false :=
        (Bool.not_eq_true _).mp h2
      by_cases h3 : hasActiveEnrollment s studentID classID = true
      · have h3l : hasActiveEnrollment { s with enrollments := l } studentID classID = true := by
          rw [hA]; exact h3
        have e1 : ApplyEnrollment s now id studentID classID =
            (s, .error (.ConflictError "already applied")) := by
          simp [ApplyEnrollment, h1f, h2f, h3]
        have e2 : ApplyEnrollment { s with enrollments := l } now id studentID classID =
            ({ s with enrollments := l }, .error (.ConflictError "already applied")) := by
          simp [ApplyEnrollment, h1f, h2f, h3l]
        rw [e1, e2]
        exact ⟨rfl, rfl, rfl, hp⟩
      · have h3f : hasActiveEnrollment s studentID classID = false := (Bool.not_eq_true _).mp h3
        have h3l : hasActiveEnrollment { s with enrollments := l } studentID classID = false := by
          rw [hA]; exact h3f
        rw [ApplyEnrollment_ok s now id studentID classID h1f h2f h3f,
          ApplyEnrollment_ok { s with enrollments := l } now id studentID classID h1f h2f h3l, hS]
        exact ⟨rfl, rfl, rfl, mapSet_perm Enrollment.ID _ hp hnodup⟩

/-- `DropEnrollmentAndPromote` in two enumeration orders of the enrollment map,
when at most one waiting entry of the class of an enrolled entry holds the
earliest CreatedAt: the same result, and two enumeration orders of one map
afterwards. -/
theorem drop_perm (s : Store) (l : List Enrollment) (now1 now2 : Time) (id : String)
    (hnodup : (s.enrollments.map Enrollment.ID).Nodup) (hp : l.Perm s.enrollments)
    (huniq : ∀ e, mapGet Enrollment.ID s.enrollments id = some e →
      e.Status = EnrollmentEnrolled → earliestWaitingUnique s.enrollments e.ClassID) :
    (DropEnrollmentAndPromote { s with enrollments := l } now1 now2 id).2 =
      (DropEnrollmentAndPromote s now1 now2 id).2 ∧
    (DropEnrollmentAndPromote { s with enrollments := l } now1 now2 id).1.students =
      (DropEnrollmentAndPromote s now1 now2 id).1.students ∧
    (DropEnrollmentAndPromote { s with enrollments := l } now1 now2 id).1.classes =
      (DropEnrollmentAndPromote s now1 now2 id).1.classes ∧
    (DropEnrollmentAndPromote { s with enrollments := l } now1 now2 id).1.enrollments.Perm
      (DropEnrollmentAndPromote s now1 now2 id).1.enrollments := by
  have hget := mapGet_perm hp hnodup id
  cases hg : mapGet Enrollment.ID s.enrollments id with
  | none =>
    rw [hg] at hget
    have e1 : DropEnrollmentAndPromote s now1 now2 id =
        (s, .error (.NotFoundError "enrollment" id)) := by
      simp [DropEnrollmentAndPromote, hg]
    have e2 : DropEnrollmentAndPromote { s with enrollments := l } now1 now2 id =
        ({ s with enrollments := l }, .error (.NotFoundError "enrollment" id)) := by
      simp [DropEnrollmentAndPromote, hget]
    rw [e1, e2]
    exact ⟨rfl, rfl, rfl, hp⟩
  | some e =>
    rw [hg] at hget
    have hgl : mapGet Enrollment.ID ({ s with enrollments := l } : Store).enrollments id =
        some e := hget
    by_cases hd : e.Status = EnrollmentDropped
    · rw [drop_of_dropped s now1 now2 id e hg hd,
        drop_of_dropped { s with enrollments := l } now1 now2 id e hgl hd]
      exact ⟨rfl, rfl, rfl, hp⟩
    · by_cases hen : e.Status = EnrollmentEnrolled
      · have hnw : e.Status ≠ EnrollmentWaitlisted := by rw [hen]; decide
        have hhead := waitlist_head_perm hp e.ClassID (huniq e hg hen)
        have hw1 := waitlistOf_after_drop hg hnw now1 e.ClassID
        have hw2 := waitlistOf_after_drop hget hnw now1 e.ClassID
        have hp1 := mapSet_perm Enrollment.ID (e.withStatus EnrollmentDropped now1) hp hnodup
        cases hm : waitlistOf s.enrollments e.ClassID with
        | nil =>
          have hl : waitlistOf l e.ClassID = [] := by
            cases hl2 : waitlistOf l e.ClassID with
            | nil => rfl
            | cons a t => rw [hl2, hm] at hhead; cases hhead
          rw [drop_enrolled_empty s now1 now2 id e hg hen (hw1.trans hm),
            drop_enrolled_empty { s with enrollments := l } now1 now2 id e hgl hen
              (hw2.trans hl)]
          exact ⟨rfl, rfl, rfl, hp1⟩
        | cons n t =>
          have hl : ∃ t2, waitlistOf l e.ClassID = n :: t2 := by
            cases hl2 : waitlistOf l e.ClassID with
            | nil => rw [hl2, hm] at hhead; cases hhead
            | cons a t2 =>
              rw [hl2, hm] at hhead
              simp only [List.head?_cons, Option.some.injEq] at hhead
              exact ⟨t2, by rw [hhead]⟩
          obtain ⟨t2, hl⟩ := hl
          rw [drop_enrolled_cons s now1 now2 id e n t hg hen (hw1.trans hm),
            drop_enrolled_cons { s with enrollments := l } now1 now2 id e n t2 hgl hen
              (hw2.trans hl)]
          exact ⟨rfl, rfl, rfl,
            mapSet_perm Enrollment.ID _ hp1 (nodup_mapSet Enrollment.ID _ hnodup)⟩
      · rw [drop_not_enrolled s now1 now2 id e hg hd hen,
          drop_not_enrolled { s with enrollments := l } now1 now2 id e hgl hd hen]
        exact ⟨rfl, rfl, rfl,
          mapSet_perm Enrollment.ID (e.withStatus EnrollmentDropped now1) hp hnodup⟩

theorem keys_map_toEnrollment (l : List EventRegistration) :
    (l.map EventRegistration.toEnrollment).map Enrollment.ID =
      l.map EventRegistration.ID := by
  rw [List.map_map]
  rfl

/-- A unique earliest waiting registration of an event is a unique earliest
waiting entry of the corresponding class. -/
theorem earliestWaitingUnique_map (regs : List EventRegistration) (c : String)
    (hv : ∀ r ∈ regs, validRegistrationStatus r.Status = true)
    (h : earliestRegistrationUnique regs c) :
    earliestWaitingUnique (regs.map EventRegistration.toEnrollment) c := by
  have hkey : ∀ r ∈ regs,
      isEarliestWaiting (regs.map EventRegistration.toEnrollment) c r.toEnrollment →
      isEarliestWaitingRegistration regs c r := by
    intro r hr hex
    obtain ⟨h1, h2, h3⟩ := hex
    have h2b : renameStatus r.Status = EnrollmentWaitlisted := h2
    have hw : r.Status = "waitlisted" := by
      rcases renameStatus_valid (hv r hr) with ⟨-, h5⟩ | ⟨h4, -⟩ | ⟨-, h5⟩
      · rw [h5] at h2b; exact absurd h2b (by decide)
      · exact h4
      · rw [h5] at h2b; exact absurd h2b (by decide)
    refine ⟨h1, hw, ?_⟩
    intro z hz hzc hzs
    refine h3 z.toEnrollment (List.mem_map_of_mem _ hz) hzc ?_
    show renameStatus z.Status = EnrollmentWaitlisted
    rw [hzs]; decide
  intro x hx y hy hex hey
  rcases List.mem_map.mp hx with ⟨a, ha, rfl⟩
  rcases List.mem_map.mp hy with ⟨b, hb, rfl⟩
  rw [h a ha b hb (hkey a ha hex) (hkey b hb hey)]

theorem inOrder_of_corresponds {se sc : Store} (h : Corresponds se sc) :
    CorrespondsInOrder se
      { sc with enrollments := se.registrations.map EventRegistration.toEnrollment } :=
  ⟨h.1, h.2.1, rfl, h.2.2.2.1, h.2.2.2.2⟩

theorem corresponds_of_perm {se sc sc2 : Store} (h : CorrespondsInOrder se sc)
    (hs : sc2.students = sc.students) (hc : sc2.classes = sc.classes)
    (hp : sc2.enrollments.Perm sc.enrollments) : Corresponds se sc2 := by
  obtain ⟨hst, hcl, hen, hkeys, hv⟩ := h
  refine ⟨?_, ?_, ?_, hkeys, hv⟩
  · intro id; rw [hs]; exact hst id
  · intro id; rw [hc]; exact hcl id
  · rw [← hen]; exact hp

/-- C25, amended. On corresponding stores (a student ID present in both or in
neither, a class for every event with the same ID and capacity, and as
enrollments, in any enumeration order, the records that correspond to the
registrations under the renaming registered/enrolled, waitlisted/waitlisted,
cancelled/dropped): `applyEventRegistration` returns the result that
corresponds to the one of `ApplyEnrollment` (same success or error kind, same
admitted or waitlisted decision) and leaves corresponding stores whenever the
event has positive capacity and the dedupe loop is not cut short (if the first
registration of the (event, student) pair in enumeration order is cancelled,
all registrations of the pair are; so in particular when they are all cancelled
or all not cancelled); `cancelEventRegistrationAndPromote` returns the result
that corresponds to the one of `DropEnrollmentAndPromote` and leaves
corresponding stores whenever, for a registered entry, at most one waitlisted
registration of its event holds the earliest CreatedAt, or the two maps are
enumerated in the same order. -/
theorem facades_correspond (se sc : Store) (hcor : Corresponds se sc) :
    (∀ (now : Time) (id eventID studentID : String),
      (∀ evt, mapGet Event.ID se.events eventID = some evt → 0 < evt.Capacity) →
      (∀ c,
        se.registrations.find? (fun r => r.EventID == eventID && r.StudentID == studentID) =
          some c →
        c.Status = "cancelled" →
        ∀ r ∈ se.registrations, r.EventID = eventID → r.StudentID = studentID →
          r.Status = "cancelled") →
      applyResultsCorrespond (applyEventRegistration se now id eventID studentID).2
          (ApplyEnrollment sc now id studentID eventID).2 ∧
        Corresponds (applyEventRegistration se now id eventID studentID).1
          (ApplyEnrollment sc now id studentID eventID).1) ∧
    (∀ (now1 now2 : Time) (id : String),
      ((∀ r, mapGet EventRegistration.ID se.registrations id = some r →
          r.Status = "registered" → earliestRegistrationUnique se.registrations r.EventID) ∨
        sc.enrollments = se.registrations.map EventRegistration.toEnrollment) →
      cancelResultsCorrespond (cancelEventRegistrationAndPromote se now1 now2 id).2
          (DropEnrollmentAndPromote sc now1 now2 id).2 ∧
        Corresponds (cancelEventRegistrationAndPromote se now1 now2 id).1
          (DropEnrollmentAndPromote sc now1 now2 id).1) := by
  have hin := inOrder_of_corresponds hcor
  have hnodup : ((se.registrations.map EventRegistration.toEnrollment).map
      Enrollment.ID).Nodup := by
    rw [keys_map_toEnrollment]; exact hcor.2.2.2.1
  have hp := hcor.2.2.1
  constructor
  · intro now id eventID studentID hcap hfirst
    have h1 := apply_corresponds se
      { sc with enrollments := se.registrations.map EventRegistration.toEnrollment }
      now id eventID studentID hin hcap hfirst
    have h2 := apply_perm
      { sc with enrollments := se.registrations.map EventRegistration.toEnrollment }
      sc.enrollments now id studentID eventID hnodup hp
    have h3 : (ApplyEnrollment sc now id studentID eventID).2 = _ := h2.1
    refine ⟨by rw [h3]; exact h1.1, ?_⟩
    exact corresponds_of_perm h1.2 h2.2.1 h2.2.2.1 h2.2.2.2
  · intro now1 now2 id htie
    rcases htie with htie | hsame
    · have h1 := cancel_corresponds se
        { sc with enrollments := se.registrations.map EventRegistration.toEnrollment }
        now1 now2 id hin
      have huniq : ∀ e,
          mapGet Enrollment.ID (se.registrations.map EventRegistration.toEnrollment) id =
            some e →
          e.Status = EnrollmentEnrolled →
          earliestWaitingUnique (se.registrations.map EventRegistration.toEnrollment)
            e.ClassID := by
        intro e hg hen
        rw [mapGet_map_toEnrollment] at hg
        cases hr : mapGet EventRegistration.ID se.registrations id with
        | none => rw [hr] at hg; cases hg
        | some r =>
          rw [hr] at hg
          have he : r.toEnrollment = e := Option.some.inj hg
          subst he
          have hvr := hcor.2.2.2.2 r (mapGet_some_mem EventRegistration.ID hr)
          have hen2 : renameStatus r.Status = EnrollmentEnrolled := hen
          have hreg : r.Status = "registered" := by
            rcases renameStatus_valid hvr with ⟨h4, -⟩ | ⟨-, h5⟩ | ⟨-, h5⟩
            · exact h4
            · rw [h5] at hen2; exact absurd hen2 (by decide)
            · rw [h5] at hen2; exact absurd hen2 (by decide)
          exact earliestWaitingUnique_map se.registrations r.EventID hcor.2.2.2.2
            (htie r hr hreg)
      have h2 := drop_perm
        { sc with enrollments := se.registrations.map EventRegistration.toEnrollment }
        sc.enrollments now1 now2 id hnodup hp huniq
      have h3 : (DropEnrollmentAndPromote sc now1 now2 id).2 = _ := h2.1
      refine ⟨by rw [h3]; exact h1.1, ?_⟩
      exact corresponds_of_perm h1.2 h2.2.1 h2.2.2.1 h2.2.2.2
    · have hin2 : CorrespondsInOrder se sc :=
        ⟨hcor.1, hcor.2.1, hsame, hcor.2.2.2.1, hcor.2.2.2.2⟩
      have h1 := cancel_corresponds se sc now1 now2 id hin2
      exact ⟨h1.1, corresponds_of_perm h1.2 rfl rfl (List.Perm.refl _)⟩

theorem facades_correspond_witness :
    cancelResultsCorrespond (cancelEventRegistrationAndPromote storeE2 7 8 "r1").2
        (DropEnrollmentAndPromote { storeC2 with enrollments := storeC2Reordered }
          7 8 "r1").2 ∧
      Corresponds (cancelEventRegistrationAndPromote storeE2 7 8 "r1").1
        (DropEnrollmentAndPromote { storeC2 with enrollments := storeC2Reordered }
          7 8 "r1").1 :=
  (facades_correspond storeE2 { storeC2 with enrollments := storeC2Reordered }
    ⟨fun _ => rfl, fun id => lookup_class_event _ _ id (by decide), by decide, by decide,
      by decide⟩).2 7 8 "r1" (Or.inl (by decide))

/-- Replay on `storeE2` and the reordered `storeC2`: s2, who already waits for
v1, registers and applies once more; both facades refuse with a conflict. -/
theorem storeE2_apply_corresponds :
    (applyEventRegistration storeE2 9 "r9" "v1" "s2").2 =
      .error (.ConflictError "already registered") ∧
    (ApplyEnrollment { storeC2 with enrollments := storeC2Reordered } 9 "r9" "s2" "v1").2 =
      .error (.ConflictError "already applied") := by
  decide

/-- Replay on `storeE4` and `storeC4`, which hold corresponding records with
two waiting entries of equal CreatedAt, enumerated in different orders: the
event facade promotes r2, the class facade promotes r3. -/
theorem storeE4_tie_diverges :
    Corresponds storeE4 storeC4 ∧
    (cancelEventRegistrationAndPromote storeE4 7 8 "r1").2 =
      .ok ((mkRegistration "r1" "v1" "s1" "registered" 1).withStatus "cancelled" 7,
        some ((mkRegistration "r2" "v1" "s2" "waitlisted" 5).withStatus "registered" 8)) ∧
    (DropEnrollmentAndPromote storeC4 7 8 "r1").2 =
      .ok ((mkEnrollment "r1" "s1" "v1" EnrollmentEnrolled 1).withStatus EnrollmentDropped 7,
        some ((mkEnrollment "r3" "s3" "v1" EnrollmentWaitlisted 5).withStatus
          EnrollmentEnrolled 8)) :=
  ⟨⟨fun _ => rfl, fun id => lookup_class_event _ _ id (by decide), by decide, by decide,
      by decide⟩, by decide, by decide⟩

/-- Replay on `storeE2` and `storeC2`: the two facades promote corresponding
records. -/
theorem storeC2_promotes_r3 :
    (DropEnrollmentAndPromote storeC2 7 8 "r1").2 =
      .ok (((mkRegistration "r1" "v1" "s1" "registered" 1).withStatus
            "cancelled" 7).toEnrollment,
        some ((mkRegistration "r3" "v1" "s3" "waitlisted" 3).withStatus
          "registered" 8).toEnrollment) := by
  decide

end Gsdta
